import Mathlib

/-!
# Poseidon: the HTTP session request parser

A shallow embedding of `src/main/http/session.cpp` (`verbFromString`,
`HttpRequestJob`, `HttpSession::HttpSession`, `HttpSession::onReadAvail`).

Byte strings (`std::string`, the received chunk) are lists of characters.
The observable effects of `onReadAvail` (a call of `respond`, a call of
`shutdownRead`, a job handed to `pend`) are appended to an event log that is
carried in the session record.
-/

namespace Poseidon

/-- A byte string: `std::string`, or the `(data, size)` buffer of a chunk. -/
abbrev Bytes := List Char

/-- Width of `std::size_t` on the target: sizes are taken modulo `2 ^ 64`. -/
def SIZE_MOD : Nat := 2 ^ 64

/-- Unsigned `std::size_t` addition. -/
def sizeAdd (a b : Nat) : Nat := (a + b) % SIZE_MOD

/-- Unsigned `std::size_t` subtraction (wraps below zero). -/
def sizeSub (a b : Nat) : Nat := (a % SIZE_MOD + (SIZE_MOD - b % SIZE_MOD)) % SIZE_MOD

/-- The constant `MAX_REQUEST_LENGTH = 0x4000` of session.cpp, line 15, which the source
comments as the total length of head plus body. -/
def MAX_REQUEST_LENGTH : Nat := 0x4000

/-- Modelled from the spec: the enumeration `HttpVerb` (its header is not among the
sources); the constructors are the names used by `verbFromString` and `stringFromVerb`. -/
inductive HttpVerb where
  | HTTP_INVALID_VERB
  | HTTP_GET
  | HTTP_POST
  | HTTP_HEAD
  | HTTP_PUT
  | HTTP_DELETE
  | HTTP_TRACE
  | HTTP_CONNECT
  | HTTP_OPTIONS
  deriving DecidableEq, Repr

/-- An HTTP status, `(unsigned)status` in `respond`. -/
abbrev HttpStatus := Nat

/-- Modelled from the spec: the status constants of `status.hpp` (not among the sources),
with the numeric codes the spec lists: 400 Bad Request. -/
def HTTP_BAD_REQUEST : HttpStatus := 400

/-- Modelled from the spec: 404 Not Found. -/
def HTTP_NOT_FOUND : HttpStatus := 404

/-- Modelled from the spec: 405 Method Not Allowed. -/
def HTTP_BAD_METHOD : HttpStatus := 405

/-- Modelled from the spec: 413 Request Too Large. -/
def HTTP_REQUEST_TOO_LARGE : HttpStatus := 413

/-- Modelled from the spec: 505 HTTP Version Not Supported. -/
def HTTP_VERSION_NOT_SUP : HttpStatus := 505

/-- Modelled from the spec: `OptionalMap` (its header is not among the sources) is the
multimap of the session; `add` appends a `(name, value)` pair, so the map is the list of
its pairs in the order they were added. -/
abbrev OptionalMap := List (Bytes × Bytes)

/-- The call `map.add(name, value)`. -/
def OptionalMap.add (m : OptionalMap) (name value : Bytes) : OptionalMap := m ++ [(name, value)]

/-- The state constants `ST_FIRST_HEADER`, `ST_HEADERS`, `ST_CONTENTS` of the session. -/
inductive State where
  | ST_FIRST_HEADER
  | ST_HEADERS
  | ST_CONTENTS
  deriving DecidableEq, Repr

/-- The data members of `HttpRequestJob` (session.cpp, lines 125-146), the weak session
pointer left out. -/
structure HttpRequestJob where
  m_verb : HttpVerb
  m_uri : Bytes
  m_getParams : OptionalMap
  m_incomingHeaders : OptionalMap
  m_incomingContents : Bytes
  deriving DecidableEq, Repr

/-- What `onReadAvail` does to the outside world. -/
inductive Event where
  | respond (status : HttpStatus)
  | shutdownRead
  | pend (job : HttpRequestJob)
  deriving DecidableEq, Repr

/-- The data members of `HttpSession` that `onReadAvail` reads and writes, and the log of
the effects performed so far. -/
structure HttpSession where
  m_state : State
  m_totalLength : Nat
  m_contentLength : Nat
  m_line : Bytes
  m_verb : HttpVerb
  m_uri : Bytes
  m_getParams : OptionalMap
  m_headers : OptionalMap
  events : List Event
  deriving DecidableEq, Repr

/-- The helpers of `utilities.hpp` that `onReadAvail` calls and that are not among the
sources: `explode<std::string>(separator, str, limit)` and
`optionalMapFromUrlEncoded(str)`. The parser is parametric in them. -/
structure Env where
  explode : Char → Bytes → Nat → List Bytes
  optionalMapFromUrlEncoded : Bytes → OptionalMap

/-- `HttpSession::HttpSession` (lines 182-186): the initialiser list sets the state and
the two lengths; the strings and maps are empty; `m_verb` is not initialised, its
indeterminate value is the argument. -/
def HttpSession.init (verb0 : HttpVerb) : HttpSession :=
  { m_state := State.ST_FIRST_HEADER, m_totalLength := 0, m_contentLength := 0, m_line := [],
    m_verb := verb0, m_uri := [], m_getParams := [], m_headers := [], events := [] }

/-- `verbFromString` (lines 71-110): a switch on the size, then string comparisons. -/
def verbFromString (verb : Bytes) : HttpVerb :=
  match verb.length with
  | 3 =>
    if verb = "GET".toList then HttpVerb.HTTP_GET
    else if verb = "PUT".toList then HttpVerb.HTTP_PUT
    else HttpVerb.HTTP_INVALID_VERB
  | 4 =>
    if verb = "POST".toList then HttpVerb.HTTP_POST
    else if verb = "HEAD".toList then HttpVerb.HTTP_HEAD
    else HttpVerb.HTTP_INVALID_VERB
  | 5 =>
    if verb = "TRACE".toList then HttpVerb.HTTP_TRACE
    else HttpVerb.HTTP_INVALID_VERB
  | 6 =>
    if verb = "DELETE".toList then HttpVerb.HTTP_DELETE
    else HttpVerb.HTTP_INVALID_VERB
  | 7 =>
    if verb = "CONNECT".toList then HttpVerb.HTTP_CONNECT
    else if verb = "OPTIONS".toList then HttpVerb.HTTP_OPTIONS
    else HttpVerb.HTTP_INVALID_VERB
  | _ => HttpVerb.HTTP_INVALID_VERB

/-- The call `str.find(c)`: the index of the first `c`, `none` for `npos`. -/
def find (c : Char) : Bytes → Option Nat
  | [] => none
  | x :: xs => if x = c then some 0 else (find c xs).map (· + 1)

/-- Lines 212-215: a trailing carriage return is cut off the finished line. -/
def trimCR (line : Bytes) : Bytes :=
  if 0 < line.length ∧ line.getLast? = some '\r' then line.dropLast else line

/-- Lines 263-269: the pointer `value` skips every space that follows the colon. -/
def skipSpaces : Bytes → Bytes
  | [] => []
  | c :: cs => if c = ' ' then skipSpaces cs else c :: cs

/-- The error exits of the loop: `respond(session, status); shutdownRead(); return;`. -/
def HttpSession.fail (s : HttpSession) (status : HttpStatus) : HttpSession :=
  { s with events := s.events ++ [Event.respond status, Event.shutdownRead] }

/-- Lines 286-288 with the constructor of `HttpRequestJob` (lines 136-146): the job takes
the verb by value and swaps the uri, the two maps and the line with its own, freshly
constructed (empty) members; the job is then pended. -/
def HttpSession.pendRequest (s : HttpSession) : HttpSession :=
  { s with
    m_uri := [], m_getParams := [], m_headers := [], m_line := [],
    events := s.events ++ [Event.pend
      { m_verb := s.m_verb, m_uri := s.m_uri, m_getParams := s.m_getParams,
        m_incomingHeaders := s.m_headers, m_incomingContents := s.m_line }] }

/-- How one pass through the body of the `while` loop ends: `next s rest` goes back to the
loop test with `read` pointing at `rest`; `stop s` is a `return`. -/
inductive Flow where
  | next (s : HttpSession) (rest : Bytes)
  | stop (s : HttpSession)
  deriving DecidableEq, Repr

/-- The session a pass leaves behind. -/
def Flow.session : Flow → HttpSession
  | Flow.next s _ => s
  | Flow.stop s => s

/-- Lines 276-294, entered with `read` pointing at `data`: the body block when the state
is `ST_CONTENTS`, then `m_line.clear()`. -/
def contentsAndClear (s : HttpSession) (data : Bytes) : Flow :=
  if s.m_state = State.ST_CONTENTS then
    let bytesAvail := data.length
    let bytesRemaining := sizeSub s.m_contentLength s.m_line.length
    if bytesAvail < bytesRemaining then
      Flow.next { s with m_line := s.m_line ++ data } []
    else
      let s1 := HttpSession.pendRequest { s with m_line := s.m_line ++ data.take bytesRemaining }
      Flow.next
        { s1 with m_state := State.ST_FIRST_HEADER, m_totalLength := 0, m_contentLength := 0,
                  m_line := [] }
        (data.drop bytesRemaining)
  else
    Flow.next { s with m_line := [] } data

/-- Lines 240-247: the second token is cut at its first question mark into `m_uri` and the
query, and the query is parsed into `m_getParams`. -/
def HttpSession.setUri (env : Env) (s : HttpSession) (p1 : Bytes) : HttpSession :=
  match find '?' p1 with
  | none => { s with m_uri := p1, m_getParams := [] }
  | some questionPos =>
    { s with m_uri := p1.take questionPos,
             m_getParams := env.optionalMapFromUrlEncoded (p1.drop (questionPos + 1)) }

/-- Lines 216-254: a finished line in state `ST_FIRST_HEADER`; `rest` is the unread input. -/
def firstHeaderLine (env : Env) (s : HttpSession) (rest : Bytes) : Flow :=
  if s.m_line = [] then Flow.next s rest
  else
    match env.explode ' ' s.m_line 3 with
    | [p0, p1, p2] =>
      let s1 := { s with m_verb := verbFromString p0 }
      if s1.m_verb = HttpVerb.HTTP_INVALID_VERB then Flow.stop (s1.fail HTTP_BAD_METHOD)
      else if p1 = [] ∨ p1.head? ≠ some '/' then Flow.stop (s1.fail HTTP_BAD_REQUEST)
      else
        let s2 := s1.setUri env p1
        if p2 ≠ "HTTP/1.0".toList ∧ p2 ≠ "HTTP/1.1".toList then
          Flow.stop (s2.fail HTTP_VERSION_NOT_SUP)
        else contentsAndClear { s2 with m_state := State.ST_HEADERS } rest
    | _ => Flow.stop (s.fail HTTP_BAD_REQUEST)

/-- Lines 255-274: a finished line in state `ST_HEADERS`. -/
def headerLine (s : HttpSession) (rest : Bytes) : Flow :=
  if s.m_line ≠ [] then
    match find ':' s.m_line with
    | none => Flow.stop (s.fail HTTP_BAD_REQUEST)
    | some delimPos =>
      contentsAndClear
        { s with m_headers :=
            s.m_headers.add (s.m_line.take delimPos) (skipSpaces (s.m_line.drop (delimPos + 1))) }
        rest
  else contentsAndClear { s with m_state := State.ST_CONTENTS } rest

/-- One pass through the body of the loop `while(read != end)` (lines 205-294), entered
with `read` pointing at `ch :: rest`. -/
def iteration (env : Env) (s : HttpSession) (ch : Char) (rest : Bytes) : Flow :=
  if s.m_state ≠ State.ST_CONTENTS then
    if ch ≠ '\n' then Flow.next { s with m_line := s.m_line ++ [ch] } rest
    else
      let s1 := { s with m_line := trimCR s.m_line }
      if s1.m_state = State.ST_FIRST_HEADER then firstHeaderLine env s1 rest
      else headerLine s1 rest
  else contentsAndClear s (ch :: rest)

/-- The loop `while(read != end)` run for at most `fuel` passes. -/
def readLoopFuel (env : Env) : Nat → HttpSession → Bytes → HttpSession
  | 0, s, _ => s
  | _ + 1, s, [] => s
  | fuel + 1, s, ch :: rest =>
    match iteration env s ch rest with
    | Flow.stop s1 => s1
    | Flow.next s1 rest1 => readLoopFuel env fuel s1 rest1

/-- The loop `while(read != end)` of `onReadAvail` (lines 204-295). A pass either reads at
least one byte or leaves the state `ST_CONTENTS`, so `2 * size + 1` passes are enough
(`readLoop_nil` and `readLoop_cons` below are the unfolding of the loop). -/
def readLoop (env : Env) (s : HttpSession) (data : Bytes) : HttpSession :=
  readLoopFuel env (2 * data.length + 1) s data

/-- `HttpSession::onReadAvail(data, size)` (lines 194-296). -/
def onReadAvail (env : Env) (s : HttpSession) (data : Bytes) : HttpSession :=
  if sizeAdd s.m_totalLength data.length ≥ MAX_REQUEST_LENGTH then
    s.fail HTTP_REQUEST_TOO_LARGE
  else
    readLoop env { s with m_totalLength := sizeAdd s.m_totalLength data.length } data

/-- A sequence of `onReadAvail` calls, one per chunk. -/
def feed (env : Env) (s : HttpSession) (chunks : List Bytes) : HttpSession :=
  chunks.foldl (onReadAvail env) s

/-- The events a call of `onReadAvail` adds to the log. -/
def emitted (env : Env) (s : HttpSession) (data : Bytes) : List Event :=
  (onReadAvail env s data).events.drop s.events.length

/-- Modelled from the spec: `explode(separator, str, limit)` of `utilities.hpp`, not
among the sources. The parser calls it as `explode<std::string>(' ', m_line, 3)`, which the
spec words as "split on spaces into exactly 3 tokens; otherwise 400": the string is cut at
every separator, so that a line with more than two spaces gives more than three pieces.
The spec gives the third argument no meaning, and the model makes no use of it. -/
def explode (sep : Char) : Bytes → Nat → List Bytes
  | [], _ => [[]]
  | c :: cs, limit =>
    if c = sep then [] :: explode sep cs limit
    else
      match explode sep cs limit with
      | [] => [[c]]
      | p :: ps => (c :: p) :: ps

/-- Modelled from the spec: the value of a hexadecimal digit of a `%XX` escape. -/
def hexValue (c : Char) : Option Nat :=
  if '0' ≤ c ∧ c ≤ '9' then some (c.toNat - '0'.toNat)
  else if 'a' ≤ c ∧ c ≤ 'f' then some (c.toNat - 'a'.toNat + 10)
  else if 'A' ≤ c ∧ c ≤ 'F' then some (c.toNat - 'A'.toNat + 10)
  else none

/-- Modelled from the spec: URL decoding, `+` is a space and `%XX` is the byte `XX`. -/
def urlDecode : Bytes → Bytes
  | [] => []
  | '+' :: cs => ' ' :: urlDecode cs
  | '%' :: a :: b :: cs =>
    match hexValue a, hexValue b with
    | some x, some y => Char.ofNat (16 * x + y) :: urlDecode cs
    | _, _ => '%' :: urlDecode (a :: b :: cs)
  | c :: cs => c :: urlDecode cs

/-- Modelled from the spec: `optionalMapFromUrlEncoded` of `utilities.hpp`, not among the
sources, "parse query as URL-encoded multimap": the `&`-separated pieces, each cut at its
first `=` and decoded. -/
def optionalMapFromUrlEncoded (query : Bytes) : OptionalMap :=
  ((explode '&' query 0).filter (· ≠ [])).map fun piece =>
    match find '=' piece with
    | none => (urlDecode piece, [])
    | some i => (urlDecode (piece.take i), urlDecode (piece.drop (i + 1)))

/-- The two helpers as modelled above. -/
def specEnv : Env :=
  { explode := explode, optionalMapFromUrlEncoded := optionalMapFromUrlEncoded }

/-- The verb strings the spec lists as accepted. -/
def acceptedVerbs : List Bytes :=
  ["GET".toList, "POST".toList, "HEAD".toList, "PUT".toList, "DELETE".toList, "TRACE".toList,
   "CONNECT".toList, "OPTIONS".toList]

/-- The session right after a request with body `body` has been posted from `s`
(lines 284-294): the job holds the verb, uri, maps and body, the session is reset. -/
def HttpSession.posted (s : HttpSession) (body : Bytes) : HttpSession :=
  { m_state := State.ST_FIRST_HEADER, m_totalLength := 0, m_contentLength := 0, m_line := [],
    m_verb := s.m_verb, m_uri := [], m_getParams := [], m_headers := [],
    events := s.events ++ [Event.pend
      { m_verb := s.m_verb, m_uri := s.m_uri, m_getParams := s.m_getParams,
        m_incomingHeaders := s.m_headers, m_incomingContents := body }] }

/-- The bound on the passes still to run: twice the unread bytes, plus one pass when the
state is `ST_CONTENTS`. -/
def loopMeasure (s : HttpSession) (data : Bytes) : Nat :=
  2 * data.length + (if s.m_state = State.ST_CONTENTS then 1 else 0)

/-- The session states between calls: a fresh session, and what `onReadAvail` makes of a
reachable state. -/
inductive Reachable (env : Env) : HttpSession → Prop where
  | init (verb0 : HttpVerb) : Reachable env (HttpSession.init verb0)
  | step (s : HttpSession) (data : Bytes) : Reachable env s → Reachable env (onReadAvail env s data)

/-! # The timer daemon

A shallow embedding of `src/singletons/timer_daemon.cpp`. A `TimerItem` lives on the heap
and is known by its index in `TimerDaemon.items`; the slot is `none` once the last
`shared_ptr` to the item is gone, so that `weak_ptr::lock` is a lookup. The vector
`g_timers` is a list. Times are `boost::uint64_t` milliseconds. -/

/-- The largest `boost::uint64_t`. -/
def U64_MAX : Nat := 2 ^ 64 - 1

/-- Modelled from the spec: `saturated_add` of `checked_arithmetic.hpp`, not among the
sources, "arithmetic that clamps at the type's extrema instead of wrapping". -/
def saturated_add (a b : Nat) : Nat := if U64_MAX < a + b then U64_MAX else a + b

/-- Modelled from the spec: `checked_sub` of `checked_arithmetic.hpp`, not among the
sources: the difference, and no result (an exception) when it would be negative. -/
def checked_sub (a b : Nat) : Option Nat := if a < b then none else some (a - b)

/-- `MS_PER_HOUR` (line 38). -/
def MS_PER_HOUR : Nat := 3600000

/-- `MS_PER_DAY` (line 39). -/
def MS_PER_DAY : Nat := MS_PER_HOUR * 24

/-- `MS_PER_WEEK` (line 40). -/
def MS_PER_WEEK : Nat := MS_PER_DAY * 7

/-- `struct TimerItem` (lines 20-35); the callback is left out, it is known by the item. -/
structure TimerItem where
  period : Nat
  low_level : Bool
  stamp : Nat
  deriving DecidableEq, Repr

/-- `struct TimerQueueElement` (lines 68-80); `item` is the weak pointer, the index of the
item. -/
structure TimerQueueElement where
  next : Nat
  item : Nat
  stamp : Nat
  deriving DecidableEq, Repr

/-- `TimerQueueElement::operator<` (lines 77-79): `next > rhs.next`. -/
def TimerQueueElement.lt (lhs rhs : TimerQueueElement) : Bool := decide (lhs.next > rhs.next)

/-- The heap property of `std::is_heap` for `operator<`: no element is less than the child
at `i`, its parent being at `(i - 1) / 2`. -/
def IsHeap (v : List TimerQueueElement) : Prop :=
  ∀ (i : Nat) (p c : TimerQueueElement), 0 < i → v[(i - 1) / 2]? = some p → v[i]? = some c →
    p.lt c = false

/-- What the daemon takes from outside the sources: `std::push_heap` and `std::pop_heap`
of the C++ library, applied to the whole vector, and the constant `PERIOD_NOT_MODIFIED` of
`timer_daemon.hpp`. -/
structure TimerEnv where
  push_heap : List TimerQueueElement → List TimerQueueElement
  pop_heap : List TimerQueueElement → List TimerQueueElement
  PERIOD_NOT_MODIFIED : Nat

/-- The contract of the two library calls. `push_heap`: when the range without its last
element is a heap, the result is a heap holding the same elements. `pop_heap`: when the
range is a non-empty heap, the result holds the same elements, the value that was at the
front is at the back, and the range without it is a heap. -/
def TimerEnv.Lawful (env : TimerEnv) : Prop :=
  (∀ v, v ≠ [] → IsHeap v.dropLast →
    IsHeap (env.push_heap v) ∧ (env.push_heap v).Perm v) ∧
  (∀ v, v ≠ [] → IsHeap v →
    (env.pop_heap v).Perm v ∧ (env.pop_heap v).getLast? = v.head? ∧
      IsHeap (env.pop_heap v).dropLast)

/-- The state of the daemon: the timer items ever created (a slot is `none` when the item
has been destroyed) and the vector `g_timers` (line 94). -/
structure TimerDaemon where
  items : List (Option TimerItem)
  g_timers : List TimerQueueElement
  deriving DecidableEq, Repr

/-- The daemon before any timer is registered. -/
def TimerDaemon.empty : TimerDaemon := { items := [], g_timers := [] }

/-- The call `weak.lock()` on the weak pointer `id`. -/
def lockItem (items : List (Option TimerItem)) (id : Nat) : Option TimerItem :=
  (items[id]?).join

/-- An element is live and not stale: its item exists and has the stamp of the element
(the negation of the test at line 113). -/
def isLive (items : List (Option TimerItem)) (e : TimerQueueElement) : Bool :=
  match lockItem items e.item with
  | some it => decide (it.stamp = e.stamp)
  | none => false

/-- `unsigned long` increment, `++(item->stamp)`. -/
def stampSucc (stamp : Nat) : Nat := (stamp + 1) % 2 ^ 64

/-- The common body of `register_absolute_timer` (lines 184-199) and
`register_low_level_absolute_timer` (lines 230-245): a new item with stamp 0, an element
for it pushed onto the heap. The result is the new state and the returned item. -/
def registerItem (env : TimerEnv) (d : TimerDaemon) (first period : Nat) (low_level : Bool) :
    TimerDaemon × Nat :=
  let id := d.items.length
  let item : TimerItem := { period := period, low_level := low_level, stamp := 0 }
  ({ items := d.items ++ [some item],
     g_timers := env.push_heap (d.g_timers ++ [{ next := first, item := id, stamp := item.stamp }]) },
   id)

/-- `TimerDaemon::register_absolute_timer` (lines 184-199). -/
def register_absolute_timer (env : TimerEnv) (d : TimerDaemon) (first period : Nat) :
    TimerDaemon × Nat :=
  registerItem env d first period false

/-- `TimerDaemon::register_timer` (lines 200-205); `now` is the reading of
`get_fast_mono_clock()`. -/
def register_timer (env : TimerEnv) (d : TimerDaemon) (now delta_first period : Nat) :
    TimerDaemon × Nat :=
  register_absolute_timer env d (saturated_add now delta_first) period

/-- `TimerDaemon::register_low_level_absolute_timer` (lines 230-245). -/
def register_low_level_absolute_timer (env : TimerEnv) (d : TimerDaemon) (first period : Nat) :
    TimerDaemon × Nat :=
  registerItem env d first period true

/-- `TimerDaemon::register_low_level_timer` (lines 246-251). -/
def register_low_level_timer (env : TimerEnv) (d : TimerDaemon) (now delta_first period : Nat) :
    TimerDaemon × Nat :=
  register_low_level_absolute_timer env d (saturated_add now delta_first) period

/-- `TimerDaemon::set_absolute_time` (lines 253-266). The caller holds a `shared_ptr`, so
the item exists; for an index without an item nothing is done. -/
def set_absolute_time (env : TimerEnv) (d : TimerDaemon) (item first period : Nat) :
    TimerDaemon :=
  match lockItem d.items item with
  | none => d
  | some it =>
    let it1 := if period ≠ env.PERIOD_NOT_MODIFIED then { it with period := period } else it
    let pushed := d.g_timers ++ [{ next := first, item := item, stamp := it1.stamp }]
    let it2 := { it1 with stamp := stampSucc it1.stamp }
    { items := d.items.set item (some it2),
      g_timers := env.push_heap
        (pushed.dropLast ++ [{ next := first, item := item, stamp := it2.stamp }]) }

/-- `TimerDaemon::set_time` (lines 267-272). -/
def set_time (env : TimerEnv) (d : TimerDaemon) (now item delta_first period : Nat) :
    TimerDaemon :=
  set_absolute_time env d item (saturated_add now delta_first) period

/-- The loop `_pick_next` of `pump_one_element` (lines 104-122), run for at most `fuel`
rounds on the vector `v`: the new vector, and the element popped for dispatch (as it was
popped) with its item. -/
def pickNext (env : TimerEnv) (items : List (Option TimerItem)) (now : Nat) :
    Nat → List TimerQueueElement → List TimerQueueElement × Option (TimerQueueElement × TimerItem)
  | 0, v => (v, none)
  | fuel + 1, v =>
    match v.head? with
    | none => (v, none)
    | some front =>
      if now < front.next then (v, none)
      else
        let v1 := env.pop_heap v
        match v1.getLast? with
        | none => (v1, none)
        | some back =>
          match lockItem items back.item with
          | none => pickNext env items now fuel v1.dropLast
          | some it =>
            if it.stamp ≠ back.stamp then pickNext env items now fuel v1.dropLast
            else if it.period = 0 then (v1.dropLast, some (back, it))
            else
              (env.push_heap
                (v1.dropLast ++ [{ back with next := saturated_add back.next it.period }]),
               some (back, it))

/-- What `pump_one_element` hands on when it returns `true`: the element popped, the
period and kind of its item, and the clock reading `now`. A low level timer has its
callback called with `(item, now, period)`; otherwise a `TimerJob` holding the item and
`now` is enqueued (lines 124-137). -/
structure Fired where
  elem : TimerQueueElement
  period : Nat
  low_level : Bool
  now : Nat
  deriving DecidableEq, Repr

/-- `pump_one_element` (lines 96-138) at the clock reading `now`. The result carries a
`Fired` exactly when the function returns `true`. Each round of the loop removes an
element, so one round more than the size of the vector is enough. -/
def pump_one_element (env : TimerEnv) (d : TimerDaemon) (now : Nat) :
    TimerDaemon × Option Fired :=
  match pickNext env d.items now (d.g_timers.length + 1) d.g_timers with
  | (v, none) => ({ d with g_timers := v }, none)
  | (v, some (e, it)) =>
    ({ d with g_timers := v },
     some { elem := e, period := it.period, low_level := it.low_level, now := now })

/-- The offset of `register_hourly_timer` (line 211), in `unsigned long` arithmetic. -/
def hourlyOffset (minute second : Nat) : Nat :=
  ((minute * 60 + second) * 1000) % 2 ^ 64

/-- The offset of `register_daily_timer` (line 218). -/
def dailyOffset (hour minute second : Nat) : Nat :=
  ((hour * 3600 + minute * 60 + second) * 1000) % 2 ^ 64

/-- The offset of `register_weekly_timer` (line 226); `day_of_week + 3` is computed in
`unsigned`. -/
def weeklyOffset (day_of_week hour minute second : Nat) : Nat :=
  ((((day_of_week + 3) % 2 ^ 32) * 86400 + hour * 3600 + minute * 60 + second) * 1000) % 2 ^ 64

/-- The first argument that the three calendar registrations pass to `register_timer`:
`period - delta % period` with `delta = checked_sub(virt_now, offset)`. -/
def calendarDelay (period virt_now offset : Nat) : Option Nat :=
  match checked_sub virt_now offset with
  | none => none
  | some delta => some (period - delta % period)

/-- `TimerDaemon::register_hourly_timer` (lines 207-213); `virt_now` is the wall clock
chosen by `utc`, `now` the monotonic clock read in `register_timer`. No result when
`checked_sub` throws. -/
def register_hourly_timer (env : TimerEnv) (d : TimerDaemon) (virt_now now minute second : Nat) :
    Option (TimerDaemon × Nat) :=
  (calendarDelay MS_PER_HOUR virt_now (hourlyOffset minute second)).map fun delay =>
    register_timer env d now delay MS_PER_HOUR

/-- `TimerDaemon::register_daily_timer` (lines 214-220). -/
def register_daily_timer (env : TimerEnv) (d : TimerDaemon)
    (virt_now now hour minute second : Nat) : Option (TimerDaemon × Nat) :=
  (calendarDelay MS_PER_DAY virt_now (dailyOffset hour minute second)).map fun delay =>
    register_timer env d now delay MS_PER_DAY

/-- `TimerDaemon::register_weekly_timer` (lines 221-228). -/
def register_weekly_timer (env : TimerEnv) (d : TimerDaemon)
    (virt_now now day_of_week hour minute second : Nat) : Option (TimerDaemon × Nat) :=
  (calendarDelay MS_PER_WEEK virt_now (weeklyOffset day_of_week hour minute second)).map
    fun delay => register_timer env d now delay MS_PER_WEEK

/-- The day of the week of an instant given in milliseconds since the epoch, 0 being
Sunday, when day 0 of the epoch is a Thursday. -/
def weekdayOf (t : Nat) : Nat := (t / MS_PER_DAY + 4) % 7

/-- The time of day of an instant, in milliseconds since midnight. -/
def timeOfDay (t : Nat) : Nat := t % MS_PER_DAY

/-- Insertion into a list sorted by `next`. -/
def insertByNext (x : TimerQueueElement) : List TimerQueueElement → List TimerQueueElement
  | [] => [x]
  | y :: ys => if x.next ≤ y.next then x :: y :: ys else y :: insertByNext x ys

/-- Sorting by `next`. -/
def sortByNext : List TimerQueueElement → List TimerQueueElement
  | [] => []
  | x :: xs => insertByNext x (sortByNext xs)

/-- An instance of the two library calls that meets their contract (a vector sorted by
`next` is a heap): `push_heap` sorts the vector, `pop_heap` moves the front to the back
and sorts the rest. `PERIOD_NOT_MODIFIED` is taken as the largest `boost::uint64_t`. -/
def sortedEnv : TimerEnv :=
  { push_heap := sortByNext,
    pop_heap := fun v =>
      match v with
      | [] => []
      | front :: rest => sortByNext rest ++ [front],
    PERIOD_NOT_MODIFIED := U64_MAX }

/-- What happens to the daemon: the registrations, `set_absolute_time`, a run of
`pump_one_element` at a clock reading, and the release of the last `shared_ptr` to an
item. The relative calls `register_timer`, `register_low_level_timer` and `set_time` are
the absolute ones at `saturated_add(now, delta)`. -/
inductive TimerOp where
  | register (first period : Nat) (low_level : Bool)
  | setTime (item first period : Nat)
  | pump (now : Nat)
  | release (item : Nat)
  deriving DecidableEq, Repr

/-- One operation; a pump that dispatches reports what it fired. -/
def TimerDaemon.step (env : TimerEnv) (d : TimerDaemon) : TimerOp → TimerDaemon × Option Fired
  | TimerOp.register first period low_level => ((registerItem env d first period low_level).1, none)
  | TimerOp.setTime item first period => (set_absolute_time env d item first period, none)
  | TimerOp.pump now => pump_one_element env d now
  | TimerOp.release item => ({ d with items := d.items.set item none }, none)

/-- A sequence of operations: the final state and the dispatches in order. -/
def TimerDaemon.run (env : TimerEnv) : TimerDaemon → List TimerOp → TimerDaemon × List Fired
  | d, [] => (d, [])
  | d, op :: ops =>
    let r := d.step env op
    let rs := TimerDaemon.run env r.1 ops
    (rs.1, r.2.toList ++ rs.2)

/-- The element `x` belongs to the item `id` and is live and not stale. -/
def liveFor (items : List (Option TimerItem)) (id : Nat) (x : TimerQueueElement) : Bool :=
  decide (x.item = id) && isLive items x

/-- The invariant of the daemon states reached from the empty daemon in `n` operations:
the vector is a heap; every element belongs to an item slot that exists; no stamp exceeds
`n`; no element carries a stamp above the stamp of its item; and no item has two elements
with its current stamp. -/
def TimerDaemon.WF (d : TimerDaemon) (n : Nat) : Prop :=
  IsHeap d.g_timers ∧
  (∀ x ∈ d.g_timers, x.item < d.items.length) ∧
  (∀ id it, lockItem d.items id = some it → it.stamp ≤ n) ∧
  (∀ x ∈ d.g_timers, ∀ it, lockItem d.items x.item = some it → x.stamp ≤ it.stamp) ∧
  (∀ id, d.g_timers.countP (liveFor d.items id) ≤ 1)

/-- The operations that neither register a timer nor reschedule one: a pump, the release
of an item. -/
def TimerOp.keepsSchedule : TimerOp → Bool
  | TimerOp.pump _ => true
  | TimerOp.release _ => true
  | _ => false

/-- The operation is a `set_absolute_time` (or `set_time`) on the item `id`. -/
def TimerOp.reschedules (id : Nat) : TimerOp → Bool
  | TimerOp.setTime item _ _ => decide (item = id)
  | _ => false

/-! # The HTTP response and the request job

A shallow embedding of `respond` (session.cpp, lines 17-69) and of
`HttpRequestJob::perform` (lines 149-177). -/

/-- Modelled from the spec: `OptionalMap::get`, the value stored under a key, the first one
in the list, and the empty string when there is none. -/
def OptionalMap.get : OptionalMap → Bytes → Bytes
  | [], _ => []
  | (k, v) :: rest, key => if k = key then v else OptionalMap.get rest key

/-- The map holds an entry under the key. -/
def OptionalMap.has : OptionalMap → Bytes → Bool
  | [], _ => false
  | (k, _) :: rest, key => if k = key then true else OptionalMap.has rest key

/-- Modelled from the spec: `OptionalMap::set(key, value)`: afterwards the map holds this
value under the key and no other ("always emit `Content-Length`"). -/
def OptionalMap.set (m : OptionalMap) (key value : Bytes) : OptionalMap :=
  m.filter (fun p => p.1 ≠ key) ++ [(key, value)]

/-- Modelled from the spec: `OptionalMap::create(key)`: an entry with an empty value is
added when the map holds none under the key; the result of the call is a reference to the
value stored under the key. -/
def OptionalMap.create (m : OptionalMap) (key : Bytes) : OptionalMap :=
  if m.has key then m else m ++ [(key, [])]

/-- Assignment through the reference that `create` returns: the value of the first entry
under the key is replaced. -/
def OptionalMap.assignFirst : OptionalMap → Bytes → Bytes → OptionalMap
  | [], _, _ => []
  | (k, v) :: rest, key, value =>
    if k = key then (k, value) :: rest else (k, v) :: OptionalMap.assignFirst rest key value

/-- The record returned by `getHttpStatusCodeDesc` (`status.hpp`, not among the sources). -/
structure HttpStatusCodeDesc where
  descShort : Bytes
  descLong : Bytes

/-- The status table `getHttpStatusCodeDesc`, not among the sources: a parameter. -/
abbrev StatusTable := HttpStatus → HttpStatusCodeDesc

/-- The call `boost::lexical_cast<std::string>` on an unsigned number: its decimal digits. -/
def toDecimal (n : Nat) : Bytes := Nat.toDigits 10 n

/-- Line 23: `codeStatus`, the code, a space and the short description. -/
def codeStatus (table : StatusTable) (status : HttpStatus) : Bytes :=
  toDecimal status ++ ' ' :: (table status).descShort

/-- Lines 36-42: the page put into an empty body of a response that is not 2xx. -/
def errorPage (table : StatusTable) (status : HttpStatus) : Bytes :=
  "<html><head><title>".toList ++ codeStatus table status ++
    "</title></head><body><h1>".toList ++ codeStatus table status ++
    "</h1><hr /><p>".toList ++ (table status).descLong ++ "</p></body></html>".toList

/-- The test of line 35: the body is empty and the status is not 2xx. -/
def needsErrorPage (status : HttpStatus) (contents : Bytes) : Bool :=
  decide (contents = []) && decide (status / 100 ≠ 2)

/-- Lines 35-50: the body that is sent. -/
def respondContents (table : StatusTable) (status : HttpStatus) (contents : Bytes) : Bytes :=
  if needsErrorPage status contents then errorPage table status else contents

/-- Lines 35-51: the header map that is sent. -/
def respondHeaders (table : StatusTable) (status : HttpStatus) (headers : OptionalMap)
    (contents : Bytes) : OptionalMap :=
  let typed :=
    if needsErrorPage status contents then
      headers.set "Content-Type".toList "text/html; charset=utf-8".toList
    else
      let created := headers.create "Content-Type".toList
      if created.get "Content-Type".toList = [] then
        created.assignFirst "Content-Type".toList "text/plain; charset=utf-8".toList
      else created
  typed.set "Content-Length".toList (toDecimal (respondContents table status contents).length)

/-- Lines 57-64: the header lines, one for every entry whose value is not empty. -/
def serializeHeaders : OptionalMap → Bytes
  | [] => []
  | (name, value) :: rest =>
    if value ≠ [] then name ++ ": ".toList ++ value ++ "\r\n".toList ++ serializeHeaders rest
    else serializeHeaders rest

/-- `respond` (lines 17-69): the buffer handed to `session->sendUsingMove`. A null
`headers` or `contents` stands for an empty map or an empty body. -/
def respond (table : StatusTable) (status : HttpStatus) (headers : Option OptionalMap)
    (contents : Option Bytes) : Bytes :=
  "HTTP/1.1 ".toList ++ codeStatus table status ++ "\r\n".toList ++
    serializeHeaders (respondHeaders table status (headers.getD []) (contents.getD [])) ++
    "\r\n".toList ++ respondContents table status (contents.getD [])

/-- How a call of a servlet ends: it returns a status, having filled its output headers
and body; or it throws a `ProtocolException` with a numeric code, whatever it had put into
its outputs; or it throws something else. -/
inductive ServletResult where
  | returned (status : HttpStatus) (headers : OptionalMap) (contents : Bytes)
  | protocolException (code : Int) (headers : OptionalMap) (contents : Bytes)
  | otherException

/-- A servlet, called with the verb, the parameters, the incoming headers and the
incoming body (line 167); its output headers and body start empty. -/
abbrev HttpServlet := HttpVerb → OptionalMap → OptionalMap → Bytes → ServletResult

/-- What `perform` does: the buffers it sends, in order, and whether an exception leaves
it. -/
structure PerformOutcome where
  sent : List Bytes
  thrown : Bool
  deriving DecidableEq, Repr

/-- `HttpRequestJob::perform` (lines 149-177). `alive` says whether `m_session.lock()`
succeeds, `getServlet` is the lookup of `HttpServletManager::getServlet`. -/
def HttpRequestJob.perform (table : StatusTable) (getServlet : Bytes → Option HttpServlet)
    (alive : Bool) (job : HttpRequestJob) : PerformOutcome :=
  if alive = false then { sent := [], thrown := false }
  else
    match getServlet job.m_uri with
    | none => { sent := [respond table HTTP_NOT_FOUND none none], thrown := false }
    | some servlet =>
      match servlet job.m_verb job.m_getParams job.m_incomingHeaders job.m_incomingContents with
      | ServletResult.returned status headers contents =>
        { sent := [respond table status (some headers) (some contents)], thrown := false }
      | ServletResult.protocolException code _ _ =>
        if code > 0 then { sent := [respond table code.toNat none none], thrown := false }
        else { sent := [], thrown := false }
      | ServletResult.otherException => { sent := [], thrown := true }

/-- A status table for the examples, with the short description of 404 that the spec
quotes; the long descriptions are placeholders. -/
def sampleTable : StatusTable := fun status =>
  if status = 404 then
    { descShort := "Not Found".toList,
      descLong := "The requested resource was not found.".toList }
  else if status = 200 then { descShort := "OK".toList, descLong := [] }
  else { descShort := "Unknown".toList, descLong := [] }

/-- The job that the request `GET /hello HTTP/1.1` with no header and no body makes. -/
def helloJob : HttpRequestJob :=
  { m_verb := HttpVerb.HTTP_GET, m_uri := "/hello".toList, m_getParams := [],
    m_incomingHeaders := [], m_incomingContents := [] }

/-- A servlet that throws a `ProtocolException` with the code it is given, after it has put
a header and some bytes into its outputs. -/
def throwingServlet (code : Int) : HttpServlet :=
  fun _ _ _ _ => ServletResult.protocolException code [("X-Partial".toList, "1".toList)]
    "partial".toList

/-- A servlet that returns 200 with one header and the body `hi`. -/
def greetingServlet : HttpServlet :=
  fun _ _ _ _ => ServletResult.returned 200 [("X-Served-By".toList, "greeting".toList)]
    "hi".toList

/-- A run of the daemon for the examples: a periodic timer due at 100, a one-shot low level
timer due at 120, a one-shot timer due at 90; the first is rescheduled to 300, the last
`shared_ptr` to the third is released. -/
def timerScenario : List TimerOp :=
  [TimerOp.register 100 50 false, TimerOp.register 120 0 true, TimerOp.register 90 0 false,
   TimerOp.setTime 0 300 U64_MAX, TimerOp.release 2]

/-! # The HTTP client jobs

A shallow embedding of `src/http/client.cpp`: the wrapper `ClientJobBase::perform`
(lines 30-51) and the four jobs that derive from it (lines 55-137). -/

/-- The argument `ResponseHeaders` of `onResponseHeaders`; its header is not among the
sources. The jobs only carry it: the status code is the field the source names (line 71),
the other fields are kept together. -/
structure ResponseHeaders where
  statusCode : Nat
  others : Bytes
  deriving DecidableEq, Repr

/-- The four jobs of lines 55-137 with the arguments their constructors capture. -/
inductive ClientJob where
  | ResponseHeaderJob (m_responseHeaders : ResponseHeaders) (m_contentLength : Nat)
  | EntityJob (m_contentOffset : Nat) (m_entity : Bytes)
  | ChunkedTrailerJob (m_realContentLength : Nat) (m_headers : OptionalMap)
  | ContentEofJob (m_realContentLength : Nat)
  deriving DecidableEq, Repr

/-- A call of one of the four hooks of `Client`, with its arguments. -/
inductive ClientHookCall where
  | onResponseHeaders (responseHeaders : ResponseHeaders) (contentLength : Nat)
  | onEntity (contentOffset : Nat) (entity : Bytes)
  | onChunkedTrailer (realContentLength : Nat) (headers : OptionalMap)
  | onContentEof (realContentLength : Nat)
  deriving DecidableEq, Repr

/-- What leaves a hook, and `perform`, as an exception: `TryAgainLater`, another
`std::exception`, or anything else. -/
inductive ClientException where
  | TryAgainLater
  | stdException
  | unknown
  deriving DecidableEq, Repr

/-- A client, as far as the jobs see it: how each call of a hook ends, by returning
(`none`) or by throwing. -/
abbrev Client := ClientHookCall → Option ClientException

/-- The overrides `perform(client)` of the four jobs (lines 69-74, 90-95, 111-116,
131-136): each calls one hook with the captured members. -/
def ClientJob.hookCall : ClientJob → ClientHookCall
  | ClientJob.ResponseHeaderJob m_responseHeaders m_contentLength =>
    ClientHookCall.onResponseHeaders m_responseHeaders m_contentLength
  | ClientJob.EntityJob m_contentOffset m_entity => ClientHookCall.onEntity m_contentOffset m_entity
  | ClientJob.ChunkedTrailerJob m_realContentLength m_headers =>
    ClientHookCall.onChunkedTrailer m_realContentLength m_headers
  | ClientJob.ContentEofJob m_realContentLength => ClientHookCall.onContentEof m_realContentLength

/-- What `ClientJobBase::perform` does: the hooks it calls, in order, how often it calls
`forceShutdown`, and the exception that leaves it, if any. -/
structure ClientPerformOutcome where
  calls : List ClientHookCall
  forceShutdown : Nat
  thrown : Option ClientException
  deriving DecidableEq, Repr

/-- `ClientJobBase::perform` (lines 30-51). `client` is the result of `m_client.lock()`,
`none` when the client has been destroyed. -/
def ClientJobBase.perform (client : Option Client) (job : ClientJob) : ClientPerformOutcome :=
  match client with
  | none => { calls := [], forceShutdown := 0, thrown := none }
  | some c =>
    match c job.hookCall with
    | none => { calls := [job.hookCall], forceShutdown := 0, thrown := none }
    | some ClientException.TryAgainLater =>
      { calls := [job.hookCall], forceShutdown := 0, thrown := some ClientException.TryAgainLater }
    | some ClientException.stdException =>
      { calls := [job.hookCall], forceShutdown := 1, thrown := some ClientException.stdException }
    | some ClientException.unknown =>
      { calls := [job.hookCall], forceShutdown := 1, thrown := some ClientException.unknown }

/-- A client for the examples: `onEntity` throws `TryAgainLater`, `onContentEof` throws a
`std::exception`, the other hooks return. -/
def sampleClient : Client
  | ClientHookCall.onEntity _ _ => some ClientException.TryAgainLater
  | ClientHookCall.onContentEof _ => some ClientException.stdException
  | _ => none

/-- The job of a `pend` event. -/
def Event.pended : Event → Option HttpRequestJob
  | Event.pend job => some job
  | _ => none

/-- The event is a call of `respond`; the parser calls it for 400, 405, 413 and 505. -/
def Event.isRespond : Event → Bool
  | Event.respond _ => true
  | _ => false

/-- The requests the session has posted so far, in order. -/
def postedJobs (s : HttpSession) : List HttpRequestJob := s.events.filterMap Event.pended

/-- The session has sent no error response so far. -/
def noErrorResponse (s : HttpSession) : Bool := s.events.all (fun e => !e.isRespond)

/-- Every chunk of the list is rejected for its length by a session whose `m_totalLength`
is `total`: `total + size >= MAX_REQUEST_LENGTH`, the sum being representable. -/
def allTooLarge (total : Nat) (chunks : List Bytes) : Bool :=
  chunks.all (fun c => decide (MAX_REQUEST_LENGTH ≤ total + c.length ∧ total + c.length < SIZE_MOD))

/-- The session with its byte count `m_totalLength` set to 0: what the parsing loop, which
never reads the count, sees of a session. -/
def HttpSession.zeroTotal (s : HttpSession) : HttpSession := { s with m_totalLength := 0 }

/-- The same, for the end of a pass. -/
def Flow.zeroTotal : Flow → Flow
  | Flow.next s rest => Flow.next s.zeroTotal rest
  | Flow.stop s => Flow.stop s.zeroTotal

/-- The end of a pass with another unread input. -/
def Flow.withRest : Flow → Bytes → Flow
  | Flow.next s _, rest => Flow.next s rest
  | Flow.stop s, _ => Flow.stop s

/-- The number of error responses the session has sent so far. -/
def errorCount (s : HttpSession) : Nat := s.events.countP Event.isRespond

/-- What holds of a session that nothing but `onReadAvail` has touched, between two passes
of the loop: `m_contentLength` is 0 and the state is not `ST_CONTENTS`. -/
def HttpSession.NoBody (s : HttpSession) : Prop :=
  s.m_contentLength = 0 ∧ s.m_state ≠ State.ST_CONTENTS

/-- What a pass of the loop that starts from the session `s` may end with, when `s` has
`m_contentLength = 0` and is not in state `ST_CONTENTS`: it goes on, having posted nothing
or one request with an empty body; or it returns after an error response and
`shutdownRead`. -/
def Flow.StepOf (s : HttpSession) : Flow → Prop
  | Flow.next s1 _ =>
    s1.NoBody ∧
      (s1.events = s.events ∨
        ∃ job, s1.events = s.events ++ [Event.pend job] ∧ job.m_incomingContents = [])
  | Flow.stop s1 =>
    s1.NoBody ∧ ∃ status, s1.events = s.events ++ [Event.respond status, Event.shutdownRead]

/-! # Reading a response back

The reading of an emitted response that the specification describes for its round trip:
the status line up to the first CRLF, the header lines up to the first empty line, each
split at its first colon and space, and the rest as the body. These definitions follow
the words of the specification; the repository has no such reader among the sources. -/

/-- The text before and the text after the first place where the character `x` is followed
by the character `y`; no result when there is no such place. -/
def splitAtPair (x y : Char) : Bytes → Option (Bytes × Bytes)
  | [] => none
  | [_] => none
  | a :: b :: rest =>
    if a = x ∧ b = y then some ([], rest)
    else (splitAtPair x y (b :: rest)).map fun p => (a :: p.1, p.2)

/-- The character `x` is followed by the character `y` somewhere in the text. -/
def hasPair (x y : Char) : Bytes → Bool
  | [] => false
  | [_] => false
  | a :: b :: rest => (decide (a = x) && decide (b = y)) || hasPair x y (b :: rest)

/-- The value of a decimal digit. -/
def digitValue (c : Char) : Option Nat :=
  if '0'.toNat ≤ c.toNat ∧ c.toNat ≤ '9'.toNat then some (c.toNat - '0'.toNat) else none

/-- The number written by decimal digits that follow the digits of `acc`. -/
def parseDecimalFrom (acc : Nat) : Bytes → Option Nat
  | [] => some acc
  | c :: cs =>
    match digitValue c with
    | none => none
    | some d => parseDecimalFrom (acc * 10 + d) cs

/-- The number written by a string of decimal digits that is not empty. -/
def parseDecimal (digits : Bytes) : Option Nat :=
  if digits = [] then none else parseDecimalFrom 0 digits

/-- The header lines of a response and what follows them: each line ends at the first CRLF,
an empty line ends the headers, every other line is split at its first colon and space. At
most `fuel` lines are read. -/
def parseHeaderLines : Nat → Bytes → Option (OptionalMap × Bytes)
  | 0, _ => none
  | fuel + 1, text =>
    match splitAtPair '\r' '\n' text with
    | none => none
    | some (line, rest) =>
      if line = [] then some ([], rest)
      else
        match splitAtPair ':' ' ' line with
        | none => none
        | some (name, value) =>
          match parseHeaderLines fuel rest with
          | none => none
          | some (headers, body) => some ((name, value) :: headers, body)

/-- What is read from a response: the code and the short description of the status line,
the headers and the body. -/
structure ParsedResponse where
  status : HttpStatus
  descShort : Bytes
  headers : OptionalMap
  body : Bytes
  deriving DecidableEq, Repr

/-- The reading of a response: the status line up to the first CRLF, which is `HTTP/1.1`, a
space, the decimal code, a space and the short description; then the header lines; then
the body. -/
def parseResponse (text : Bytes) : Option ParsedResponse :=
  match splitAtPair '\r' '\n' text with
  | none => none
  | some (statusLine, rest) =>
    if statusLine.take 9 = "HTTP/1.1 ".toList then
      match find ' ' (statusLine.drop 9) with
      | none => none
      | some i =>
        match parseDecimal ((statusLine.drop 9).take i),
          parseHeaderLines (rest.length + 1) rest with
        | some code, some (headers, body) =>
          some { status := code, descShort := (statusLine.drop 9).drop (i + 1),
                 headers := headers, body := body }
        | _, _ => none
    else none

/-- The header entry is one that the reading gives back, or one that is not serialized: its
value is empty, or its name holds no colon followed by a space and its line holds no
CRLF. -/
def headerLineOk (p : Bytes × Bytes) : Bool :=
  decide (p.2 = []) ||
    (!hasPair ':' ' ' p.1 && !hasPair '\r' '\n' (p.1 ++ ": ".toList ++ p.2))

/-- The header lines as the specification words them: one line `Name: value` and CRLF for
every entry whose value is not empty. -/
def headerLinesOf (headers : OptionalMap) : Bytes :=
  ((headers.filter fun p => p.2 ≠ []).map fun p => p.1 ++ ": ".toList ++ p.2 ++ "\r\n".toList).flatten

/-! # A request as it is received

The bytes of a request: the request line, the header lines in the order they are sent, the
blank line and the body, every line ended by CRLF. -/

/-- The uri that lines 240-247 take from the second token: the text before its first
question mark. -/
def uriOf (p1 : Bytes) : Bytes :=
  match find '?' p1 with
  | none => p1
  | some questionPos => p1.take questionPos

/-- The parameters that lines 240-247 take from the second token: none without a question
mark, else `optionalMapFromUrlEncoded` of the text after the first one. -/
def paramsOf (env : Env) (p1 : Bytes) : OptionalMap :=
  match find '?' p1 with
  | none => []
  | some questionPos => env.optionalMapFromUrlEncoded (p1.drop (questionPos + 1))

/-- A header line as it is received, without its line end: the name, a colon, and the
text that follows the colon. -/
def headerText (p : Bytes × Bytes) : Bytes := p.1 ++ ':' :: p.2 ++ "\r\n".toList

/-- The header lines of a request, in the order they are sent. -/
def headersText (hs : List (Bytes × Bytes)) : Bytes := (hs.map headerText).flatten

/-- What lines 256-271 store of a received header line: the name, and the text after the
colon without its leading spaces. -/
def storedHeader (p : Bytes × Bytes) : Bytes × Bytes := (p.1, skipSpaces p.2)

/-- The bytes of a request: request line, header lines, blank line, body. -/
def requestText (line : Bytes) (hs : List (Bytes × Bytes)) (body : Bytes) : Bytes :=
  line ++ "\r\n".toList ++ (headersText hs ++ ("\r\n".toList ++ body))

/-- The request line is one that the parser accepts and splits into `p0`, `p1`, `p2`: it is
not empty and holds no line feed, `explode` gives the three parts, the first is a verb,
the second starts with a slash, the third is one of the two versions. -/
def goodRequestLine (env : Env) (line p0 p1 p2 : Bytes) : Bool :=
  decide (line ≠ [] ∧ '\n' ∉ line ∧ env.explode ' ' line 3 = [p0, p1, p2] ∧
    verbFromString p0 ≠ HttpVerb.HTTP_INVALID_VERB ∧ p1.head? = some '/' ∧
    (p2 = "HTTP/1.0".toList ∨ p2 = "HTTP/1.1".toList))

/-- The header lines are lines the parser accepts as they are: no name holds a colon, no
name and no text after the colon holds a line feed. -/
def goodHeaders (hs : List (Bytes × Bytes)) : Bool :=
  hs.all fun p => decide (':' ∉ p.1 ∧ '\n' ∉ p.1 ∧ '\n' ∉ p.2)

/-- The job posted for a request received as `line` (split into `p0`, `p1`, `p2`), the
header lines `hs` and `body`. -/
def jobOf (env : Env) (p0 p1 : Bytes) (hs : List (Bytes × Bytes)) (body : Bytes) :
    HttpRequestJob :=
  { m_verb := verbFromString p0, m_uri := uriOf p1, m_getParams := paramsOf env p1,
    m_incomingHeaders := hs.map storedHeader, m_incomingContents := body }

/-! ## The loop: every pass makes progress, so the fuel is enough -/

theorem contentsAndClear_next (s : HttpSession) (data : Bytes) :
    ∃ s1 rest1, contentsAndClear s data = Flow.next s1 rest1 := by
  unfold contentsAndClear
  split
  · dsimp only
    split
    · exact ⟨_, _, rfl⟩
    · exact ⟨_, _, rfl⟩
  · exact ⟨_, _, rfl⟩

theorem contentsAndClear_measure (s s1 : HttpSession) (data rest1 : Bytes)
    (h : contentsAndClear s data = Flow.next s1 rest1) :
    loopMeasure s1 rest1 ≤ 2 * data.length + 1 ∧
      (s.m_state = State.ST_CONTENTS → data ≠ [] → loopMeasure s1 rest1 ≤ 2 * data.length) := by
  unfold contentsAndClear at h
  split at h
  · rename_i hc
    dsimp only at h
    split at h
    · injection h with h1 h2
      subst h1 h2
      have hd : data ≠ [] → 1 ≤ data.length := fun hne =>
        Nat.succ_le_of_lt (List.length_pos.mpr hne)
      simp only [loopMeasure, hc, List.length_nil, if_true]
      refine ⟨by omega, fun _ hne => ?_⟩
      have := hd hne
      omega
    · injection h with h1 h2
      subst h1 h2
      simp only [loopMeasure, HttpSession.pendRequest, List.length_drop]
      simp
      omega
  · rename_i hc
    injection h with h1 h2
    subst h1 h2
    refine ⟨?_, fun h0 => absurd h0 hc⟩
    simp only [loopMeasure, hc, if_false]
    omega

theorem iteration_measure (env : Env) (s s1 : HttpSession) (ch : Char) (rest rest1 : Bytes)
    (h : iteration env s ch rest = Flow.next s1 rest1) :
    loopMeasure s1 rest1 < loopMeasure s (ch :: rest) := by
  unfold iteration at h
  split at h
  · rename_i hc
    have hs : loopMeasure s (ch :: rest) = 2 * rest.length + 2 := by
      simp [loopMeasure, hc]; omega
    rw [hs]
    split at h
    · injection h with h1 h2
      subst h1 h2
      simp [loopMeasure, hc]
    · dsimp only at h
      split at h
      · unfold firstHeaderLine at h
        split at h
        · injection h with h1 h2
          subst h1 h2
          simp [loopMeasure, hc]
        · split at h
          · dsimp only at h
            split at h
            · cases h
            · split at h
              · cases h
              · split at h
                · cases h
                · have := (contentsAndClear_measure _ _ _ _ h).1
                  omega
          · cases h
      · unfold headerLine at h
        split at h
        · split at h
          · cases h
          · have := (contentsAndClear_measure _ _ _ _ h).1
            omega
        · have := (contentsAndClear_measure _ _ _ _ h).1
          omega
  · rename_i hc
    have hc1 : s.m_state = State.ST_CONTENTS := by
      by_contra h0
      exact hc h0
    have := (contentsAndClear_measure _ _ _ _ h).2 hc1 (List.cons_ne_nil _ _)
    simp only [loopMeasure, hc1, if_true, List.length_cons] at *
    omega

theorem readLoopFuel_enough (env : Env) :
    ∀ (f1 f2 : Nat) (s : HttpSession) (data : Bytes),
      loopMeasure s data ≤ f1 → loopMeasure s data ≤ f2 →
      readLoopFuel env f1 s data = readLoopFuel env f2 s data := by
  intro f1
  induction f1 with
  | zero =>
    intro f2 s data h1 _
    have hd : data = [] := by
      cases data with
      | nil => rfl
      | cons c cs => simp [loopMeasure] at h1
    subst hd
    cases f2 <;> rfl
  | succ n ih =>
    intro f2 s data h1 h2
    cases data with
    | nil => cases f2 <;> rfl
    | cons ch rest =>
      cases f2 with
      | zero => simp [loopMeasure] at h2
      | succ m =>
        simp only [readLoopFuel]
        cases hit : iteration env s ch rest with
        | stop s1 => rfl
        | next s1 rest1 =>
          have := iteration_measure env s s1 ch rest rest1 hit
          exact ih m s1 rest1 (by omega) (by omega)

/-- The loop with nothing to read returns at once. -/
theorem readLoop_nil (env : Env) (s : HttpSession) : readLoop env s [] = s := rfl

/-- The loop with `ch :: rest` to read runs one pass, and goes on unless the pass returned. -/
theorem readLoop_cons (env : Env) (s : HttpSession) (ch : Char) (rest : Bytes) :
    readLoop env s (ch :: rest) =
      match iteration env s ch rest with
      | Flow.stop s1 => s1
      | Flow.next s1 rest1 => readLoop env s1 rest1 := by
  unfold readLoop
  rw [show 2 * (ch :: rest).length + 1 = (2 * rest.length + 2) + 1 by simp; omega]
  simp only [readLoopFuel]
  cases hit : iteration env s ch rest with
  | stop s1 => rfl
  | next s1 rest1 =>
    have h := iteration_measure env s s1 ch rest rest1 hit
    have h2 : loopMeasure s (ch :: rest) ≤ 2 * rest.length + 3 := by
      simp only [loopMeasure, List.length_cons]
      split <;> omega
    have h3 : loopMeasure s1 rest1 ≤ 2 * rest1.length + 1 := by
      simp only [loopMeasure]
      split <;> omega
    exact readLoopFuel_enough env _ _ s1 rest1 (by omega) h3

/-! ## The events of a call -/

/-- The events a loop may add: the three error responses, the shutdown, a pended job. -/
theorem contentsAndClear_events (P : Event → Prop) (hpend : ∀ j, P (Event.pend j))
    (s : HttpSession) (data : Bytes) :
    ∃ new, (contentsAndClear s data).session.events = s.events ++ new ∧ ∀ e ∈ new, P e := by
  unfold contentsAndClear
  split
  · dsimp only
    split
    · exact ⟨[], by simp [Flow.session], by simp⟩
    · exact ⟨[Event.pend _], rfl, by simpa using hpend _⟩
  · exact ⟨[], by simp [Flow.session], by simp⟩

theorem fail_events (P : Event → Prop) (hshut : P Event.shutdownRead) (s : HttpSession)
    (status : HttpStatus) (hst : P (Event.respond status)) :
    ∃ new, (Flow.stop (s.fail status)).session.events = s.events ++ new ∧ ∀ e ∈ new, P e :=
  ⟨[Event.respond status, Event.shutdownRead], rfl, by
    intro e he
    simp only [List.mem_cons, List.mem_singleton, List.not_mem_nil, or_false] at he
    rcases he with rfl | rfl
    · exact hst
    · exact hshut⟩

theorem iteration_events (P : Event → Prop)
    (h400 : P (Event.respond HTTP_BAD_REQUEST)) (h405 : P (Event.respond HTTP_BAD_METHOD))
    (h505 : P (Event.respond HTTP_VERSION_NOT_SUP)) (hshut : P Event.shutdownRead)
    (hpend : ∀ j, P (Event.pend j))
    (env : Env) (s : HttpSession) (ch : Char) (rest : Bytes) :
    ∃ new, (iteration env s ch rest).session.events = s.events ++ new ∧ ∀ e ∈ new, P e := by
  unfold iteration
  split
  · split
    · exact ⟨[], by simp [Flow.session], by simp⟩
    · dsimp only
      split
      · unfold firstHeaderLine
        split
        · exact ⟨[], by simp [Flow.session], by simp⟩
        · split
          · dsimp only
            split
            · exact fail_events P hshut _ _ h405
            · split
              · exact fail_events P hshut _ _ h400
              · have hu : ∀ (t : HttpSession) (p : Bytes), (t.setUri env p).events = t.events := by
                  intro t p
                  unfold HttpSession.setUri
                  split <;> rfl
                split
                · obtain ⟨new, he, hp⟩ := fail_events P hshut (HttpSession.setUri env _ _) _ h505
                  exact ⟨new, by rw [he, hu], hp⟩
                · obtain ⟨new, he, hp⟩ := contentsAndClear_events P hpend
                    { HttpSession.setUri env _ _ with m_state := State.ST_HEADERS } _
                  exact ⟨new, by rw [he]; exact congrArg (· ++ new) (hu _ _), hp⟩
          · exact fail_events P hshut _ _ h400
      · unfold headerLine
        split
        · split
          · exact fail_events P hshut _ _ h400
          · exact contentsAndClear_events P hpend _ _
        · exact contentsAndClear_events P hpend _ _
  · exact contentsAndClear_events P hpend _ _

theorem readLoopFuel_events (P : Event → Prop)
    (h400 : P (Event.respond HTTP_BAD_REQUEST)) (h405 : P (Event.respond HTTP_BAD_METHOD))
    (h505 : P (Event.respond HTTP_VERSION_NOT_SUP)) (hshut : P Event.shutdownRead)
    (hpend : ∀ j, P (Event.pend j)) (env : Env) :
    ∀ (fuel : Nat) (s : HttpSession) (data : Bytes),
      ∃ new, (readLoopFuel env fuel s data).events = s.events ++ new ∧ ∀ e ∈ new, P e := by
  intro fuel
  induction fuel with
  | zero => intro s data; exact ⟨[], by simp [readLoopFuel], by simp⟩
  | succ n ih =>
    intro s data
    cases data with
    | nil => exact ⟨[], by simp [readLoopFuel], by simp⟩
    | cons ch rest =>
      obtain ⟨new1, he1, hp1⟩ := iteration_events P h400 h405 h505 hshut hpend env s ch rest
      simp only [readLoopFuel]
      cases hit : iteration env s ch rest with
      | stop s1 =>
        rw [hit] at he1
        exact ⟨new1, he1, hp1⟩
      | next s1 rest1 =>
        rw [hit] at he1
        obtain ⟨new2, he2, hp2⟩ := ih s1 rest1
        refine ⟨new1 ++ new2, ?_, ?_⟩
        · simp only [Flow.session] at he1
          rw [he2, he1, List.append_assoc]
        · intro e he
          rcases List.mem_append.mp he with h | h
          · exact hp1 e h
          · exact hp2 e h

/-- The loop only adds to the log, and what it adds is an error response 400, 405 or 505,
the shutdown of the read side, or a pended job. -/
theorem readLoop_events (P : Event → Prop)
    (h400 : P (Event.respond HTTP_BAD_REQUEST)) (h405 : P (Event.respond HTTP_BAD_METHOD))
    (h505 : P (Event.respond HTTP_VERSION_NOT_SUP)) (hshut : P Event.shutdownRead)
    (hpend : ∀ j, P (Event.pend j)) (env : Env) (s : HttpSession) (data : Bytes) :
    ∃ new, (readLoop env s data).events = s.events ++ new ∧ ∀ e ∈ new, P e :=
  readLoopFuel_events P h400 h405 h505 hshut hpend env _ s data

theorem sizeAdd_small (a b : Nat) (h : a + b < SIZE_MOD) : sizeAdd a b = a + b :=
  Nat.mod_eq_of_lt h

/-! ## C1: the length check at the head of `onReadAvail` -/

/-- C1. For a session and a chunk of `n` bytes whose sum `total_len + n` is representable
in `size_t`: when `total_len + n >= 16384` the call responds 413, shuts the read side and
changes nothing else (no byte consumed, no request posted, the parser fields as before);
otherwise the call is the parsing loop run on the session with `total_len` increased by
exactly `n`; and a 413 is among the events of the call if and only if
`total_len + n >= 16384`. -/
theorem C1_length_check (env : Env) (s : HttpSession) (data : Bytes)
    (hsz : s.m_totalLength + data.length < SIZE_MOD) :
    (MAX_REQUEST_LENGTH ≤ s.m_totalLength + data.length →
      onReadAvail env s data =
        { s with events := s.events ++
            [Event.respond HTTP_REQUEST_TOO_LARGE, Event.shutdownRead] }) ∧
    (s.m_totalLength + data.length < MAX_REQUEST_LENGTH →
      onReadAvail env s data =
        readLoop env { s with m_totalLength := s.m_totalLength + data.length } data) ∧
    (onReadAvail env s data).events = s.events ++ emitted env s data ∧
    (Event.respond HTTP_REQUEST_TOO_LARGE ∈ emitted env s data ↔
      MAX_REQUEST_LENGTH ≤ s.m_totalLength + data.length) := by
  have hadd := sizeAdd_small _ _ hsz
  have hbig : MAX_REQUEST_LENGTH ≤ s.m_totalLength + data.length →
      onReadAvail env s data =
        { s with events := s.events ++
            [Event.respond HTTP_REQUEST_TOO_LARGE, Event.shutdownRead] } := by
    intro h
    simp only [onReadAvail, hadd, ge_iff_le, h, if_true, HttpSession.fail]
  have hsmall : s.m_totalLength + data.length < MAX_REQUEST_LENGTH →
      onReadAvail env s data =
        readLoop env { s with m_totalLength := s.m_totalLength + data.length } data := by
    intro h
    simp only [onReadAvail, hadd, ge_iff_le, Nat.not_le.mpr h, if_false]
  refine ⟨hbig, hsmall, ?_, ?_⟩
  · by_cases h : MAX_REQUEST_LENGTH ≤ s.m_totalLength + data.length
    · simp [emitted, hbig h]
    · obtain ⟨new, he, _⟩ := readLoop_events (fun _ => True) trivial trivial trivial trivial
        (fun _ => trivial) env { s with m_totalLength := s.m_totalLength + data.length } data
      simp only [emitted, hsmall (Nat.not_le.mp h), he, List.drop_left]
  · constructor
    · intro hmem
      by_contra h
      obtain ⟨new, he, hp⟩ := readLoop_events
        (fun e => e ≠ Event.respond HTTP_REQUEST_TOO_LARGE)
        (by decide) (by decide) (by decide) (by simp) (by simp)
        env { s with m_totalLength := s.m_totalLength + data.length } data
      simp only [emitted, hsmall (Nat.not_le.mp h), he, List.drop_left] at hmem
      exact hp _ hmem rfl
    · intro h
      simp [emitted, hbig h]

/-- C1 at a chunk of three bytes given to a fresh session: no 413, the loop runs with
`total_len = 3`. -/
theorem C1_length_check_witness :
    onReadAvail specEnv (HttpSession.init HttpVerb.HTTP_INVALID_VERB) "GET".toList =
      readLoop specEnv
        { HttpSession.init HttpVerb.HTTP_INVALID_VERB with m_totalLength := 0 + 3 }
        "GET".toList ∧
    Event.respond HTTP_REQUEST_TOO_LARGE ∉
      emitted specEnv (HttpSession.init HttpVerb.HTTP_INVALID_VERB) "GET".toList :=
  have h := C1_length_check specEnv (HttpSession.init HttpVerb.HTTP_INVALID_VERB) "GET".toList
    (by decide)
  ⟨h.2.1 (by decide), fun hm => absurd (h.2.2.2.mp hm) (by decide)⟩

/-! ## One pass of the loop, case by case -/

theorem readLoop_stop (env : Env) (s s1 : HttpSession) (ch : Char) (rest : Bytes)
    (h : iteration env s ch rest = Flow.stop s1) : readLoop env s (ch :: rest) = s1 := by
  rw [readLoop_cons, h]

theorem readLoop_next (env : Env) (s s1 : HttpSession) (ch : Char) (rest rest1 : Bytes)
    (h : iteration env s ch rest = Flow.next s1 rest1) :
    readLoop env s (ch :: rest) = readLoop env s1 rest1 := by
  rw [readLoop_cons, h]

theorem iteration_plain (env : Env) (s : HttpSession) (ch : Char) (rest : Bytes)
    (hst : s.m_state ≠ State.ST_CONTENTS) (hch : ch ≠ '\n') :
    iteration env s ch rest = Flow.next { s with m_line := s.m_line ++ [ch] } rest := by
  simp [iteration, hst, hch]

theorem iteration_newline_first (env : Env) (s : HttpSession) (rest : Bytes)
    (hst : s.m_state = State.ST_FIRST_HEADER) :
    iteration env s '\n' rest = firstHeaderLine env { s with m_line := trimCR s.m_line } rest := by
  simp [iteration, hst]

theorem iteration_newline_headers (env : Env) (s : HttpSession) (rest : Bytes)
    (hst : s.m_state = State.ST_HEADERS) :
    iteration env s '\n' rest = headerLine { s with m_line := trimCR s.m_line } rest := by
  simp [iteration, hst]

theorem contentsAndClear_other (s : HttpSession) (data : Bytes)
    (hst : s.m_state ≠ State.ST_CONTENTS) :
    contentsAndClear s data = Flow.next { s with m_line := [] } data := by
  simp [contentsAndClear, hst]

theorem firstHeaderLine_count (env : Env) (s : HttpSession) (rest : Bytes) (hne : s.m_line ≠ [])
    (h : (env.explode ' ' s.m_line 3).length ≠ 3) :
    firstHeaderLine env s rest = Flow.stop (s.fail HTTP_BAD_REQUEST) := by
  unfold firstHeaderLine
  rw [if_neg hne]
  split
  · rename_i heq
    rw [heq] at h
    exact absurd rfl h
  · rfl

theorem firstHeaderLine_parts (env : Env) (s : HttpSession) (rest p0 p1 p2 : Bytes)
    (hne : s.m_line ≠ []) (hex : env.explode ' ' s.m_line 3 = [p0, p1, p2]) :
    firstHeaderLine env s rest =
      if verbFromString p0 = HttpVerb.HTTP_INVALID_VERB then
        Flow.stop (HttpSession.fail { s with m_verb := verbFromString p0 } HTTP_BAD_METHOD)
      else if p1 = [] ∨ p1.head? ≠ some '/' then
        Flow.stop (HttpSession.fail { s with m_verb := verbFromString p0 } HTTP_BAD_REQUEST)
      else if p2 ≠ "HTTP/1.0".toList ∧ p2 ≠ "HTTP/1.1".toList then
        Flow.stop (HttpSession.fail
          (HttpSession.setUri env { s with m_verb := verbFromString p0 } p1) HTTP_VERSION_NOT_SUP)
      else
        Flow.next
          { HttpSession.setUri env { s with m_verb := verbFromString p0 } p1 with
            m_state := State.ST_HEADERS, m_line := [] } rest := by
  unfold firstHeaderLine
  rw [if_neg hne, hex]
  dsimp only
  split
  · rfl
  · split
    · rfl
    · split
      · rfl
      · exact contentsAndClear_other _ _ (by simp)

theorem setUri_events (env : Env) (s : HttpSession) (p1 : Bytes) :
    (s.setUri env p1).events = s.events := by
  unfold HttpSession.setUri
  split <;> rfl

theorem verbFromString_accepted (v : Bytes) :
    verbFromString v ≠ HttpVerb.HTTP_INVALID_VERB ↔ v ∈ acceptedVerbs := by
  constructor
  · intro h
    unfold verbFromString at h
    simp only [acceptedVerbs, List.mem_cons, List.mem_singleton, List.not_mem_nil, or_false]
    split at h
    all_goals first | exact absurd rfl h | (split_ifs at h <;> simp_all)
  · intro h
    simp only [acceptedVerbs, List.mem_cons, List.mem_singleton, List.not_mem_nil, or_false] at h
    rcases h with h | h | h | h | h | h | h | h <;> subst h <;> decide

theorem explode_ne_nil (sep : Char) (str : Bytes) (limit : Nat) : explode sep str limit ≠ [] := by
  induction str with
  | nil => simp [explode]
  | cons c cs ih =>
    unfold explode
    split_ifs
    · simp
    · split <;> simp

/-- The model of `explode` returns one piece more than there are separators. -/
theorem explode_length (sep : Char) (str : Bytes) (limit : Nat) :
    (explode sep str limit).length = str.count sep + 1 := by
  induction str with
  | nil => simp [explode]
  | cons c cs ih =>
    unfold explode
    split_ifs with h2
    · subst h2
      simp only [List.length_cons, ih, List.count_cons_self]
    · have hc : (c :: cs).count sep = cs.count sep := by
        rw [List.count_cons]
        simp [h2]
      rw [hc, ← ih]
      split
      · rename_i heq
        exact absurd heq (explode_ne_nil _ _ _)
      · rename_i heq
        rw [heq]
        rfl

/-! ## C3: a request line that is not split into three parts -/

/-- C3. In state `ST_FIRST_HEADER`, a non-empty request line that `explode(' ', line, 3)`
does not split into exactly three parts is answered with 400, the read side is shut and no
request is posted (nothing else is added to the log, the rest of the chunk is not read).
With the line cut at every space, the parts are the tokens between the spaces, one more
than there are spaces: every line with fewer than two spaces (fewer than three tokens) and
every line with more than two spaces (more than three tokens) is answered so. -/
theorem C3_request_line_parts (env : Env) (s : HttpSession) (rest : Bytes)
    (hst : s.m_state = State.ST_FIRST_HEADER) (hne : trimCR s.m_line ≠ []) :
    ((env.explode ' ' (trimCR s.m_line) 3).length ≠ 3 →
      readLoop env s ('\n' :: rest) =
        { s with m_line := trimCR s.m_line,
                 events := s.events ++ [Event.respond HTTP_BAD_REQUEST, Event.shutdownRead] }) ∧
    (specEnv.explode ' ' (trimCR s.m_line) 3).length = (trimCR s.m_line).count ' ' + 1 ∧
    ((trimCR s.m_line).count ' ' < 2 ∨ 2 < (trimCR s.m_line).count ' ' →
      readLoop specEnv s ('\n' :: rest) =
        { s with m_line := trimCR s.m_line,
                 events := s.events ++ [Event.respond HTTP_BAD_REQUEST, Event.shutdownRead] }) := by
  have hgen : ∀ env : Env, (env.explode ' ' (trimCR s.m_line) 3).length ≠ 3 →
      readLoop env s ('\n' :: rest) =
        { s with m_line := trimCR s.m_line,
                 events := s.events ++ [Event.respond HTTP_BAD_REQUEST, Event.shutdownRead] } := by
    intro env h
    apply readLoop_stop
    rw [iteration_newline_first env s rest hst]
    exact firstHeaderLine_count env _ rest hne h
  have hlen : (specEnv.explode ' ' (trimCR s.m_line) 3).length =
      (trimCR s.m_line).count ' ' + 1 := explode_length _ _ _
  refine ⟨hgen env, hlen, ?_⟩
  intro h
  apply hgen specEnv
  rw [hlen]
  omega

/-- C3 at the two-token line `GET /` and at the four-token line `GET / HTTP/1.1 x`, each
buffered in a fresh session: both are answered with 400. -/
theorem C3_request_line_parts_witness :
    readLoop specEnv { HttpSession.init HttpVerb.HTTP_INVALID_VERB with m_line := "GET /\r".toList }
        ('\n' :: "Host: a\r\n".toList) =
      { HttpSession.init HttpVerb.HTTP_INVALID_VERB with
        m_line := "GET /".toList,
        events := [Event.respond HTTP_BAD_REQUEST, Event.shutdownRead] } ∧
    readLoop specEnv
        { HttpSession.init HttpVerb.HTTP_INVALID_VERB with m_line := "GET / HTTP/1.1 x\r".toList }
        ('\n' :: "Host: a\r\n".toList) =
      { HttpSession.init HttpVerb.HTTP_INVALID_VERB with
        m_line := "GET / HTTP/1.1 x".toList,
        events := [Event.respond HTTP_BAD_REQUEST, Event.shutdownRead] } ∧
    (feed specEnv (HttpSession.init HttpVerb.HTTP_INVALID_VERB)
        ["GET / HTTP/1.1 x\r\n".toList]).events =
      [Event.respond HTTP_BAD_REQUEST, Event.shutdownRead] :=
  ⟨(C3_request_line_parts specEnv
      { HttpSession.init HttpVerb.HTTP_INVALID_VERB with m_line := "GET /\r".toList }
      "Host: a\r\n".toList (by decide) (by decide)).1 (by decide),
    (C3_request_line_parts specEnv
      { HttpSession.init HttpVerb.HTTP_INVALID_VERB with m_line := "GET / HTTP/1.1 x\r".toList }
      "Host: a\r\n".toList (by decide) (by decide)).2.2 (Or.inr (by decide)),
    by decide⟩

/-! ## C4: the verb -/

/-- C4. `verbFromString` returns a valid verb exactly on the eight strings GET, POST, HEAD,
PUT, DELETE, TRACE, CONNECT, OPTIONS (compared byte for byte), and maps them to eight
distinct verbs; a request line split into three parts whose first part is any other
string is answered with 405, the read side is shut and no request is posted. -/
theorem C4_verb (env : Env) (s : HttpSession) (rest p0 p1 p2 : Bytes)
    (hst : s.m_state = State.ST_FIRST_HEADER) (hne : trimCR s.m_line ≠ [])
    (hex : env.explode ' ' (trimCR s.m_line) 3 = [p0, p1, p2]) :
    (∀ v, verbFromString v ≠ HttpVerb.HTTP_INVALID_VERB ↔ v ∈ acceptedVerbs) ∧
    (acceptedVerbs.map verbFromString).Nodup ∧
    acceptedVerbs.length = 8 ∧
    (p0 ∉ acceptedVerbs →
      readLoop env s ('\n' :: rest) =
        { s with m_line := trimCR s.m_line, m_verb := HttpVerb.HTTP_INVALID_VERB,
                 events := s.events ++ [Event.respond HTTP_BAD_METHOD, Event.shutdownRead] }) := by
  refine ⟨verbFromString_accepted, by decide, rfl, ?_⟩
  intro hp0
  have hv : verbFromString p0 = HttpVerb.HTTP_INVALID_VERB := by
    by_contra h
    exact hp0 ((verbFromString_accepted p0).mp h)
  apply readLoop_stop
  rw [iteration_newline_first env s rest hst, firstHeaderLine_parts env _ rest p0 p1 p2 hne hex,
    if_pos hv, hv]
  rfl

/-- C4 at the request line `FOO / HTTP/1.1` of the spec. -/
theorem C4_verb_witness :
    readLoop specEnv
        { HttpSession.init HttpVerb.HTTP_GET with m_line := "FOO / HTTP/1.1\r".toList }
        ('\n' :: "\r\n".toList) =
      { HttpSession.init HttpVerb.HTTP_GET with
        m_line := "FOO / HTTP/1.1".toList, m_verb := HttpVerb.HTTP_INVALID_VERB,
        events := [Event.respond HTTP_BAD_METHOD, Event.shutdownRead] } :=
  (C4_verb specEnv
    { HttpSession.init HttpVerb.HTTP_GET with m_line := "FOO / HTTP/1.1\r".toList }
    "\r\n".toList "FOO".toList "/".toList "HTTP/1.1".toList
    (by decide) (by decide) (by decide)).2.2.2 (by decide)

/-! ## C5: the request URI -/

theorem find_not_mem (c : Char) (l : Bytes) (h : c ∉ l) : find c l = none := by
  induction l with
  | nil => rfl
  | cons x xs ih =>
    have hx : x ≠ c := fun e => h (by simp [e])
    have hxs : c ∉ xs := fun e => h (by simp [e])
    simp [find, hx, ih hxs]

theorem find_first (c : Char) (u q : Bytes) (h : c ∉ u) :
    find c (u ++ c :: q) = some u.length := by
  induction u with
  | nil => simp [find]
  | cons x xs ih =>
    have hx : x ≠ c := fun e => h (by simp [e])
    have hxs : c ∉ xs := fun e => h (by simp [e])
    simp [find, hx, ih hxs]

theorem setUri_plain (env : Env) (s : HttpSession) (p1 : Bytes) (h : '?' ∉ p1) :
    s.setUri env p1 = { s with m_uri := p1, m_getParams := [] } := by
  simp [HttpSession.setUri, find_not_mem _ _ h]

theorem setUri_query (env : Env) (s : HttpSession) (u q : Bytes) (h : '?' ∉ u) :
    s.setUri env (u ++ '?' :: q) =
      { s with m_uri := u, m_getParams := env.optionalMapFromUrlEncoded q } := by
  simp [HttpSession.setUri, find_first _ _ _ h]

/-- The session after the pass over a request line whose verb and URI are accepted: the
URI and the parameters are those set by `setUri`, whatever the version check says. -/
theorem iteration_uri (env : Env) (s : HttpSession) (rest p0 p1 p2 : Bytes)
    (hst : s.m_state = State.ST_FIRST_HEADER) (hne : trimCR s.m_line ≠ [])
    (hex : env.explode ' ' (trimCR s.m_line) 3 = [p0, p1, p2])
    (hv : verbFromString p0 ≠ HttpVerb.HTTP_INVALID_VERB) (hp1 : p1.head? = some '/') :
    (iteration env s '\n' rest).session.m_uri =
        (HttpSession.setUri env
          { s with m_line := trimCR s.m_line, m_verb := verbFromString p0 } p1).m_uri ∧
    (iteration env s '\n' rest).session.m_getParams =
        (HttpSession.setUri env
          { s with m_line := trimCR s.m_line, m_verb := verbFromString p0 } p1).m_getParams := by
  have hp : ¬ (p1 = [] ∨ p1.head? ≠ some '/') := by
    intro h
    rcases h with h | h
    · subst h
      simp at hp1
    · exact h hp1
  rw [iteration_newline_first env s rest hst, firstHeaderLine_parts env _ rest p0 p1 p2 hne hex,
    if_neg hv, if_neg hp]
  split <;> exact ⟨rfl, rfl⟩

/-- C5. For a request line split into three parts with an accepted verb: if the second
part is empty or does not begin with a slash, the parser responds 400 and shuts the read
side (nothing is posted); otherwise, after the pass over the line, `m_uri` is the second
part up to its first question mark (the whole part when it has none) and `m_getParams` is
`optionalMapFromUrlEncoded` of the text after that question mark (the empty map when there
is none). -/
theorem C5_uri (env : Env) (s : HttpSession) (rest p0 p1 p2 : Bytes)
    (hst : s.m_state = State.ST_FIRST_HEADER) (hne : trimCR s.m_line ≠ [])
    (hex : env.explode ' ' (trimCR s.m_line) 3 = [p0, p1, p2]) (hv : p0 ∈ acceptedVerbs) :
    ((p1 = [] ∨ p1.head? ≠ some '/') →
      readLoop env s ('\n' :: rest) =
        { s with m_line := trimCR s.m_line, m_verb := verbFromString p0,
                 events := s.events ++ [Event.respond HTTP_BAD_REQUEST, Event.shutdownRead] }) ∧
    (p1.head? = some '/' → '?' ∉ p1 →
      (iteration env s '\n' rest).session.m_uri = p1 ∧
      (iteration env s '\n' rest).session.m_getParams = []) ∧
    (p1.head? = some '/' → ∀ u q, p1 = u ++ '?' :: q → '?' ∉ u →
      (iteration env s '\n' rest).session.m_uri = u ∧
      (iteration env s '\n' rest).session.m_getParams = env.optionalMapFromUrlEncoded q) := by
  have hv1 := (verbFromString_accepted p0).mpr hv
  refine ⟨?_, ?_, ?_⟩
  · intro hp
    apply readLoop_stop
    rw [iteration_newline_first env s rest hst,
      firstHeaderLine_parts env _ rest p0 p1 p2 hne hex, if_neg hv1, if_pos hp]
    rfl
  · intro hp1 hq
    have h := iteration_uri env s rest p0 p1 p2 hst hne hex hv1 hp1
    rw [setUri_plain env _ p1 hq] at h
    exact h
  · intro hp1 u q hsplit hq
    have h := iteration_uri env s rest p0 p1 p2 hst hne hex hv1 hp1
    rw [hsplit, setUri_query env _ u q hq] at h
    exact h

/-- C5 at the request line `GET /hello?a=b HTTP/1.1`. -/
theorem C5_uri_witness :
    (iteration specEnv
        { HttpSession.init HttpVerb.HTTP_GET with m_line := "GET /hello?a=b HTTP/1.1\r".toList }
        '\n' []).session.m_uri = "/hello".toList ∧
    (iteration specEnv
        { HttpSession.init HttpVerb.HTTP_GET with m_line := "GET /hello?a=b HTTP/1.1\r".toList }
        '\n' []).session.m_getParams = specEnv.optionalMapFromUrlEncoded "a=b".toList :=
  (C5_uri specEnv
    { HttpSession.init HttpVerb.HTTP_GET with m_line := "GET /hello?a=b HTTP/1.1\r".toList }
    [] "GET".toList "/hello?a=b".toList "HTTP/1.1".toList
    (by decide) (by decide) (by decide) (by decide)).2.2 (by decide)
    "/hello".toList "a=b".toList (by decide) (by decide)

/-! ## C6: the protocol version -/

/-- C6. For a request line split into three parts with an accepted verb and a second part
beginning with a slash: when the third part is neither `HTTP/1.0` nor `HTTP/1.1` the parser
responds 505 and shuts the read side (nothing is posted); when it is one of the two, the
pass sends nothing and leaves the state `ST_HEADERS` with an empty line; and a 505 is
among the events of the pass if and only if the third part is neither of the two. -/
theorem C6_version (env : Env) (s : HttpSession) (rest p0 p1 p2 : Bytes)
    (hst : s.m_state = State.ST_FIRST_HEADER) (hne : trimCR s.m_line ≠ [])
    (hex : env.explode ' ' (trimCR s.m_line) 3 = [p0, p1, p2]) (hv : p0 ∈ acceptedVerbs)
    (hp1 : p1.head? = some '/') :
    ((p2 ≠ "HTTP/1.0".toList ∧ p2 ≠ "HTTP/1.1".toList) →
      readLoop env s ('\n' :: rest) =
        { HttpSession.setUri env
            { s with m_line := trimCR s.m_line, m_verb := verbFromString p0 } p1 with
          events := s.events ++ [Event.respond HTTP_VERSION_NOT_SUP, Event.shutdownRead] }) ∧
    ((p2 = "HTTP/1.0".toList ∨ p2 = "HTTP/1.1".toList) →
      iteration env s '\n' rest =
        Flow.next
          { HttpSession.setUri env
              { s with m_line := trimCR s.m_line, m_verb := verbFromString p0 } p1 with
            m_state := State.ST_HEADERS, m_line := [], events := s.events } rest) ∧
    (Event.respond HTTP_VERSION_NOT_SUP ∈
        (iteration env s '\n' rest).session.events.drop s.events.length ↔
      (p2 ≠ "HTTP/1.0".toList ∧ p2 ≠ "HTTP/1.1".toList)) := by
  have hv1 := (verbFromString_accepted p0).mpr hv
  have hp : ¬ (p1 = [] ∨ p1.head? ≠ some '/') := by
    intro h
    rcases h with h | h
    · subst h
      simp at hp1
    · exact h hp1
  have hit := iteration_newline_first env s rest hst
  rw [firstHeaderLine_parts env _ rest p0 p1 p2 hne hex, if_neg hv1, if_neg hp] at hit
  have hev := setUri_events env { s with m_line := trimCR s.m_line, m_verb := verbFromString p0 } p1
  have hbad : (p2 ≠ "HTTP/1.0".toList ∧ p2 ≠ "HTTP/1.1".toList) →
      iteration env s '\n' rest = Flow.stop
        { HttpSession.setUri env
            { s with m_line := trimCR s.m_line, m_verb := verbFromString p0 } p1 with
          events := s.events ++ [Event.respond HTTP_VERSION_NOT_SUP, Event.shutdownRead] } := by
    intro h
    rw [hit, if_pos h]
    simp only [HttpSession.fail, hev]
  have hgood : (p2 = "HTTP/1.0".toList ∨ p2 = "HTTP/1.1".toList) →
      iteration env s '\n' rest =
        Flow.next
          { HttpSession.setUri env
              { s with m_line := trimCR s.m_line, m_verb := verbFromString p0 } p1 with
            m_state := State.ST_HEADERS, m_line := [], events := s.events } rest := by
    intro h
    have hn : ¬ (p2 ≠ "HTTP/1.0".toList ∧ p2 ≠ "HTTP/1.1".toList) := by
      intro hh
      rcases h with h | h
      · exact hh.1 h
      · exact hh.2 h
    have hrec : ∀ t : HttpSession, t.events = s.events →
        ({ t with m_state := State.ST_HEADERS, m_line := [] } : HttpSession) =
          { t with m_state := State.ST_HEADERS, m_line := [], events := s.events } := by
      intro t ht
      rw [← ht]
    rw [hit, if_neg hn, hrec _ hev]
  refine ⟨fun h => readLoop_stop env s _ _ rest (hbad h), hgood, ?_⟩
  by_cases h : p2 ≠ "HTTP/1.0".toList ∧ p2 ≠ "HTTP/1.1".toList
  · rw [hbad h]
    simp only [Flow.session, List.drop_left]
    exact ⟨fun _ => h, fun _ => List.mem_cons_self _ _⟩
  · have h2 : p2 = "HTTP/1.0".toList ∨ p2 = "HTTP/1.1".toList := by
      by_contra hh
      exact h ⟨fun e => hh (Or.inl e), fun e => hh (Or.inr e)⟩
    rw [hgood h2]
    simp only [Flow.session, List.drop_length]
    exact ⟨fun hm => absurd hm (List.not_mem_nil _), fun hh => absurd hh h⟩

/-- C6 at the request line `GET / HTTP/0.9` of the spec. -/
theorem C6_version_witness :
    readLoop specEnv
        { HttpSession.init HttpVerb.HTTP_INVALID_VERB with m_line := "GET / HTTP/0.9\r".toList }
        ('\n' :: "\r\n".toList) =
      { HttpSession.setUri specEnv
          { HttpSession.init HttpVerb.HTTP_INVALID_VERB with
            m_line := trimCR "GET / HTTP/0.9\r".toList,
            m_verb := verbFromString "GET".toList } "/".toList with
        events := [] ++ [Event.respond HTTP_VERSION_NOT_SUP, Event.shutdownRead] } :=
  (C6_version specEnv
    { HttpSession.init HttpVerb.HTTP_INVALID_VERB with m_line := "GET / HTTP/0.9\r".toList }
    "\r\n".toList "GET".toList "/".toList "HTTP/0.9".toList
    (by decide) (by decide) (by decide) (by decide) (by decide)).1 (by decide)

/-! ## C7: a header line -/

theorem skipSpaces_dropWhile (l : Bytes) : skipSpaces l = l.dropWhile (fun c => c = ' ') := by
  induction l with
  | nil => rfl
  | cons c cs ih =>
    by_cases h : c = ' '
    · simp [skipSpaces, List.dropWhile, h, ih]
    · simp [skipSpaces, List.dropWhile, h]

theorem headerLine_no_colon (s : HttpSession) (rest : Bytes) (hne : s.m_line ≠ [])
    (h : ':' ∉ s.m_line) : headerLine s rest = Flow.stop (s.fail HTTP_BAD_REQUEST) := by
  unfold headerLine
  rw [if_pos hne, find_not_mem _ _ h]

theorem headerLine_colon (s : HttpSession) (rest name value : Bytes)
    (hst : s.m_state ≠ State.ST_CONTENTS) (hline : s.m_line = name ++ ':' :: value)
    (hname : ':' ∉ name) :
    headerLine s rest =
      Flow.next
        { s with m_line := [],
                 m_headers := s.m_headers ++ [(name, value.dropWhile (fun c => c = ' '))] }
        rest := by
  have hne : s.m_line ≠ [] := by
    rw [hline]
    simp
  unfold headerLine
  rw [if_pos hne, hline, find_first _ _ _ hname]
  dsimp only
  rw [contentsAndClear_other _ _ (by exact hst)]
  simp [OptionalMap.add, skipSpaces_dropWhile]

/-- C7 (amended). In state `ST_HEADERS`, for a non-empty line: if it contains no colon the
parser responds 400 and shuts the read side; otherwise exactly one pair is appended to the
headers, whose name is the text before the first colon and whose value is the text after
that colon with all its leading spaces removed; the headers stored before are unchanged,
the state stays `ST_HEADERS`, nothing is sent and the line buffer is cleared. -/
theorem C7_header_line (env : Env) (s : HttpSession) (rest : Bytes)
    (hst : s.m_state = State.ST_HEADERS) (hne : trimCR s.m_line ≠ []) :
    (':' ∉ trimCR s.m_line →
      readLoop env s ('\n' :: rest) =
        { s with m_line := trimCR s.m_line,
                 events := s.events ++ [Event.respond HTTP_BAD_REQUEST, Event.shutdownRead] }) ∧
    (∀ name value, trimCR s.m_line = name ++ ':' :: value → ':' ∉ name →
      iteration env s '\n' rest =
        Flow.next
          { s with m_state := State.ST_HEADERS, m_line := [],
                   m_headers := s.m_headers ++ [(name, value.dropWhile (fun c => c = ' '))] }
          rest) := by
  constructor
  · intro h
    apply readLoop_stop
    rw [iteration_newline_headers env s rest hst]
    exact headerLine_no_colon _ rest hne h
  · intro name value hline hname
    rw [iteration_newline_headers env s rest hst,
      headerLine_colon { s with m_line := trimCR s.m_line } rest name value
        (by simp [hst]) hline hname]
    simp [hst]

/-- C7 (amended) at the header line `Host:  a b`, written with two spaces after the colon. -/
theorem C7_header_line_witness :
    iteration specEnv
        { HttpSession.init HttpVerb.HTTP_GET with
          m_state := State.ST_HEADERS, m_line := "Host:  a b\r".toList } '\n' [] =
      Flow.next
        { HttpSession.init HttpVerb.HTTP_GET with
          m_state := State.ST_HEADERS, m_line := [],
          m_headers := [] ++ [("Host".toList, "  a b".toList.dropWhile (fun c => c = ' '))] } [] :=
  (C7_header_line specEnv
    { HttpSession.init HttpVerb.HTTP_GET with
      m_state := State.ST_HEADERS, m_line := "Host:  a b\r".toList }
    [] (by decide) (by decide)).2 "Host".toList "  a b".toList (by decide) (by decide)

/-- C7 as stated fails: the header line `A:  b`, whose value is written with two leading
spaces, is stored with the value `b`; the claim has it keep one space. -/
theorem C7_counterexample :
    (feed specEnv (HttpSession.init HttpVerb.HTTP_INVALID_VERB)
        ["GET / HTTP/1.1\r\nA:  b\r\n".toList]).m_headers = [("A".toList, "b".toList)] ∧
    (feed specEnv (HttpSession.init HttpVerb.HTTP_INVALID_VERB)
        ["GET / HTTP/1.1\r\nA:  b\r\n".toList]).m_headers ≠ [("A".toList, " b".toList)] := by
  decide

/-! ## C9: posting a request -/

theorem contentsAndClear_full (s : HttpSession) (data : Bytes)
    (hst : s.m_state = State.ST_CONTENTS)
    (hfull : ¬ data.length < sizeSub s.m_contentLength s.m_line.length) :
    contentsAndClear s data =
      Flow.next
        (s.posted (s.m_line ++ data.take (sizeSub s.m_contentLength s.m_line.length)))
        (data.drop (sizeSub s.m_contentLength s.m_line.length)) := by
  unfold contentsAndClear
  rw [if_pos hst]
  dsimp only
  rw [if_neg hfull]
  rfl

theorem contentsAndClear_short (s : HttpSession) (data : Bytes)
    (hst : s.m_state = State.ST_CONTENTS)
    (hshort : data.length < sizeSub s.m_contentLength s.m_line.length) :
    contentsAndClear s data = Flow.next { s with m_line := s.m_line ++ data } [] := by
  unfold contentsAndClear
  rw [if_pos hst]
  dsimp only
  rw [if_pos hshort]

/-! ## C10: state, `total_len` and the line buffer between calls -/

theorem feed_reachable (env : Env) (s : HttpSession) (chunks : List Bytes)
    (h : Reachable env s) : Reachable env (feed env s chunks) := by
  induction chunks generalizing s with
  | nil => exact h
  | cons c cs ih => exact ih _ (Reachable.step s c h)

/-- What a pass that goes on leaves in the log: nothing new, or one pended job, and then
the session is reset. -/
theorem contentsAndClear_next_cases (s s1 : HttpSession) (data rest1 : Bytes)
    (h : contentsAndClear s data = Flow.next s1 rest1) :
    s1.events = s.events ∨
      (s1.m_state = State.ST_FIRST_HEADER ∧ s1.m_totalLength = 0 ∧ s1.m_line = []) := by
  unfold contentsAndClear at h
  split at h
  · dsimp only at h
    split at h
    · injection h with h1 h2
      subst h1
      exact Or.inl rfl
    · injection h with h1 h2
      subst h1
      exact Or.inr ⟨rfl, rfl, rfl⟩
  · injection h with h1 h2
    subst h1
    exact Or.inl rfl

theorem iteration_next_cases (env : Env) (s s1 : HttpSession) (ch : Char) (rest rest1 : Bytes)
    (h : iteration env s ch rest = Flow.next s1 rest1) :
    s1.events = s.events ∨
      (s1.m_state = State.ST_FIRST_HEADER ∧ s1.m_totalLength = 0 ∧ s1.m_line = []) := by
  unfold iteration at h
  split at h
  · split at h
    · injection h with h1 h2
      subst h1
      exact Or.inl rfl
    · dsimp only at h
      split at h
      · unfold firstHeaderLine at h
        split at h
        · injection h with h1 h2
          subst h1
          exact Or.inl rfl
        · split at h
          · dsimp only at h
            split at h
            · cases h
            · split at h
              · cases h
              · split at h
                · cases h
                · rcases contentsAndClear_next_cases _ _ _ _ h with h3 | h3
                  · exact Or.inl (h3.trans (setUri_events env _ _))
                  · exact Or.inr h3
          · cases h
      · unfold headerLine at h
        split at h
        · split at h
          · cases h
          · rcases contentsAndClear_next_cases _ _ _ _ h with h3 | h3
            · exact Or.inl h3
            · exact Or.inr h3
        · rcases contentsAndClear_next_cases _ _ _ _ h with h3 | h3
          · exact Or.inl h3
          · exact Or.inr h3
  · exact contentsAndClear_next_cases _ _ _ _ h

/-- C10 as stated fails, in every direction, in states reached from a fresh session:
after `G` the state is `ST_FIRST_HEADER` with `total_len = 1` and a non-empty line; after a
blank line the line is empty with `total_len = 2`; after a request line the line is empty
in state `ST_HEADERS`; after a request followed by `G` or by a request line in the same
chunk, `total_len` is 0 with a non-empty line, or with state `ST_HEADERS`. -/
theorem C10_counterexample :
    (Reachable specEnv (feed specEnv (HttpSession.init HttpVerb.HTTP_GET) ["G".toList]) ∧
      (feed specEnv (HttpSession.init HttpVerb.HTTP_GET) ["G".toList]).m_state =
        State.ST_FIRST_HEADER ∧
      (feed specEnv (HttpSession.init HttpVerb.HTTP_GET) ["G".toList]).m_totalLength = 1 ∧
      (feed specEnv (HttpSession.init HttpVerb.HTTP_GET) ["G".toList]).m_line = "G".toList) ∧
    ((feed specEnv (HttpSession.init HttpVerb.HTTP_GET) ["\r\n".toList]).m_line = [] ∧
      (feed specEnv (HttpSession.init HttpVerb.HTTP_GET) ["\r\n".toList]).m_totalLength = 2) ∧
    ((feed specEnv (HttpSession.init HttpVerb.HTTP_GET) ["GET / HTTP/1.1\r\n".toList]).m_line
        = [] ∧
      (feed specEnv (HttpSession.init HttpVerb.HTTP_GET) ["GET / HTTP/1.1\r\n".toList]).m_state
        = State.ST_HEADERS) ∧
    ((feed specEnv (HttpSession.init HttpVerb.HTTP_GET)
        ["GET / HTTP/1.1\r\n\r\nG".toList]).m_totalLength = 0 ∧
      (feed specEnv (HttpSession.init HttpVerb.HTTP_GET)
        ["GET / HTTP/1.1\r\n\r\nG".toList]).m_line = "G".toList) ∧
    ((feed specEnv (HttpSession.init HttpVerb.HTTP_GET)
        ["GET / HTTP/1.1\r\n\r\nGET / HTTP/1.1\r\n".toList]).m_totalLength = 0 ∧
      (feed specEnv (HttpSession.init HttpVerb.HTTP_GET)
        ["GET / HTTP/1.1\r\n\r\nGET / HTTP/1.1\r\n".toList]).m_state = State.ST_HEADERS) := by
  refine ⟨⟨feed_reachable _ _ _ (Reachable.init _), ?_⟩, ?_⟩
  · decide
  · decide

/-! ## C8: the body -/

theorem sizeSub_small (c n : Nat) (hc : c < SIZE_MOD) (hn : n ≤ c) : sizeSub c n = c - n := by
  simp only [sizeSub, SIZE_MOD] at *
  norm_num at *
  omega

theorem iteration_contents (env : Env) (s : HttpSession) (ch : Char) (rest : Bytes)
    (hst : s.m_state = State.ST_CONTENTS) :
    iteration env s ch rest = contentsAndClear s (ch :: rest) := by
  simp [iteration, hst]

theorem headerLine_blank (s : HttpSession) (rest : Bytes) (h : s.m_line = []) :
    headerLine s rest = contentsAndClear { s with m_state := State.ST_CONTENTS } rest := by
  unfold headerLine
  rw [if_neg (by simp [h])]

/-- The loop entered in state `ST_CONTENTS` with fewer bytes than the body still needs. -/
theorem readLoop_contents_short (env : Env) (s : HttpSession) (data : Bytes)
    (hst : s.m_state = State.ST_CONTENTS) (hc : s.m_contentLength < SIZE_MOD)
    (hlen : s.m_line.length + data.length < s.m_contentLength) :
    readLoop env s data = { s with m_line := s.m_line ++ data } := by
  cases data with
  | nil => simp [readLoop_nil]
  | cons ch rest =>
    have h1 := sizeSub_small s.m_contentLength s.m_line.length hc (by omega)
    rw [readLoop_next env s _ ch rest [] (by
      rw [iteration_contents env s ch rest hst]
      exact contentsAndClear_short s (ch :: rest) hst (by rw [h1]; omega))]
    exact readLoop_nil _ _

/-- The loop entered in state `ST_CONTENTS` with the missing bytes of the body at hand. -/
theorem readLoop_contents_full (env : Env) (s : HttpSession) (data rest : Bytes)
    (hst : s.m_state = State.ST_CONTENTS) (hc : s.m_contentLength < SIZE_MOD)
    (hlen : s.m_line.length + data.length = s.m_contentLength) (hne : data ≠ []) :
    readLoop env s (data ++ rest) = readLoop env (s.posted (s.m_line ++ data)) rest := by
  have h1 := sizeSub_small s.m_contentLength s.m_line.length hc (by omega)
  have h2 : sizeSub s.m_contentLength s.m_line.length = data.length := by omega
  cases data with
  | nil => exact absurd rfl hne
  | cons ch d =>
    rw [List.cons_append, readLoop_next env s _ ch (d ++ rest) _ (by
      rw [iteration_contents env s ch (d ++ rest) hst]
      exact contentsAndClear_full s (ch :: (d ++ rest)) hst (by
        rw [h2]
        simp))]
    rw [h2, ← List.cons_append, List.take_left, List.drop_left]

theorem onReadAvail_pass (env : Env) (s : HttpSession) (data : Bytes)
    (h : s.m_totalLength + data.length < MAX_REQUEST_LENGTH) :
    onReadAvail env s data =
      readLoop env { s with m_totalLength := s.m_totalLength + data.length } data := by
  have hsz : s.m_totalLength + data.length < SIZE_MOD :=
    Nat.lt_trans h (by decide)
  simp only [onReadAvail, sizeAdd_small _ _ hsz, ge_iff_le, Nat.not_le.mpr h, if_false]

/-- The chunks that carry the body, fed to a session in state `ST_CONTENTS`. -/
theorem feed_contents (env : Env) (mids : List Bytes) (last rest : Bytes) (hlast : last ≠ []) :
    ∀ t : HttpSession, t.m_state = State.ST_CONTENTS → t.m_contentLength < SIZE_MOD →
      t.m_line.length + (mids.flatten ++ last).length = t.m_contentLength →
      t.m_totalLength + (mids.flatten ++ last ++ rest).length < MAX_REQUEST_LENGTH →
      feed env t (mids ++ [last ++ rest]) =
        readLoop env (t.posted (t.m_line ++ mids.flatten ++ last)) rest := by
  induction mids with
  | nil =>
    intro t hst hc hlen hlim
    simp only [List.flatten_nil, List.nil_append, List.append_nil] at *
    show onReadAvail env t (last ++ rest) = _
    rw [onReadAvail_pass env t _ hlim]
    exact readLoop_contents_full env _ last rest hst hc hlen hlast
  | cons m ms ih =>
    intro t hst hc hlen hlim
    simp only [List.flatten_cons, List.append_assoc, List.length_append] at hlen hlim
    have hl1 : 0 < last.length := List.length_pos.mpr hlast
    show feed env (onReadAvail env t m) (ms ++ [last ++ rest]) = _
    rw [onReadAvail_pass env t m (by omega),
      readLoop_contents_short env { t with m_totalLength := t.m_totalLength + m.length } m
        hst hc (by simp only; omega)]
    rw [ih { t with m_totalLength := t.m_totalLength + m.length, m_line := t.m_line ++ m }
      hst hc (by simp only [List.length_append]; omega)
      (by simp only [List.append_assoc, List.length_append]; omega)]
    simp [HttpSession.posted]

/-- C8. Let a session be in state `ST_HEADERS` with `content_len = c` when the blank line
that ends the headers is completed. If the `c` body bytes follow in the same chunk, the
request is posted with exactly these bytes as body, and the bytes after them are parsed
from the reset session, as the start of the next request. If they arrive in pieces, the
first with the blank line and the others as later chunks (the input staying below the
length limit), the request is posted in the call that brings the last body byte, with the
concatenation of the pieces as body, and the bytes after it in that chunk are parsed from
the reset session. -/
theorem C8_body (env : Env) (s : HttpSession) (b0 : Bytes) (mids : List Bytes)
    (last rest : Bytes)
    (hst : s.m_state = State.ST_HEADERS) (hblank : trimCR s.m_line = [])
    (hc : s.m_contentLength < SIZE_MOD) :
    (s.m_contentLength = b0.length →
      readLoop env s ('\n' :: (b0 ++ rest)) = readLoop env (s.posted b0) rest) ∧
    (s.m_contentLength = (b0 ++ mids.flatten ++ last).length → last ≠ [] →
      s.m_totalLength + (mids.flatten ++ last ++ rest).length < MAX_REQUEST_LENGTH →
      feed env (readLoop env s ('\n' :: b0)) (mids ++ [last ++ rest]) =
        readLoop env (s.posted (b0 ++ mids.flatten ++ last)) rest) := by
  have hit : ∀ data, iteration env s '\n' data =
      contentsAndClear { s with m_state := State.ST_CONTENTS, m_line := [] } data := by
    intro data
    rw [iteration_newline_headers env s data hst, headerLine_blank _ data hblank, hblank]
  constructor
  · intro hlen
    have h0 : sizeSub s.m_contentLength 0 = b0.length := by
      rw [sizeSub_small _ _ hc (Nat.zero_le _)]
      omega
    rw [readLoop_next env s _ '\n' (b0 ++ rest) _ (by
      rw [hit]
      exact contentsAndClear_full _ _ rfl (by
        show ¬ (b0 ++ rest).length < sizeSub s.m_contentLength 0
        rw [h0]
        simp))]
    simp only [List.length_nil, h0, List.take_left, List.drop_left, List.nil_append,
      HttpSession.posted]
  · intro hlen hlast hlim
    have hl1 : 0 < last.length := List.length_pos.mpr hlast
    simp only [List.append_assoc, List.length_append] at hlen
    have h0 : sizeSub s.m_contentLength 0 = s.m_contentLength :=
      sizeSub_small _ _ hc (Nat.zero_le _)
    have hfirst : readLoop env s ('\n' :: b0) =
        { s with m_state := State.ST_CONTENTS, m_line := b0 } := by
      rw [readLoop_next env s _ '\n' b0 [] (by
        rw [hit]
        exact contentsAndClear_short _ _ rfl (by
          show b0.length < sizeSub s.m_contentLength 0
          rw [h0]
          omega))]
      simp [readLoop_nil]
    rw [hfirst, feed_contents env mids last rest hlast
      { s with m_state := State.ST_CONTENTS, m_line := b0 } rfl hc
      (by simp only [List.length_append]; omega) hlim]
    simp [HttpSession.posted]

/-- C8 at a three-byte body `abc` that arrives as `a` with the blank line, then `b`, then
`c` followed by `GET`. -/
theorem C8_body_witness :
    feed specEnv
        (readLoop specEnv
          { HttpSession.init HttpVerb.HTTP_POST with
            m_state := State.ST_HEADERS, m_totalLength := 30, m_contentLength := 3,
            m_line := "\r".toList, m_uri := "/x".toList }
          ('\n' :: "a".toList))
        (["b".toList] ++ ["c".toList ++ "GET".toList]) =
      readLoop specEnv
        (HttpSession.posted
          { HttpSession.init HttpVerb.HTTP_POST with
            m_state := State.ST_HEADERS, m_totalLength := 30, m_contentLength := 3,
            m_line := "\r".toList, m_uri := "/x".toList }
          ("a".toList ++ ["b".toList].flatten ++ "c".toList))
        "GET".toList :=
  (C8_body specEnv
    { HttpSession.init HttpVerb.HTTP_POST with
      m_state := State.ST_HEADERS, m_totalLength := 30, m_contentLength := 3,
      m_line := "\r".toList, m_uri := "/x".toList }
    "a".toList ["b".toList] "c".toList "GET".toList
    (by decide) (by decide) (by decide)).2 (by decide) (by decide) (by decide)

/-! ## C2: the length of a pipelined request -/

/-- Bytes other than the line feed are appended to the line buffer. -/
theorem readLoop_plain (env : Env) (pre rest : Bytes) (hpre : '\n' ∉ pre) :
    ∀ s : HttpSession, s.m_state ≠ State.ST_CONTENTS →
      readLoop env s (pre ++ rest) = readLoop env { s with m_line := s.m_line ++ pre } rest := by
  induction pre with
  | nil =>
    intro s _
    simp
  | cons c cs ih =>
    intro s hst
    have hc : c ≠ '\n' := fun e => hpre (by simp [e])
    have hcs : '\n' ∉ cs := fun e => hpre (by simp [e])
    rw [List.cons_append, readLoop_next env s _ c (cs ++ rest) _ (iteration_plain env s c _ hst hc),
      ih hcs { s with m_line := s.m_line ++ [c] } hst]
    simp

theorem trimCR_append_cr (l : Bytes) : trimCR (l ++ ['\r']) = l := by
  simp [trimCR]

theorem explode_not_mem (sep : Char) (str : Bytes) (limit : Nat) (h : sep ∉ str) :
    explode sep str limit = [str] := by
  induction str with
  | nil => rfl
  | cons c cs ih =>
    have hc : c ≠ sep := fun e => h (by simp [e])
    have hcs : sep ∉ cs := fun e => h (by simp [e])
    rw [explode, if_neg hc, ih hcs]

theorem explode_sep (sep : Char) (pre rest : Bytes) (limit : Nat) (hpre : sep ∉ pre) :
    explode sep (pre ++ sep :: rest) limit = pre :: explode sep rest limit := by
  induction pre with
  | nil => simp [explode]
  | cons c cs ih =>
    have hc : c ≠ sep := fun e => hpre (by simp [e])
    have hcs : sep ∉ cs := fun e => hpre (by simp [e])
    rw [List.cons_append, explode, if_neg hc, ih hcs]

theorem explode_three (a b c : Bytes) (ha : ' ' ∉ a) (hb : ' ' ∉ b) (hc : ' ' ∉ c) :
    explode ' ' (a ++ ' ' :: (b ++ ' ' :: c)) 3 = [a, b, c] := by
  rw [explode_sep _ _ _ _ ha, explode_sep _ _ _ _ hb, explode_not_mem _ _ _ hc]

/-- A `GET` request without headers and with `content_len = 0`, whose request line is the
buffered line followed by `post`: the request is posted at its blank line. -/
theorem readLoop_finish_request (env : Env) (s : HttpSession) (post tail p1 : Bytes)
    (hst : s.m_state = State.ST_FIRST_HEADER) (hc : s.m_contentLength = 0)
    (hpost : '\n' ∉ post) (hne : s.m_line ++ post ≠ [])
    (hex : env.explode ' ' (s.m_line ++ post) 3 = ["GET".toList, p1, "HTTP/1.1".toList])
    (hp1 : p1.head? = some '/') (hq : '?' ∉ p1) :
    readLoop env s (post ++ ('\r' :: '\n' :: '\r' :: '\n' :: tail)) =
      readLoop env
        (HttpSession.posted
          { s with m_verb := HttpVerb.HTTP_GET, m_uri := p1, m_getParams := [] } []) tail := by
  have hcr : '\n' ∉ post ++ ['\r'] := by
    intro h
    rcases List.mem_append.mp h with h | h
    · exact hpost h
    · simp at h
  have hsplit : post ++ ('\r' :: '\n' :: '\r' :: '\n' :: tail) =
      (post ++ ['\r']) ++ ('\n' :: '\r' :: '\n' :: tail) := by simp
  rw [hsplit, readLoop_plain env _ _ hcr s (by simp [hst])]
  have htrim : trimCR (s.m_line ++ (post ++ ['\r'])) = s.m_line ++ post := by
    rw [← List.append_assoc, trimCR_append_cr]
  have hp : ¬ (p1 = [] ∨ p1.head? ≠ some '/') := by
    intro h
    rcases h with h | h
    · subst h
      simp at hp1
    · exact h hp1
  have h1 : ∀ r, iteration env { s with m_line := s.m_line ++ (post ++ ['\r']) } '\n' r =
      Flow.next
        { s with m_state := State.ST_HEADERS, m_line := [], m_verb := HttpVerb.HTTP_GET,
                 m_uri := p1, m_getParams := [] } r := by
    intro r
    rw [iteration_newline_first env { s with m_line := s.m_line ++ (post ++ ['\r']) } r hst,
      firstHeaderLine_parts env _ r "GET".toList p1 "HTTP/1.1".toList
        (by simp only [htrim]; exact hne) (by simp only [htrim]; exact hex),
      if_neg (by decide), if_neg hp, if_neg (by decide), setUri_plain env _ p1 hq]
    rfl
  have h2 : iteration env
      { s with m_state := State.ST_HEADERS, m_line := [] ++ ['\r'], m_verb := HttpVerb.HTTP_GET,
               m_uri := p1, m_getParams := [] } '\n' tail =
      Flow.next
        (HttpSession.posted
          { s with m_verb := HttpVerb.HTTP_GET, m_uri := p1, m_getParams := [] } []) tail := by
    rw [iteration_newline_headers env _ tail rfl, headerLine_blank _ tail (by simp [trimCR])]
    have h0 : sizeSub s.m_contentLength 0 = 0 := by
      rw [hc]
      decide
    rw [contentsAndClear_full _ _ rfl (by
      show ¬ tail.length < sizeSub s.m_contentLength 0
      rw [h0]
      omega)]
    have ht : trimCR (([] : Bytes) ++ ['\r']) = [] := by simp [trimCR]
    simp only [ht, List.length_nil, h0, List.take_zero, List.drop_zero, HttpSession.posted,
      List.append_nil]
  rw [readLoop_next env _ _ '\n' _ _ (h1 _)]
  rw [show ('\r' :: '\n' :: tail) = ['\r'] ++ ('\n' :: tail) from rfl,
    readLoop_plain env ['\r'] ('\n' :: tail) (by decide)
      { s with m_state := State.ST_HEADERS, m_line := [], m_verb := HttpVerb.HTTP_GET,
               m_uri := p1, m_getParams := [] } (by simp)]
  exact readLoop_next env _ _ '\n' tail tail h2

theorem readLoop_plain_all (env : Env) (s : HttpSession) (data : Bytes)
    (hst : s.m_state ≠ State.ST_CONTENTS) (hdata : '\n' ∉ data) :
    readLoop env s data = { s with m_line := s.m_line ++ data } := by
  have h := readLoop_plain env data [] hdata s hst
  rw [List.append_nil, readLoop_nil] at h
  exact h

/-- A call that brings the end of a `GET` request without headers, followed by bytes
without a line feed: the request is posted and the bytes after it are buffered, with
`total_len` left at 0. -/
theorem onReadAvail_finish_request (env : Env) (s : HttpSession) (post tail p1 : Bytes)
    (hst : s.m_state = State.ST_FIRST_HEADER) (hc : s.m_contentLength = 0)
    (hl : s.m_totalLength + (post ++ ('\r' :: '\n' :: '\r' :: '\n' :: tail)).length
      < MAX_REQUEST_LENGTH)
    (hpost : '\n' ∉ post) (hne : s.m_line ++ post ≠ [])
    (hex : env.explode ' ' (s.m_line ++ post) 3 = ["GET".toList, p1, "HTTP/1.1".toList])
    (hp1 : p1.head? = some '/') (hq : '?' ∉ p1) (htail : '\n' ∉ tail) :
    onReadAvail env s (post ++ ('\r' :: '\n' :: '\r' :: '\n' :: tail)) =
      { m_state := State.ST_FIRST_HEADER, m_totalLength := 0, m_contentLength := 0,
        m_line := tail, m_verb := HttpVerb.HTTP_GET, m_uri := [], m_getParams := [],
        m_headers := [],
        events := s.events ++ [Event.pend
          { m_verb := HttpVerb.HTTP_GET, m_uri := p1, m_getParams := [],
            m_incomingHeaders := s.m_headers, m_incomingContents := [] }] } := by
  rw [onReadAvail_pass env s _ hl,
    readLoop_finish_request env
      { s with m_totalLength :=
          s.m_totalLength + (post ++ ('\r' :: '\n' :: '\r' :: '\n' :: tail)).length }
      post tail p1 hst hc hpost hne hex hp1 hq,
    readLoop_plain_all env _ tail (by simp [HttpSession.posted]) htail]
  simp [HttpSession.posted]

/-- Two chunks given to a fresh session: a complete request followed by the start
`GET /xs` of a second one, then its end `ys HTTP/1.1`, where neither chunk reaches the
limit; both requests are posted, whatever the sum of the two lengths. -/
theorem feed_pipelined (xs ys : Bytes) (hx : ∀ c ∈ xs, c = 'a') (hy : ∀ c ∈ ys, c = 'a')
    (h1 : 23 + xs.length < MAX_REQUEST_LENGTH) (h2 : ys.length + 13 < MAX_REQUEST_LENGTH) :
    feed specEnv (HttpSession.init HttpVerb.HTTP_INVALID_VERB)
        ["GET / HTTP/1.1\r\n\r\nGET /".toList ++ xs, ys ++ " HTTP/1.1\r\n\r\n".toList] =
      { HttpSession.init HttpVerb.HTTP_GET with
        events :=
          [Event.pend
            { m_verb := HttpVerb.HTTP_GET, m_uri := "/".toList, m_getParams := [],
              m_incomingHeaders := [], m_incomingContents := [] },
           Event.pend
            { m_verb := HttpVerb.HTTP_GET, m_uri := '/' :: (xs ++ ys),
              m_getParams := [], m_incomingHeaders := [], m_incomingContents := [] }] } := by
  have hxn : ∀ c : Char, c ≠ 'a' → c ∉ xs := fun c hc hm => hc (hx c hm)
  have hyn : ∀ c : Char, c ≠ 'a' → c ∉ ys := fun c hc hm => hc (hy c hm)
  have hc1 : "GET / HTTP/1.1\r\n\r\nGET /".toList ++ xs =
      "GET / HTTP/1.1".toList ++ ('\r' :: '\n' :: '\r' :: '\n' :: ("GET /".toList ++ xs)) := by
    simp
  have hc2 : ys ++ " HTTP/1.1\r\n\r\n".toList =
      (ys ++ " HTTP/1.1".toList) ++ ('\r' :: '\n' :: '\r' :: '\n' :: []) := by
    simp
  have step1 := onReadAvail_finish_request specEnv (HttpSession.init HttpVerb.HTTP_INVALID_VERB)
    "GET / HTTP/1.1".toList ("GET /".toList ++ xs) "/".toList rfl rfl
    (by
      simp only [HttpSession.init, List.length_append, List.length_cons]
      simp only [MAX_REQUEST_LENGTH] at h1 ⊢
      have : "GET / HTTP/1.1".toList.length = 14 := by decide
      have : "GET /".toList.length = 5 := by decide
      omega)
    (by decide) (by decide) (by decide) (by decide) (by decide)
    (by
      intro h
      rcases List.mem_append.mp h with h | h
      · revert h
        decide
      · exact hxn _ (by decide) h)
  have hline : ("GET /".toList ++ xs) ++ (ys ++ " HTTP/1.1".toList) =
      "GET".toList ++ ' ' :: (('/' :: (xs ++ ys)) ++ ' ' :: "HTTP/1.1".toList) := by
    simp
  have hmem : ∀ c : Char, c ≠ 'a' → c ≠ '/' → c ∉ '/' :: (xs ++ ys) := by
    intro c hca hcs h
    rcases List.mem_cons.mp h with h | h
    · exact hcs h
    · rcases List.mem_append.mp h with h | h
      · exact hxn c hca h
      · exact hyn c hca h
  have step2 := onReadAvail_finish_request specEnv
    { m_state := State.ST_FIRST_HEADER, m_totalLength := 0, m_contentLength := 0,
      m_line := "GET /".toList ++ xs, m_verb := HttpVerb.HTTP_GET, m_uri := [], m_getParams := [],
      m_headers := [],
      events := (HttpSession.init HttpVerb.HTTP_INVALID_VERB).events ++ [Event.pend
        { m_verb := HttpVerb.HTTP_GET, m_uri := "/".toList, m_getParams := [],
          m_incomingHeaders := (HttpSession.init HttpVerb.HTTP_INVALID_VERB).m_headers,
          m_incomingContents := [] }] }
    (ys ++ " HTTP/1.1".toList) [] ('/' :: (xs ++ ys)) rfl rfl
    (by
      simp only [List.length_append, List.length_cons, List.length_nil]
      simp only [MAX_REQUEST_LENGTH] at h2 ⊢
      have : " HTTP/1.1".toList.length = 9 := by decide
      omega)
    (by
      intro h
      rcases List.mem_append.mp h with h | h
      · exact hyn _ (by decide) h
      · revert h
        decide)
    (by simp)
    (by
      show explode ' ' (("GET /".toList ++ xs) ++ (ys ++ " HTTP/1.1".toList)) 3 = _
      rw [hline]
      exact explode_three _ _ _ (by decide) (hmem ' ' (by decide) (by decide)) (by decide))
    rfl (hmem '?' (by decide) (by decide)) (by simp)
  show onReadAvail specEnv (onReadAvail specEnv _ _) _ = _
  rw [hc1, step1, hc2, step2]
  rfl

/-- C2, the code at the failing input. Two chunks of 16383 bytes each are given to a fresh
session: a complete request followed by the first 16365 bytes of a second request, then
the remaining 16383 bytes of the second request. No call responds 413 and both requests
are posted, the second one parsed from 32748 consecutive input bytes, twice the limit of
16384: the count `total_len` was reset to 0 in the middle of the first chunk. -/
theorem C2_pipelined_request_over_limit :
    feed specEnv (HttpSession.init HttpVerb.HTTP_INVALID_VERB)
        ["GET / HTTP/1.1\r\n\r\nGET /".toList ++ List.replicate 16360 'a',
         List.replicate 16370 'a' ++ " HTTP/1.1\r\n\r\n".toList] =
      { HttpSession.init HttpVerb.HTTP_GET with
        events :=
          [Event.pend
            { m_verb := HttpVerb.HTTP_GET, m_uri := "/".toList, m_getParams := [],
              m_incomingHeaders := [], m_incomingContents := [] },
           Event.pend
            { m_verb := HttpVerb.HTTP_GET,
              m_uri := '/' :: (List.replicate 16360 'a' ++ List.replicate 16370 'a'),
              m_getParams := [], m_incomingHeaders := [], m_incomingContents := [] }] } ∧
    ("GET / HTTP/1.1\r\n\r\nGET /".toList ++ List.replicate 16360 'a').length = 16383 ∧
    (List.replicate 16370 'a' ++ " HTTP/1.1\r\n\r\n".toList).length = 16383 ∧
    ("GET /".toList ++ List.replicate 16360 'a' ++
      (List.replicate 16370 'a' ++ " HTTP/1.1\r\n\r\n".toList)).length = 32748 ∧
    MAX_REQUEST_LENGTH = 16384 := by
  refine ⟨feed_pipelined _ _ (fun c h => List.eq_of_mem_replicate h)
    (fun c h => List.eq_of_mem_replicate h) ?_ ?_, ?_, ?_, ?_, rfl⟩
  · rw [List.length_replicate]
    decide
  · rw [List.length_replicate]
    decide
  · rw [List.length_append, List.length_replicate]
    rfl
  · rw [List.length_append, List.length_replicate]
    rfl
  · rw [List.length_append, List.length_append, List.length_append, List.length_replicate,
      List.length_replicate]
    rfl

/-! # The timer daemon: heaps -/

theorem isHeap_nil : IsHeap [] := by
  intro i p c _ _ hc
  simp at hc

/-- At the front of a heap is an element with the smallest `next`. -/
theorem heap_front_min (v : List TimerQueueElement) (hv : IsHeap v) (f : TimerQueueElement)
    (hf : v.head? = some f) : ∀ x ∈ v, f.next ≤ x.next := by
  have key : ∀ (n i : Nat) (x : TimerQueueElement), i ≤ n → v[i]? = some x → f.next ≤ x.next := by
    intro n
    induction n with
    | zero =>
      intro i x hi hx
      have h0 : i = 0 := by omega
      subst h0
      rw [← List.head?_eq_getElem?, hf] at hx
      cases hx
      exact Nat.le_refl _
    | succ n ih =>
      intro i x hi hx
      by_cases h0 : i = 0
      · exact ih i x (by omega) hx
      · have hlt : i < v.length := by
          by_contra hge
          rw [List.getElem?_eq_none (by omega)] at hx
          cases hx
        have hp : (i - 1) / 2 < v.length := by omega
        have hpe : v[(i - 1) / 2]? = some v[(i - 1) / 2] := List.getElem?_eq_getElem hp
        have h1 := ih ((i - 1) / 2) _ (by omega) hpe
        have h2 := hv i _ x (by omega) hpe hx
        simp only [TimerQueueElement.lt, decide_eq_false_iff_not, gt_iff_lt, Nat.not_lt] at h2
        omega
  intro x hx
  obtain ⟨i, hi⟩ := List.mem_iff_getElem?.mp hx
  exact key i i x (Nat.le_refl _) hi

/-- A vector sorted by `next` is a heap. -/
theorem isHeap_of_sorted (v : List TimerQueueElement)
    (hs : v.Pairwise (fun a b => a.next ≤ b.next)) : IsHeap v := by
  intro i p c hi hp hc
  have hlt : i < v.length := by
    by_contra hge
    rw [List.getElem?_eq_none (by omega)] at hc
    cases hc
  have hpl : (i - 1) / 2 < v.length := by omega
  rw [List.getElem?_eq_getElem hlt] at hc
  rw [List.getElem?_eq_getElem hpl] at hp
  cases hc
  cases hp
  have := List.pairwise_iff_getElem.mp hs ((i - 1) / 2) i hpl hlt (by omega)
  simp only [TimerQueueElement.lt, decide_eq_false_iff_not, gt_iff_lt, Nat.not_lt]
  exact this

theorem insertByNext_perm (x : TimerQueueElement) (l : List TimerQueueElement) :
    (insertByNext x l).Perm (x :: l) := by
  induction l with
  | nil => exact List.Perm.refl _
  | cons y ys ih =>
    unfold insertByNext
    split
    · exact List.Perm.refl _
    · exact (List.Perm.cons y ih).trans (List.Perm.swap x y ys)

theorem insertByNext_sorted (x : TimerQueueElement) (l : List TimerQueueElement)
    (hs : l.Pairwise (fun a b => a.next ≤ b.next)) :
    (insertByNext x l).Pairwise (fun a b => a.next ≤ b.next) := by
  induction l with
  | nil => simp [insertByNext]
  | cons y ys ih =>
    unfold insertByNext
    have hy := List.pairwise_cons.mp hs
    split
    · rename_i hxy
      refine List.pairwise_cons.mpr ⟨?_, hs⟩
      intro z hz
      rcases List.mem_cons.mp hz with rfl | hz
      · exact hxy
      · exact Nat.le_trans hxy (hy.1 z hz)
    · rename_i hxy
      refine List.pairwise_cons.mpr ⟨?_, ih hy.2⟩
      intro z hz
      rcases List.mem_cons.mp ((insertByNext_perm x ys).mem_iff.mp hz) with rfl | hz
      · omega
      · exact hy.1 z hz

theorem sortByNext_perm (l : List TimerQueueElement) : (sortByNext l).Perm l := by
  induction l with
  | nil => exact List.Perm.refl _
  | cons x xs ih => exact (insertByNext_perm x _).trans (List.Perm.cons x ih)

theorem sortByNext_sorted (l : List TimerQueueElement) :
    (sortByNext l).Pairwise (fun a b => a.next ≤ b.next) := by
  induction l with
  | nil => exact List.Pairwise.nil
  | cons x xs ih => exact insertByNext_sorted x _ ih

/-- The sorting instance meets the contract of `push_heap` and `pop_heap`. -/
theorem sortedEnv_lawful : sortedEnv.Lawful := by
  constructor
  · intro v _ _
    exact ⟨isHeap_of_sorted _ (sortByNext_sorted v), sortByNext_perm v⟩
  · intro v hne _
    cases v with
    | nil => exact absurd rfl hne
    | cons f rest =>
      refine ⟨?_, ?_, ?_⟩
      · show (sortByNext rest ++ [f]).Perm (f :: rest)
        exact List.perm_append_singleton f _ |>.trans (List.Perm.cons f (sortByNext_perm rest))
      · show (sortByNext rest ++ [f]).getLast? = some f
        exact List.getLast?_concat _
      · show IsHeap (sortByNext rest ++ [f]).dropLast
        rw [List.dropLast_concat]
        exact isHeap_of_sorted _ (sortByNext_sorted rest)

/-! # The timer daemon: the loop of `pump_one_element` -/

theorem isLive_false_of_lock_none (items : List (Option TimerItem)) (e : TimerQueueElement)
    (h : lockItem items e.item = none) : isLive items e = false := by
  simp [isLive, h]

theorem isLive_false_of_stamp (items : List (Option TimerItem)) (e : TimerQueueElement)
    (it : TimerItem) (h : lockItem items e.item = some it) (hs : it.stamp ≠ e.stamp) :
    isLive items e = false := by
  simp [isLive, h, hs]

theorem isLive_iff (items : List (Option TimerItem)) (e : TimerQueueElement) :
    isLive items e = true ↔ ∃ it, lockItem items e.item = some it ∧ it.stamp = e.stamp := by
  unfold isLive
  cases h : lockItem items e.item with
  | none => simp
  | some it => simp

/-- What the loop `_pick_next` does to a heap `v` when it has fuel for more rounds than
`v` has elements. The elements it throws away are dead or stale and are due. When
nothing is popped for dispatch, the elements left are not due. When an element `e` is
popped for dispatch, it is live and due, it has the smallest `next` of what is left, and
it is taken out (period 0) or put back one period later. -/
theorem pickNext_spec (env : TimerEnv) (hlaw : env.Lawful) (items : List (Option TimerItem))
    (now : Nat) :
    ∀ (fuel : Nat) (v : List TimerQueueElement), IsHeap v → v.length < fuel →
      ∃ discarded : List TimerQueueElement,
        (∀ x ∈ discarded, isLive items x = false ∧ x.next ≤ now) ∧
        IsHeap (pickNext env items now fuel v).1 ∧
        ((pickNext env items now fuel v).2 = none →
          v.Perm (discarded ++ (pickNext env items now fuel v).1) ∧
          ∀ x ∈ (pickNext env items now fuel v).1, now < x.next) ∧
        (∀ e it, (pickNext env items now fuel v).2 = some (e, it) →
          ∃ rest, v.Perm (discarded ++ e :: rest) ∧
            lockItem items e.item = some it ∧ it.stamp = e.stamp ∧ e.next ≤ now ∧
            (∀ x ∈ rest, e.next ≤ x.next) ∧ (∀ x ∈ discarded, x.next ≤ e.next) ∧
            (pickNext env items now fuel v).1.Perm
              (if it.period = 0 then rest
               else { e with next := saturated_add e.next it.period } :: rest)) := by
  intro fuel
  induction fuel with
  | zero =>
    intro v _ hlen
    exact absurd hlen (Nat.not_lt_zero _)
  | succ fuel ih =>
    intro v hv hlen
    cases hhead : v.head? with
    | none =>
      have hnil : v = [] := List.head?_eq_none_iff.mp hhead
      subst hnil
      refine ⟨[], by simp, ?_, ?_, ?_⟩
      · simpa [pickNext] using isHeap_nil
      · intro _
        simp [pickNext]
      · intro e it h
        simp [pickNext] at h
    | some front =>
      have hmin := heap_front_min v hv front hhead
      have hne : v ≠ [] := by
        intro h
        subst h
        simp at hhead
      by_cases hdue : now < front.next
      · have hr : pickNext env items now (fuel + 1) v = (v, none) := by
          simp [pickNext, hhead, hdue]
        rw [hr]
        refine ⟨[], by simp, hv, ?_, ?_⟩
        · intro _
          refine ⟨by simp, ?_⟩
          intro x hx
          exact Nat.lt_of_lt_of_le hdue (hmin x hx)
        · intro e it h
          cases h
      · obtain ⟨hperm, hback, hheap⟩ := hlaw.2 v hne hv
        rw [hhead] at hback
        have hsplit : (env.pop_heap v).dropLast ++ [front] = env.pop_heap v :=
          List.dropLast_append_getLast? front hback
        have hperm2 : v.Perm (front :: (env.pop_heap v).dropLast) := by
          have h1 : (env.pop_heap v).Perm (front :: (env.pop_heap v).dropLast) := by
            rw [← hsplit]
            simp only [List.dropLast_concat]
            exact List.perm_append_singleton _ _
          exact hperm.symm.trans h1
        have hlen2 : (env.pop_heap v).dropLast.length < fuel := by
          have := hperm2.length_eq
          simp only [List.length_cons] at this
          omega
        have hfdue : front.next ≤ now := Nat.le_of_not_lt hdue
        have hrestmin : ∀ x ∈ (env.pop_heap v).dropLast, front.next ≤ x.next := by
          intro x hx
          exact hmin x (hperm2.mem_iff.mpr (List.mem_cons_of_mem _ hx))
        -- the rounds that throw the popped element away
        have hdiscard : isLive items front = false →
            pickNext env items now (fuel + 1) v =
              pickNext env items now fuel (env.pop_heap v).dropLast →
            ∃ discarded : List TimerQueueElement,
              (∀ x ∈ discarded, isLive items x = false ∧ x.next ≤ now) ∧
              IsHeap (pickNext env items now (fuel + 1) v).1 ∧
              ((pickNext env items now (fuel + 1) v).2 = none →
                v.Perm (discarded ++ (pickNext env items now (fuel + 1) v).1) ∧
                ∀ x ∈ (pickNext env items now (fuel + 1) v).1, now < x.next) ∧
              (∀ e it, (pickNext env items now (fuel + 1) v).2 = some (e, it) →
                ∃ rest, v.Perm (discarded ++ e :: rest) ∧
                  lockItem items e.item = some it ∧ it.stamp = e.stamp ∧ e.next ≤ now ∧
                  (∀ x ∈ rest, e.next ≤ x.next) ∧ (∀ x ∈ discarded, x.next ≤ e.next) ∧
                  (pickNext env items now (fuel + 1) v).1.Perm
                    (if it.period = 0 then rest
                     else { e with next := saturated_add e.next it.period } :: rest)) := by
          intro hdead hr
          rw [hr]
          obtain ⟨disc, hd1, hd2, hd3, hd4⟩ := ih _ hheap hlen2
          refine ⟨front :: disc, ?_, hd2, ?_, ?_⟩
          · intro x hx
            rcases List.mem_cons.mp hx with rfl | hx
            · exact ⟨hdead, hfdue⟩
            · exact hd1 x hx
          · intro hnone
            obtain ⟨hp, hnd⟩ := hd3 hnone
            exact ⟨hperm2.trans (List.Perm.cons front hp), hnd⟩
          · intro e it hsome
            obtain ⟨rest, hp, h1, h2, h3, h4, h5, h6⟩ := hd4 e it hsome
            refine ⟨rest, hperm2.trans (List.Perm.cons front hp), h1, h2, h3, h4, ?_, h6⟩
            intro x hx
            rcases List.mem_cons.mp hx with rfl | hx
            · exact hrestmin e (hp.mem_iff.mpr (by simp))
            · exact h5 x hx
        cases hlock : lockItem items front.item with
        | none =>
          exact hdiscard (isLive_false_of_lock_none items front hlock)
            (by simp [pickNext, hhead, hdue, hback, hlock])
        | some it =>
          by_cases hst : it.stamp ≠ front.stamp
          · exact hdiscard (isLive_false_of_stamp items front it hlock hst)
              (by simp [pickNext, hhead, hdue, hback, hlock, hst])
          · have hst2 : it.stamp = front.stamp := by
              by_contra h
              exact hst h
            by_cases hper : it.period = 0
            · have hr : pickNext env items now (fuel + 1) v =
                  ((env.pop_heap v).dropLast, some (front, it)) := by
                simp [pickNext, hhead, hdue, hback, hlock, hst2, hper]
              rw [hr]
              refine ⟨[], by simp, hheap, ?_, ?_⟩
              · intro h
                cases h
              · intro e it2 h
                simp only [Option.some.injEq, Prod.mk.injEq] at h
                obtain ⟨rfl, rfl⟩ := h
                refine ⟨(env.pop_heap v).dropLast, hperm2, hlock, hst2, hfdue, hrestmin,
                  by simp, ?_⟩
                simp [hper]
            · have hr : pickNext env items now (fuel + 1) v =
                  (env.push_heap ((env.pop_heap v).dropLast ++
                    [{ front with next := saturated_add front.next it.period }]),
                   some (front, it)) := by
                simp [pickNext, hhead, hdue, hback, hlock, hst2, hper]
              rw [hr]
              obtain ⟨hph, hpp⟩ := hlaw.1 ((env.pop_heap v).dropLast ++
                [{ front with next := saturated_add front.next it.period }]) (by simp)
                (by rw [List.dropLast_concat]; exact hheap)
              refine ⟨[], by simp, hph, ?_, ?_⟩
              · intro h
                cases h
              · intro e it2 h
                simp only [Option.some.injEq, Prod.mk.injEq] at h
                obtain ⟨rfl, rfl⟩ := h
                refine ⟨(env.pop_heap v).dropLast, hperm2, hlock, hst2, hfdue, hrestmin,
                  by simp, ?_⟩
                simp only [hper, if_false]
                exact hpp.trans (List.perm_append_singleton _ _)

/-- The contract of `pump_one_element` on a heap: the items are not touched; the elements
thrown away are dead or stale and due; without a dispatch nothing left is due; with a
dispatch, the element popped is live, due, and has the smallest `next` of what is left,
and it is taken out or put back one period later. -/
theorem pump_spec (env : TimerEnv) (hlaw : env.Lawful) (d : TimerDaemon) (now : Nat)
    (hheap : IsHeap d.g_timers) :
    (pump_one_element env d now).1.items = d.items ∧
    ∃ discarded : List TimerQueueElement,
      (∀ x ∈ discarded, isLive d.items x = false ∧ x.next ≤ now) ∧
      IsHeap (pump_one_element env d now).1.g_timers ∧
      ((pump_one_element env d now).2 = none →
        d.g_timers.Perm (discarded ++ (pump_one_element env d now).1.g_timers) ∧
        ∀ x ∈ (pump_one_element env d now).1.g_timers, now < x.next) ∧
      (∀ f, (pump_one_element env d now).2 = some f →
        f.now = now ∧
        ∃ it rest, lockItem d.items f.elem.item = some it ∧ it.stamp = f.elem.stamp ∧
          f.period = it.period ∧ f.low_level = it.low_level ∧ f.elem.next ≤ now ∧
          d.g_timers.Perm (discarded ++ f.elem :: rest) ∧
          (∀ x ∈ rest, f.elem.next ≤ x.next) ∧ (∀ x ∈ discarded, x.next ≤ f.elem.next) ∧
          (pump_one_element env d now).1.g_timers.Perm
            (if it.period = 0 then rest
             else { f.elem with next := saturated_add f.elem.next it.period } :: rest)) := by
  obtain ⟨disc, h1, h2, h3, h4⟩ :=
    pickNext_spec env hlaw d.items now (d.g_timers.length + 1) d.g_timers hheap (Nat.lt_succ_self _)
  unfold pump_one_element
  cases hr : pickNext env d.items now (d.g_timers.length + 1) d.g_timers with
  | mk v r =>
    rw [hr] at h2 h3 h4
    cases r with
    | none =>
      refine ⟨rfl, disc, h1, h2, fun _ => h3 rfl, ?_⟩
      intro f hf
      cases hf
    | some p =>
      obtain ⟨e, it⟩ := p
      refine ⟨rfl, disc, h1, h2, ?_, ?_⟩
      · intro h
        cases h
      · intro f hf
        simp only [Option.some.injEq] at hf
        subst hf
        obtain ⟨rest, hp, hl, hs, hdue, hmin, hdmin, hnew⟩ := h4 e it rfl
        exact ⟨rfl, it, rest, hl, hs, rfl, rfl, hdue, hp, hmin, hdmin, hnew⟩

theorem registerItem_heap (env : TimerEnv) (hlaw : env.Lawful) (d : TimerDaemon)
    (first period : Nat) (low_level : Bool) (hheap : IsHeap d.g_timers) :
    IsHeap (registerItem env d first period low_level).1.g_timers ∧
    (registerItem env d first period low_level).1.g_timers.Perm
      ({ next := first, item := d.items.length, stamp := 0 } :: d.g_timers) := by
  obtain ⟨h1, h2⟩ := hlaw.1 (d.g_timers ++ [{ next := first, item := d.items.length, stamp := 0 }])
    (by simp) (by rw [List.dropLast_concat]; exact hheap)
  exact ⟨h1, h2.trans (List.perm_append_singleton _ _)⟩

theorem set_absolute_time_some (env : TimerEnv) (d : TimerDaemon) (item first period : Nat)
    (it : TimerItem) (hit : lockItem d.items item = some it) :
    set_absolute_time env d item first period =
      { items := d.items.set item (some
          { period := if period ≠ env.PERIOD_NOT_MODIFIED then period else it.period,
            low_level := it.low_level, stamp := stampSucc it.stamp }),
        g_timers := env.push_heap
          (d.g_timers ++ [{ next := first, item := item, stamp := stampSucc it.stamp }]) } := by
  unfold set_absolute_time
  rw [hit]
  simp only [List.dropLast_concat]
  split <;> rfl

theorem set_absolute_time_none (env : TimerEnv) (d : TimerDaemon) (item first period : Nat)
    (hit : lockItem d.items item = none) : set_absolute_time env d item first period = d := by
  unfold set_absolute_time
  rw [hit]

theorem set_absolute_time_heap (env : TimerEnv) (hlaw : env.Lawful) (d : TimerDaemon)
    (item first period : Nat) (hheap : IsHeap d.g_timers) :
    IsHeap (set_absolute_time env d item first period).g_timers := by
  cases hit : lockItem d.items item with
  | none =>
    rw [set_absolute_time_none env d item first period hit]
    exact hheap
  | some it =>
    rw [set_absolute_time_some env d item first period it hit]
    exact (hlaw.1 _ (by simp) (by rw [List.dropLast_concat]; exact hheap)).1

/-- Every operation leaves the vector a heap. -/
theorem step_heap (env : TimerEnv) (hlaw : env.Lawful) (d : TimerDaemon) (op : TimerOp)
    (hheap : IsHeap d.g_timers) : IsHeap (d.step env op).1.g_timers := by
  cases op with
  | register first period low_level => exact (registerItem_heap env hlaw d _ _ _ hheap).1
  | setTime item first period => exact set_absolute_time_heap env hlaw d _ _ _ hheap
  | pump now =>
    obtain ⟨_, _, _, h, _⟩ := pump_spec env hlaw d now hheap
    exact h
  | release item => exact hheap

theorem run_heap (env : TimerEnv) (hlaw : env.Lawful) (ops : List TimerOp) :
    ∀ d : TimerDaemon, IsHeap d.g_timers → IsHeap (TimerDaemon.run env d ops).1.g_timers := by
  induction ops with
  | nil => intro d h; exact h
  | cons op ops ih =>
    intro d h
    exact ih _ (step_heap env hlaw d op h)

theorem saturated_add_le (a b : Nat) : saturated_add a b ≤ U64_MAX := by
  unfold saturated_add
  split <;> omega

theorem saturated_add_ge (a b : Nat) (ha : a ≤ U64_MAX) : a ≤ saturated_add a b := by
  unfold saturated_add
  split <;> omega

theorem saturated_add_eq_min (a b : Nat) : saturated_add a b = min (a + b) U64_MAX := by
  unfold saturated_add
  split <;> omega

/-- A run of pumps (and releases of items) fires elements in the order of their `next`,
none below a lower bound of the vector. -/
theorem run_pumps_sorted (env : TimerEnv) (hlaw : env.Lawful) (ops : List TimerOp)
    (hops : ∀ op ∈ ops, (∃ now, op = TimerOp.pump now) ∨ (∃ item, op = TimerOp.release item)) :
    ∀ (d : TimerDaemon) (low : Nat), IsHeap d.g_timers →
      (∀ x ∈ d.g_timers, low ≤ x.next ∧ x.next ≤ U64_MAX) →
      (∀ f ∈ (TimerDaemon.run env d ops).2, low ≤ f.elem.next) ∧
      (TimerDaemon.run env d ops).2.Pairwise (fun f g => f.elem.next ≤ g.elem.next) := by
  induction ops with
  | nil =>
    intro d low _ _
    exact ⟨by simp [TimerDaemon.run], by simp [TimerDaemon.run]⟩
  | cons op ops ih =>
    intro d low hheap hlow
    have hops2 : ∀ op ∈ ops, (∃ now, op = TimerOp.pump now) ∨
        (∃ item, op = TimerOp.release item) := fun o ho => hops o (List.mem_cons_of_mem _ ho)
    rcases hops op (List.mem_cons_self _ _) with ⟨now, rfl⟩ | ⟨item, rfl⟩
    · obtain ⟨_, disc, _, hh, hnone, hsome⟩ := pump_spec env hlaw d now hheap
      show (∀ f ∈ (pump_one_element env d now).2.toList ++
          (TimerDaemon.run env (pump_one_element env d now).1 ops).2, low ≤ f.elem.next) ∧
        ((pump_one_element env d now).2.toList ++
          (TimerDaemon.run env (pump_one_element env d now).1 ops).2).Pairwise
            (fun f g => f.elem.next ≤ g.elem.next)
      cases hf : (pump_one_element env d now).2 with
      | none =>
        obtain ⟨hp, _⟩ := hnone hf
        have hlow2 : ∀ x ∈ (pump_one_element env d now).1.g_timers,
            low ≤ x.next ∧ x.next ≤ U64_MAX := by
          intro x hx
          exact hlow x (hp.mem_iff.mpr (List.mem_append_right _ hx))
        simpa using ih hops2 _ low hh hlow2
      | some f =>
        obtain ⟨_, it, rest, _, _, _, _, _, hp, hmin, _, hnew⟩ := hsome f hf
        have hfm : f.elem ∈ d.g_timers :=
          hp.mem_iff.mpr (List.mem_append_right _ (List.mem_cons_self _ _))
        have hrest : ∀ x ∈ rest, x ∈ d.g_timers := fun x hx =>
          hp.mem_iff.mpr (List.mem_append_right _ (List.mem_cons_of_mem _ hx))
        have hlow2 : ∀ x ∈ (pump_one_element env d now).1.g_timers,
            f.elem.next ≤ x.next ∧ x.next ≤ U64_MAX := by
          intro x hx
          have hx2 := hnew.mem_iff.mp hx
          split at hx2
          · exact ⟨hmin x hx2, (hlow x (hrest x hx2)).2⟩
          · rcases List.mem_cons.mp hx2 with rfl | hx3
            · exact ⟨saturated_add_ge _ _ (hlow _ hfm).2, saturated_add_le _ _⟩
            · exact ⟨hmin x hx3, (hlow x (hrest x hx3)).2⟩
        obtain ⟨h1, h2⟩ := ih hops2 _ f.elem.next hh hlow2
        constructor
        · intro g hg
          simp only [Option.toList, List.singleton_append, List.mem_cons] at hg
          rcases hg with rfl | hg
          · exact (hlow _ hfm).1
          · exact Nat.le_trans (hlow _ hfm).1 (h1 g hg)
        · simp only [Option.toList, List.singleton_append]
          exact List.pairwise_cons.mpr ⟨h1, h2⟩
    · simpa [TimerDaemon.run, TimerDaemon.step] using ih hops2
        { d with items := d.items.set item none } low hheap hlow

/-! # The timer daemon: the invariant of the reachable states -/

theorem lockItem_lt (items : List (Option TimerItem)) (id : Nat) (it : TimerItem)
    (h : lockItem items id = some it) : id < items.length := by
  by_contra hge
  simp [lockItem, List.getElem?_eq_none (Nat.le_of_not_lt hge)] at h

theorem lockItem_append_old (items : List (Option TimerItem)) (x : Option TimerItem) (id : Nat)
    (h : id < items.length) : lockItem (items ++ [x]) id = lockItem items id := by
  simp [lockItem, List.getElem?_append_left h]

theorem lockItem_append_new (items : List (Option TimerItem)) (x : Option TimerItem) :
    lockItem (items ++ [x]) items.length = x := by
  simp [lockItem]

theorem lockItem_set_same (items : List (Option TimerItem)) (x : Option TimerItem) (id : Nat)
    (h : id < items.length) : lockItem (items.set id x) id = x := by
  simp [lockItem, List.getElem?_set, h]

theorem lockItem_set_other (items : List (Option TimerItem)) (x : Option TimerItem) (id j : Nat)
    (h : j ≠ id) : lockItem (items.set j x) id = lockItem items id := by
  simp [lockItem, List.getElem?_set, h]

theorem isLive_congr (items items2 : List (Option TimerItem)) (e : TimerQueueElement)
    (h : lockItem items2 e.item = lockItem items e.item) : isLive items2 e = isLive items e := by
  simp [isLive, h]

theorem stampSucc_le (s : Nat) : stampSucc s ≤ s + 1 := by
  unfold stampSucc
  exact Nat.mod_le _ _

theorem stampSucc_eq (s : Nat) (h : s + 1 < 2 ^ 64) : stampSucc s = s + 1 := by
  unfold stampSucc
  exact Nat.mod_eq_of_lt h

theorem empty_WF : TimerDaemon.empty.WF 0 := by
  refine ⟨isHeap_nil, ?_, ?_, ?_, ?_⟩
  · intro x hx
    simp [TimerDaemon.empty] at hx
  · intro id it h
    simp [TimerDaemon.empty, lockItem] at h
  · intro x hx
    simp [TimerDaemon.empty] at hx
  · intro id
    simp [TimerDaemon.empty]

theorem WF_mono (d : TimerDaemon) (n m : Nat) (h : d.WF n) (hnm : n ≤ m) : d.WF m := by
  obtain ⟨h1, h2, h3, h4, h5⟩ := h
  exact ⟨h1, h2, fun id it hl => Nat.le_trans (h3 id it hl) hnm, h4, h5⟩

theorem countP_le_of_imp (l : List TimerQueueElement) (p q : TimerQueueElement → Bool)
    (h : ∀ x ∈ l, p x = true → q x = true) : l.countP p ≤ l.countP q := by
  induction l with
  | nil => simp
  | cons a l ih =>
    have ih2 := ih (fun x hx => h x (List.mem_cons_of_mem _ hx))
    have ha := h a (List.mem_cons_self _ _)
    simp only [List.countP_cons]
    by_cases hp : p a = true
    · rw [if_pos hp, if_pos (ha hp)]
      omega
    · rw [if_neg hp]
      split <;> omega

theorem countP_eq_zero_of (l : List TimerQueueElement) (p : TimerQueueElement → Bool)
    (h : ∀ x ∈ l, p x = false) : l.countP p = 0 := by
  induction l with
  | nil => simp
  | cons a l ih =>
    have ha := h a (List.mem_cons_self _ _)
    simp [List.countP_cons, ha, ih (fun x hx => h x (List.mem_cons_of_mem _ hx))]

theorem liveFor_congr (items items2 : List (Option TimerItem)) (id : Nat)
    (e : TimerQueueElement) (h : lockItem items2 e.item = lockItem items e.item) :
    liveFor items2 id e = liveFor items id e := by
  simp [liveFor, isLive_congr items items2 e h]

theorem liveFor_other (items : List (Option TimerItem)) (id : Nat) (e : TimerQueueElement)
    (h : e.item ≠ id) : liveFor items id e = false := by
  simp [liveFor, h]

theorem registerItem_WF (env : TimerEnv) (hlaw : env.Lawful) (d : TimerDaemon) (n : Nat)
    (first period : Nat) (low_level : Bool) (h : d.WF n) :
    (registerItem env d first period low_level).1.WF n := by
  obtain ⟨h1, h2, h3, h4, h5⟩ := h
  obtain ⟨hh, hp⟩ := registerItem_heap env hlaw d first period low_level h1
  have hitems : (registerItem env d first period low_level).1.items =
      d.items ++ [some { period := period, low_level := low_level, stamp := 0 }] := rfl
  refine ⟨hh, ?_, ?_, ?_, ?_⟩
  · intro x hx
    rw [hitems, List.length_append, List.length_singleton]
    rcases List.mem_cons.mp (hp.mem_iff.mp hx) with rfl | hx
    · exact Nat.lt_succ_self _
    · exact Nat.lt_succ_of_lt (h2 x hx)
  · intro id it hl
    rw [hitems] at hl
    by_cases hid : id < d.items.length
    · rw [lockItem_append_old _ _ _ hid] at hl
      exact h3 id it hl
    · have hlt := lockItem_lt _ _ _ hl
      rw [List.length_append, List.length_singleton] at hlt
      have : id = d.items.length := by omega
      subst this
      rw [lockItem_append_new] at hl
      cases hl
      exact Nat.zero_le _
  · intro x hx it hl
    rw [hitems] at hl
    rcases List.mem_cons.mp (hp.mem_iff.mp hx) with rfl | hx
    · rw [lockItem_append_new] at hl
      cases hl
      exact Nat.le_refl _
    · rw [lockItem_append_old _ _ _ (h2 x hx)] at hl
      exact h4 x hx it hl
  · intro id
    rw [hp.countP_eq, List.countP_cons, hitems]
    by_cases hid : id = d.items.length
    · subst hid
      have hz : d.g_timers.countP (liveFor
          (d.items ++ [some { period := period, low_level := low_level, stamp := 0 }])
          d.items.length) = 0 := by
        apply countP_eq_zero_of
        intro x hx
        exact liveFor_other _ _ _ (Nat.ne_of_lt (h2 x hx))
      rw [hz]
      split <;> omega
    · have hle : d.g_timers.countP (liveFor
          (d.items ++ [some { period := period, low_level := low_level, stamp := 0 }]) id) ≤
          d.g_timers.countP (liveFor d.items id) := by
        apply countP_le_of_imp
        intro x hx hpx
        rw [liveFor_congr d.items _ id x (lockItem_append_old _ _ _ (h2 x hx))] at hpx
        exact hpx
      rw [liveFor_other _ _ _ (fun he => hid he.symm)]
      have := h5 id
      simp only [Bool.false_eq_true, if_false]
      omega

theorem set_absolute_time_perm (env : TimerEnv) (hlaw : env.Lawful) (d : TimerDaemon)
    (item first period : Nat) (it : TimerItem) (hit : lockItem d.items item = some it)
    (hheap : IsHeap d.g_timers) :
    (set_absolute_time env d item first period).g_timers.Perm
      ({ next := first, item := item, stamp := stampSucc it.stamp } :: d.g_timers) := by
  rw [set_absolute_time_some env d item first period it hit]
  exact (hlaw.1 _ (by simp) (by rw [List.dropLast_concat]; exact hheap)).2.trans
    (List.perm_append_singleton _ _)

theorem set_absolute_time_WF (env : TimerEnv) (hlaw : env.Lawful) (d : TimerDaemon) (n : Nat)
    (item first period : Nat) (h : d.WF n) (hn : n + 1 < 2 ^ 64) :
    (set_absolute_time env d item first period).WF (n + 1) := by
  cases hit : lockItem d.items item with
  | none =>
    rw [set_absolute_time_none env d item first period hit]
    exact WF_mono d n (n + 1) h (Nat.le_succ n)
  | some it =>
    obtain ⟨h1, h2, h3, h4, h5⟩ := h
    have hp := set_absolute_time_perm env hlaw d item first period it hit h1
    have hh := set_absolute_time_heap env hlaw d item first period h1
    have hlt := lockItem_lt _ _ _ hit
    have hst : stampSucc it.stamp = it.stamp + 1 :=
      stampSucc_eq _ (Nat.lt_of_le_of_lt (Nat.succ_le_succ (h3 item it hit)) hn)
    have hitems : (set_absolute_time env d item first period).items =
        d.items.set item (some
          { period := if period ≠ env.PERIOD_NOT_MODIFIED then period else it.period,
            low_level := it.low_level, stamp := stampSucc it.stamp }) := by
      rw [set_absolute_time_some env d item first period it hit]
    refine ⟨hh, ?_, ?_, ?_, ?_⟩
    · intro x hx
      rw [hitems, List.length_set]
      rcases List.mem_cons.mp (hp.mem_iff.mp hx) with rfl | hx
      · exact hlt
      · exact h2 x hx
    · intro id it2 hl
      rw [hitems] at hl
      by_cases hid : id = item
      · subst hid
        rw [lockItem_set_same _ _ _ hlt] at hl
        cases hl
        have := h3 id it hit
        show stampSucc it.stamp ≤ n + 1
        omega
      · rw [lockItem_set_other _ _ _ _ (fun e => hid e.symm)] at hl
        exact Nat.le_succ_of_le (h3 id it2 hl)
    · intro x hx it2 hl
      rw [hitems] at hl
      by_cases hid : x.item = item
      · rw [hid, lockItem_set_same _ _ _ hlt] at hl
        cases hl
        show x.stamp ≤ stampSucc it.stamp
        rcases List.mem_cons.mp (hp.mem_iff.mp hx) with rfl | hx
        · exact Nat.le_refl _
        · have := h4 x hx it (by rw [hid]; exact hit)
          omega
      · rw [lockItem_set_other _ _ _ _ (fun e => hid e.symm)] at hl
        rcases List.mem_cons.mp (hp.mem_iff.mp hx) with rfl | hx
        · exact absurd rfl hid
        · exact h4 x hx it2 hl
    · intro id
      rw [hp.countP_eq, List.countP_cons, hitems]
      by_cases hid : id = item
      · subst hid
        have hz : d.g_timers.countP (liveFor (d.items.set id (some
            { period := if period ≠ env.PERIOD_NOT_MODIFIED then period else it.period,
              low_level := it.low_level, stamp := stampSucc it.stamp })) id) = 0 := by
          apply countP_eq_zero_of
          intro x hx
          by_cases hxi : x.item = id
          · have hle := h4 x hx it (by rw [hxi]; exact hit)
            have hne : ¬ (stampSucc it.stamp = x.stamp) := by omega
            simp [liveFor, isLive, hxi, lockItem_set_same _ _ _ hlt, hne]
          · exact liveFor_other _ _ _ hxi
        rw [hz]
        generalize liveFor _ _ _ = b
        cases b <;> simp
      · have hle : d.g_timers.countP (liveFor (d.items.set item (some
            { period := if period ≠ env.PERIOD_NOT_MODIFIED then period else it.period,
              low_level := it.low_level, stamp := stampSucc it.stamp })) id) ≤
            d.g_timers.countP (liveFor d.items id) := by
          apply countP_le_of_imp
          intro x hx hpx
          by_cases hxi : x.item = id
          · rw [liveFor_congr d.items _ id x
              (lockItem_set_other _ _ _ _ (by rw [hxi]; exact fun e => hid e.symm))] at hpx
            exact hpx
          · rw [liveFor_other _ _ _ hxi] at hpx
            cases hpx
        rw [liveFor_other _ _ _ (fun he => hid he.symm)]
        have := h5 id
        simp only [Bool.false_eq_true, if_false]
        omega

theorem liveFor_next (items : List (Option TimerItem)) (id : Nat) (e : TimerQueueElement)
    (next : Nat) : liveFor items id { e with next := next } = liveFor items id e := rfl

theorem pump_WF (env : TimerEnv) (hlaw : env.Lawful) (d : TimerDaemon) (n now : Nat)
    (h : d.WF n) : (pump_one_element env d now).1.WF n := by
  obtain ⟨h1, h2, h3, h4, h5⟩ := h
  obtain ⟨hitems, disc, _, hh, hnone, hsome⟩ := pump_spec env hlaw d now h1
  -- every element left comes from an element that was there, with its item and stamp
  have hfrom : ∀ x ∈ (pump_one_element env d now).1.g_timers,
      ∃ y ∈ d.g_timers, y.item = x.item ∧ y.stamp = x.stamp := by
    intro x hx
    cases hf : (pump_one_element env d now).2 with
    | none =>
      exact ⟨x, (hnone hf).1.mem_iff.mpr (List.mem_append_right _ hx), rfl, rfl⟩
    | some f =>
      obtain ⟨_, it, rest, _, _, _, _, _, hp, _, _, hnew⟩ := hsome f hf
      have hx2 := hnew.mem_iff.mp hx
      have hrest : ∀ z ∈ rest, z ∈ d.g_timers := fun z hz =>
        hp.mem_iff.mpr (List.mem_append_right _ (List.mem_cons_of_mem _ hz))
      split at hx2
      · exact ⟨x, hrest x hx2, rfl, rfl⟩
      · rcases List.mem_cons.mp hx2 with rfl | hx3
        · exact ⟨f.elem, hp.mem_iff.mpr (List.mem_append_right _ (List.mem_cons_self _ _)),
            rfl, rfl⟩
        · exact ⟨x, hrest x hx3, rfl, rfl⟩
  refine ⟨hh, ?_, ?_, ?_, ?_⟩
  · intro x hx
    obtain ⟨y, hy, hi, _⟩ := hfrom x hx
    rw [hitems, ← hi]
    exact h2 y hy
  · intro id it hl
    rw [hitems] at hl
    exact h3 id it hl
  · intro x hx it hl
    obtain ⟨y, hy, hi, hs⟩ := hfrom x hx
    rw [hitems, ← hi] at hl
    rw [← hs]
    exact h4 y hy it hl
  · intro id
    rw [hitems]
    refine Nat.le_trans ?_ (h5 id)
    cases hf : (pump_one_element env d now).2 with
    | none =>
      rw [(hnone hf).1.countP_eq, List.countP_append]
      exact Nat.le_add_left _ _
    | some f =>
      obtain ⟨_, it, rest, _, _, _, _, _, hp, _, _, hnew⟩ := hsome f hf
      rw [hp.countP_eq, List.countP_append, hnew.countP_eq, List.countP_cons]
      split
      · omega
      · rw [List.countP_cons, liveFor_next]
        omega

theorem lockItem_set_none (items : List (Option TimerItem)) (id j : Nat) (it : TimerItem)
    (h : lockItem (items.set j none) id = some it) : lockItem items id = some it := by
  by_cases hj : j = id
  · subst hj
    simp [lockItem, List.getElem?_set] at h
    split at h <;> simp at h
  · rw [lockItem_set_other _ _ _ _ hj] at h
    exact h

theorem release_WF (d : TimerDaemon) (n item : Nat) (h : d.WF n) :
    TimerDaemon.WF { d with items := d.items.set item none } n := by
  obtain ⟨h1, h2, h3, h4, h5⟩ := h
  refine ⟨h1, ?_, ?_, ?_, ?_⟩
  · intro x hx
    show x.item < (d.items.set item none).length
    rw [List.length_set]
    exact h2 x hx
  · intro id it hl
    exact h3 id it (lockItem_set_none _ _ _ _ hl)
  · intro x hx it hl
    exact h4 x hx it (lockItem_set_none _ _ _ _ hl)
  · intro id
    refine Nat.le_trans ?_ (h5 id)
    apply countP_le_of_imp
    intro x _ hpx
    simp only [liveFor, Bool.and_eq_true, decide_eq_true_eq, isLive_iff] at hpx ⊢
    obtain ⟨hi, it, hl, hs⟩ := hpx
    exact ⟨hi, it, lockItem_set_none _ _ _ _ hl, hs⟩

/-- Every operation keeps the invariant, as long as the stamps stay below `2 ^ 64`. -/
theorem step_WF (env : TimerEnv) (hlaw : env.Lawful) (d : TimerDaemon) (n : Nat) (op : TimerOp)
    (h : d.WF n) (hn : n + 1 < 2 ^ 64) : (d.step env op).1.WF (n + 1) := by
  cases op with
  | register first period low_level =>
    exact WF_mono _ n _ (registerItem_WF env hlaw d n first period low_level h) (Nat.le_succ n)
  | setTime item first period => exact set_absolute_time_WF env hlaw d n item first period h hn
  | pump now => exact WF_mono _ n _ (pump_WF env hlaw d n now h) (Nat.le_succ n)
  | release item => exact WF_mono _ n _ (release_WF d n item h) (Nat.le_succ n)

theorem run_WF (env : TimerEnv) (hlaw : env.Lawful) (ops : List TimerOp) :
    ∀ (d : TimerDaemon) (n : Nat), d.WF n → n + ops.length < 2 ^ 64 →
      (TimerDaemon.run env d ops).1.WF (n + ops.length) := by
  induction ops with
  | nil =>
    intro d n h _
    exact h
  | cons op ops ih =>
    intro d n h hn
    simp only [List.length_cons] at hn ⊢
    have := ih (d.step env op).1 (n + 1) (step_WF env hlaw d n op h (by omega)) (by omega)
    rw [show n + (ops.length + 1) = n + 1 + ops.length by omega]
    exact this

/-- The states reached from the empty daemon satisfy the invariant. -/
theorem reachable_WF (env : TimerEnv) (hlaw : env.Lawful) (ops : List TimerOp)
    (h : ops.length < 2 ^ 64) : (TimerDaemon.run env TimerDaemon.empty ops).1.WF ops.length := by
  have := run_WF env hlaw ops TimerDaemon.empty 0 empty_WF (by omega)
  rw [Nat.zero_add] at this
  exact this

/-! # The timer daemon: stamps along a run -/

theorem run_cons (env : TimerEnv) (d : TimerDaemon) (op : TimerOp) (ops : List TimerOp) :
    TimerDaemon.run env d (op :: ops) =
      ((TimerDaemon.run env (d.step env op).1 ops).1,
       (d.step env op).2.toList ++ (TimerDaemon.run env (d.step env op).1 ops).2) := rfl

theorem step_items_length (env : TimerEnv) (d : TimerDaemon) (op : TimerOp) :
    d.items.length ≤ (d.step env op).1.items.length := by
  cases op with
  | register first period low_level =>
    show d.items.length ≤ (d.items ++ [_]).length
    simp
  | setTime item first period =>
    show d.items.length ≤ (set_absolute_time env d item first period).items.length
    unfold set_absolute_time
    split
    · exact Nat.le_refl _
    · simp
  | pump now =>
    show d.items.length ≤ (pump_one_element env d now).1.items.length
    unfold pump_one_element
    split <;> exact Nat.le_refl _
  | release item =>
    show d.items.length ≤ (d.items.set item none).length
    simp

/-- The stamp of an item does not go down in an operation (as long as it stays below
`2 ^ 64`). -/
theorem step_stamp_ge (env : TimerEnv) (d : TimerDaemon) (n : Nat) (op : TimerOp)
    (hwf : d.WF n) (hn : n + 1 < 2 ^ 64) (h s : Nat) (hh : h < d.items.length)
    (hs : ∀ it, lockItem d.items h = some it → s ≤ it.stamp) :
    ∀ it, lockItem (d.step env op).1.items h = some it → s ≤ it.stamp := by
  intro it2 hl
  cases op with
  | register first period low_level =>
    have hl2 : lockItem (d.items ++ [some { period := period, low_level := low_level, stamp := 0 }])
        h = some it2 := hl
    rw [lockItem_append_old _ _ _ hh] at hl2
    exact hs it2 hl2
  | setTime item first period =>
    have hl2 : lockItem (set_absolute_time env d item first period).items h = some it2 := hl
    cases hit : lockItem d.items item with
    | none =>
      rw [set_absolute_time_none env d item first period hit] at hl2
      exact hs it2 hl2
    | some it =>
      rw [set_absolute_time_some env d item first period it hit] at hl2
      by_cases hid : h = item
      · subst hid
        rw [lockItem_set_same _ _ _ hh] at hl2
        cases hl2
        have h1 := hs it hit
        have h2 := hwf.2.2.1 h it hit
        have h3 := stampSucc_eq it.stamp (by omega)
        show s ≤ stampSucc it.stamp
        omega
      · rw [lockItem_set_other _ _ _ _ (fun e => hid e.symm)] at hl2
        exact hs it2 hl2
  | pump now =>
    have hl2 : lockItem (pump_one_element env d now).1.items h = some it2 := hl
    have : (pump_one_element env d now).1.items = d.items := by
      unfold pump_one_element
      split <;> rfl
    rw [this] at hl2
    exact hs it2 hl2
  | release item =>
    exact hs it2 (lockItem_set_none _ _ _ _ hl)

/-- What a pump fires is an element of the vector that carries the current stamp of its
item. -/
theorem step_fired (env : TimerEnv) (hlaw : env.Lawful) (d : TimerDaemon) (n : Nat)
    (op : TimerOp) (hwf : d.WF n) (f : Fired) (hf : (d.step env op).2 = some f) :
    f.elem ∈ d.g_timers ∧ ∃ it, lockItem d.items f.elem.item = some it ∧
      it.stamp = f.elem.stamp ∧ f.period = it.period := by
  cases op with
  | pump now =>
    obtain ⟨_, disc, _, _, _, hsome⟩ := pump_spec env hlaw d now hwf.1
    obtain ⟨_, it, rest, hl, hs, hper, _, _, hp, _⟩ := hsome f hf
    exact ⟨hp.mem_iff.mpr (List.mem_append_right _ (List.mem_cons_self _ _)), it, hl, hs, hper⟩
  | register first period low_level => cases hf
  | setTime item first period => cases hf
  | release item => cases hf

/-- Once the stamp of the item `h` has reached `s`, every later dispatch of `h` is the
dispatch of an element with a stamp of at least `s`. -/
theorem run_fired_stamp_ge (env : TimerEnv) (hlaw : env.Lawful) (h s : Nat)
    (ops : List TimerOp) :
    ∀ (d : TimerDaemon) (n : Nat), d.WF n → n + ops.length < 2 ^ 64 → h < d.items.length →
      (∀ it, lockItem d.items h = some it → s ≤ it.stamp) →
      ∀ f ∈ (TimerDaemon.run env d ops).2, f.elem.item = h → s ≤ f.elem.stamp := by
  induction ops with
  | nil =>
    intro d n _ _ _ _ f hf
    simp [TimerDaemon.run] at hf
  | cons op ops ih =>
    intro d n hwf hn hh hs f hf hfi
    simp only [List.length_cons] at hn
    rw [run_cons] at hf
    rcases List.mem_append.mp hf with hf1 | hf2
    · have hf3 : (d.step env op).2 = some f := by
        cases hr : (d.step env op).2 with
        | none =>
          rw [hr] at hf1
          simp at hf1
        | some g =>
          rw [hr] at hf1
          simp only [Option.toList, List.mem_singleton] at hf1
          rw [hf1]
      obtain ⟨_, it, hl, hst, _⟩ := step_fired env hlaw d n op hwf f hf3
      rw [hfi] at hl
      rw [← hst]
      exact hs it hl
    · exact ih (d.step env op).1 (n + 1) (step_WF env hlaw d n op hwf (by omega)) (by omega)
        (Nat.lt_of_lt_of_le hh (step_items_length env d op))
        (step_stamp_ge env d n op hwf (by omega) h s hh hs) f hf2 hfi

/-! ## C11: `set_time` and `set_absolute_time` -/

/-- C11. Let `d` be a state reached from the empty daemon and `h` an item that exists in
it (the stamps staying below `2 ^ 64`). After `set_absolute_time(h, first, period)` the
stamp of `h` is one greater than before, its period is the one supplied (the old one when
`PERIOD_NOT_MODIFIED` is passed), no other item is changed, and the vector holds the
elements it held plus one new element for `h` with `next = first` and the new stamp;
`set_time(h, delta, period)` is this call with `first = min(now + delta, 2^64 - 1)`; and no
element for `h` that was in the vector before the call is dispatched by any pump of any
later sequence of operations. -/
theorem C11_set_time (env : TimerEnv) (hlaw : env.Lawful) (pre post : List TimerOp)
    (d : TimerDaemon) (h first period : Nat) (it : TimerItem)
    (hd : d = (TimerDaemon.run env TimerDaemon.empty pre).1)
    (hlen : pre.length + 1 + post.length < 2 ^ 64)
    (hit : lockItem d.items h = some it) :
    lockItem (set_absolute_time env d h first period).items h =
      some { period := if period = env.PERIOD_NOT_MODIFIED then it.period else period,
             low_level := it.low_level, stamp := it.stamp + 1 } ∧
    (∀ j, j ≠ h → lockItem (set_absolute_time env d h first period).items j = lockItem d.items j) ∧
    (set_absolute_time env d h first period).g_timers.Perm
      ({ next := first, item := h, stamp := it.stamp + 1 } :: d.g_timers) ∧
    (∀ now delta, set_time env d now h delta period =
      set_absolute_time env d h (min (now + delta) U64_MAX) period) ∧
    (∀ f ∈ (TimerDaemon.run env (set_absolute_time env d h first period) post).2,
      ∀ x ∈ d.g_timers, x.item = h → f.elem ≠ x) := by
  have hwf : d.WF pre.length := by
    rw [hd]
    exact reachable_WF env hlaw pre (by omega)
  have hlt := lockItem_lt _ _ _ hit
  have hst : stampSucc it.stamp = it.stamp + 1 := by
    have := hwf.2.2.1 h it hit
    exact stampSucc_eq _ (by omega)
  have hnew : lockItem (set_absolute_time env d h first period).items h =
      some { period := if period = env.PERIOD_NOT_MODIFIED then it.period else period,
             low_level := it.low_level, stamp := it.stamp + 1 } := by
    rw [set_absolute_time_some env d h first period it hit, lockItem_set_same _ _ _ hlt, hst]
    by_cases hp : period = env.PERIOD_NOT_MODIFIED
    · simp [hp]
    · simp [hp]
  refine ⟨hnew, ?_, ?_, ?_, ?_⟩
  · intro j hj
    rw [set_absolute_time_some env d h first period it hit]
    exact lockItem_set_other _ _ _ _ (fun e => hj e.symm)
  · have := set_absolute_time_perm env hlaw d h first period it hit hwf.1
    rw [hst] at this
    exact this
  · intro now delta
    unfold set_time
    rw [saturated_add_eq_min]
  · intro f hf x hx hxi hfx
    have hwf2 := set_absolute_time_WF env hlaw d pre.length h first period hwf (by omega)
    have hlt2 := lockItem_lt _ _ _ hnew
    have hge := run_fired_stamp_ge env hlaw h (it.stamp + 1) post _ (pre.length + 1) hwf2
      (by omega) hlt2
      (by
        intro it2 hl
        rw [hnew] at hl
        cases hl
        exact Nat.le_refl _)
      f hf (by rw [hfx]; exact hxi)
    have hle := hwf.2.2.2.1 x hx it (by rw [hxi]; exact hit)
    rw [hfx] at hge
    omega

/-- C11 at a periodic timer registered for 100 with period 50 and moved to 3000 with
period 7: the element for 100 is not what the pumps at 1000 and 3000 dispatch. -/
theorem C11_set_time_witness :
    (TimerDaemon.run sortedEnv TimerDaemon.empty [TimerOp.register 100 50 false]).1.g_timers =
      [{ next := 100, item := 0, stamp := 0 }] ∧
    (TimerDaemon.run sortedEnv
        (set_absolute_time sortedEnv
          (TimerDaemon.run sortedEnv TimerDaemon.empty [TimerOp.register 100 50 false]).1
          0 3000 7)
        [TimerOp.pump 1000, TimerOp.pump 3000]).2 =
      [{ elem := { next := 3000, item := 0, stamp := 1 }, period := 7, low_level := false,
         now := 3000 }] ∧
    (∀ f ∈ (TimerDaemon.run sortedEnv
        (set_absolute_time sortedEnv
          (TimerDaemon.run sortedEnv TimerDaemon.empty [TimerOp.register 100 50 false]).1
          0 3000 7)
        [TimerOp.pump 1000, TimerOp.pump 3000]).2,
      ∀ x ∈ (TimerDaemon.run sortedEnv TimerDaemon.empty [TimerOp.register 100 50 false]).1.g_timers,
        x.item = 0 → f.elem ≠ x) :=
  ⟨by decide, by decide,
    (C11_set_time sortedEnv sortedEnv_lawful [TimerOp.register 100 50 false]
      [TimerOp.pump 1000, TimerOp.pump 3000]
      (TimerDaemon.run sortedEnv TimerDaemon.empty [TimerOp.register 100 50 false]).1
      0 3000 7 { period := 50, low_level := false, stamp := 0 } rfl (by decide)
      (by decide)).2.2.2.2⟩

/-! ## C13: the heap and the order of the dispatches -/

/-- C13. After every sequence of registrations, `set_absolute_time` calls, pumps and
releases the vector is a heap, and every operation keeps a heap a heap; the front of a
heap has the smallest `next` of all its elements; in a run of pumps (with releases of
items, and no registration or `set_time`) the `next` values of the dispatched elements are
in non-decreasing order; and the element a pump dispatches is in the vector, is live and
not stale, and has the smallest `next` among the live, non-stale elements of the vector. -/
theorem C13_heap_order (env : TimerEnv) (hlaw : env.Lawful) (d : TimerDaemon)
    (hheap : IsHeap d.g_timers) (hrange : ∀ x ∈ d.g_timers, x.next ≤ U64_MAX) :
    (∀ ops, IsHeap (TimerDaemon.run env TimerDaemon.empty ops).1.g_timers) ∧
    (∀ op, IsHeap (d.step env op).1.g_timers) ∧
    (∀ front, d.g_timers.head? = some front → ∀ x ∈ d.g_timers, front.next ≤ x.next) ∧
    (∀ ops, (∀ op ∈ ops, op.keepsSchedule = true) →
      (TimerDaemon.run env d ops).2.Pairwise (fun f g => f.elem.next ≤ g.elem.next)) ∧
    (∀ now f, (pump_one_element env d now).2 = some f →
      f.elem ∈ d.g_timers ∧ isLive d.items f.elem = true ∧
      ∀ x ∈ d.g_timers, isLive d.items x = true → f.elem.next ≤ x.next) := by
  refine ⟨fun ops => run_heap env hlaw ops _ isHeap_nil, fun op => step_heap env hlaw d op hheap,
    heap_front_min d.g_timers hheap, ?_, ?_⟩
  · intro ops hops
    have hops2 : ∀ op ∈ ops, (∃ now, op = TimerOp.pump now) ∨
        (∃ item, op = TimerOp.release item) := by
      intro op hop
      have := hops op hop
      cases op with
      | pump now => exact Or.inl ⟨now, rfl⟩
      | release item => exact Or.inr ⟨item, rfl⟩
      | register first period low_level => cases this
      | setTime item first period => cases this
    exact (run_pumps_sorted env hlaw ops hops2 d 0 hheap
      (fun x hx => ⟨Nat.zero_le _, hrange x hx⟩)).2
  · intro now f hf
    obtain ⟨_, disc, hdisc, _, _, hsome⟩ := pump_spec env hlaw d now hheap
    obtain ⟨_, it, rest, hl, hs, _, _, _, hp, hmin, _, _⟩ := hsome f hf
    refine ⟨hp.mem_iff.mpr (List.mem_append_right _ (List.mem_cons_self _ _)),
      (isLive_iff _ _).mpr ⟨it, hl, hs⟩, ?_⟩
    intro x hx hlive
    rcases List.mem_append.mp (hp.mem_iff.mp hx) with hx1 | hx2
    · rw [(hdisc x hx1).1] at hlive
      cases hlive
    · rcases List.mem_cons.mp hx2 with rfl | hx3
      · exact Nat.le_refl _
      · exact hmin x hx3

/-- C13 at three timers due at 300, 100 and 200, the last one rescheduled: three pumps at
1000 dispatch in the order of `next`. -/
theorem C13_heap_order_witness :
    (TimerDaemon.run sortedEnv
        (TimerDaemon.run sortedEnv TimerDaemon.empty
          [TimerOp.register 300 0 false, TimerOp.register 100 250 true,
           TimerOp.register 200 0 false, TimerOp.setTime 2 150 U64_MAX]).1
        [TimerOp.pump 1000, TimerOp.pump 1000, TimerOp.release 0, TimerOp.pump 1000]).2.Pairwise
      (fun f g => f.elem.next ≤ g.elem.next) :=
  (C13_heap_order sortedEnv sortedEnv_lawful
    (TimerDaemon.run sortedEnv TimerDaemon.empty
      [TimerOp.register 300 0 false, TimerOp.register 100 250 true,
       TimerOp.register 200 0 false, TimerOp.setTime 2 150 U64_MAX]).1
    (run_heap sortedEnv sortedEnv_lawful _ _ isHeap_nil) (by decide)).2.2.2.1
    [TimerOp.pump 1000, TimerOp.pump 1000, TimerOp.release 0, TimerOp.pump 1000] (by decide)

/-! ## C14: `register_timer` and `register_low_level_timer` -/

/-- C14. `register_timer(delta, period)` called at the clock reading `now` on a heap
returns a new item (its slot did not exist), with the given period, stamp 0 and
`low_level = false`; the vector holds the elements it held, unchanged, plus exactly one
element for the new item, with `next = min(now + delta, 2^64 - 1)` and stamp 0;
`register_low_level_timer` does the same with `low_level = true`; and the sum
`saturated_add(now, delta)` never wraps: it is at most `2^64 - 1` and not below `now`. -/
theorem C14_register_timer (env : TimerEnv) (hlaw : env.Lawful) (d : TimerDaemon)
    (now delta period : Nat) (hheap : IsHeap d.g_timers) :
    ((register_timer env d now delta period).2 = d.items.length ∧
      lockItem d.items d.items.length = none ∧
      (register_timer env d now delta period).1.items =
        d.items ++ [some { period := period, low_level := false, stamp := 0 }] ∧
      (register_timer env d now delta period).1.g_timers.Perm
        ({ next := min (now + delta) (2 ^ 64 - 1), item := d.items.length, stamp := 0 } ::
          d.g_timers)) ∧
    ((register_low_level_timer env d now delta period).2 = d.items.length ∧
      (register_low_level_timer env d now delta period).1.items =
        d.items ++ [some { period := period, low_level := true, stamp := 0 }] ∧
      (register_low_level_timer env d now delta period).1.g_timers.Perm
        ({ next := min (now + delta) (2 ^ 64 - 1), item := d.items.length, stamp := 0 } ::
          d.g_timers)) ∧
    saturated_add now delta = min (now + delta) (2 ^ 64 - 1) ∧
    saturated_add now delta ≤ 2 ^ 64 - 1 ∧
    (now ≤ 2 ^ 64 - 1 → now ≤ saturated_add now delta) := by
  have hmin : saturated_add now delta = min (now + delta) (2 ^ 64 - 1) :=
    saturated_add_eq_min now delta
  have h1 : (register_timer env d now delta period).1.g_timers.Perm
      ({ next := saturated_add now delta, item := d.items.length, stamp := 0 } :: d.g_timers) :=
    (registerItem_heap env hlaw d (saturated_add now delta) period false hheap).2
  have h2 : (register_low_level_timer env d now delta period).1.g_timers.Perm
      ({ next := saturated_add now delta, item := d.items.length, stamp := 0 } :: d.g_timers) :=
    (registerItem_heap env hlaw d (saturated_add now delta) period true hheap).2
  rw [hmin] at h1 h2
  have hnone : lockItem d.items d.items.length = none := by
    simp [lockItem]
  exact ⟨⟨rfl, hnone, rfl, h1⟩, ⟨rfl, rfl, h2⟩, hmin, saturated_add_le now delta,
    saturated_add_ge now delta⟩

/-- C14 at a registration near the end of the clock range: the sum is clamped. -/
theorem C14_register_timer_witness :
    (register_timer sortedEnv TimerDaemon.empty (2 ^ 64 - 5) 100 50).1.g_timers.Perm
      ({ next := min (2 ^ 64 - 5 + 100) (2 ^ 64 - 1), item := TimerDaemon.empty.items.length,
         stamp := 0 } :: TimerDaemon.empty.g_timers) :=
  (C14_register_timer sortedEnv sortedEnv_lawful TimerDaemon.empty (2 ^ 64 - 5) 100 50
    isHeap_nil).1.2.2.2

/-! ## C15: the calendar registrations -/

theorem calendarDelay_some (P w o : Nat) (hw : o ≤ w) :
    calendarDelay P w o = some (P - (w - o) % P) := by
  simp [calendarDelay, checked_sub, Nat.not_lt.mpr hw]

theorem calendar_congr (P w o : Nat) (hP : 0 < P) (hw : o ≤ w) :
    (w + (P - (w - o) % P)) % P = o % P := by
  have hm : (w - o) % P < P := Nat.mod_lt _ hP
  have hd : P * ((w - o) / P) + (w - o) % P = w - o := Nat.div_add_mod _ _
  have he : w + (P - (w - o) % P) = o + P * ((w - o) / P) + P := by omega
  rw [he, Nat.add_mod_right, Nat.add_mul_mod_self_left]

theorem calendar_earliest (P w o t : Nat) (hP : 0 < P) (hw : o ≤ w) (ht : w < t)
    (hmod : t % P = o % P) : w + (P - (w - o) % P) ≤ t := by
  by_contra hlt
  have hm : (w - o) % P < P := Nat.mod_lt _ hP
  have h1 : (w + (P - (w - o) % P) - t) % P = 0 :=
    Nat.sub_mod_eq_zero_of_mod_eq (by rw [calendar_congr P w o hP hw, hmod])
  have h2 : w + (P - (w - o) % P) - t < P := by omega
  rw [Nat.mod_eq_of_lt h2] at h1
  omega

theorem hourlyOffset_eq (minute second : Nat) (hm : minute < 2 ^ 32) (hs : second < 2 ^ 32) :
    hourlyOffset minute second = (minute * 60 + second) * 1000 := by
  unfold hourlyOffset
  exact Nat.mod_eq_of_lt (by omega)

theorem dailyOffset_eq (hour minute second : Nat) (hh : hour < 2 ^ 32) (hm : minute < 2 ^ 32)
    (hs : second < 2 ^ 32) :
    dailyOffset hour minute second = (hour * 3600 + minute * 60 + second) * 1000 := by
  unfold dailyOffset
  exact Nat.mod_eq_of_lt (by omega)

theorem weeklyOffset_eq (day_of_week hour minute second : Nat) (hd : day_of_week + 3 < 2 ^ 32)
    (hh : hour < 2 ^ 32) (hm : minute < 2 ^ 32) (hs : second < 2 ^ 32) :
    weeklyOffset day_of_week hour minute second =
      ((day_of_week + 3) * 86400 + hour * 3600 + minute * 60 + second) * 1000 := by
  unfold weeklyOffset
  rw [Nat.mod_eq_of_lt hd, Nat.mod_eq_of_lt (by omega)]

/-- C15. For the hourly, daily and weekly registration with period `P`, offset `o`
computed from the arguments and wall clock `w >= o`: the call is `register_timer` with
period `P` and a delay `d = P - (w - o) % P` that satisfies `1 <= d <= P` and
`(w + d) % P = o % P`, and `w + d` is the earliest instant after `w` with that residue.
The offsets are `(minute * 60 + second) * 1000` for the hourly timer,
`(hour * 3600 + minute * 60 + second) * 1000` for the daily timer and
`((day_of_week + 3) * 86400 + hour * 3600 + minute * 60 + second) * 1000` for the weekly
timer. For the hourly timer with `minute < 60` and `second < 60` the instant `w + d` is the
first one after `w` that lies `minute:second` into its hour; for the daily timer with
`hour < 24` as well it is the first one after `w` whose time of day is
`hour:minute:second`. For the weekly timer with `day_of_week <= 6`, `hour < 24`,
`minute < 60`, `second < 60`, the instant `w + d` falls on the weekday `day_of_week` (0 is
Sunday, day 0 of the epoch a Thursday) at `hour:minute:second`, and it is the first such
instant after `w`. -/
theorem C15_calendar (env : TimerEnv) (d : TimerDaemon) (w now day_of_week hour minute second : Nat) :
    (∀ P o, 0 < P → o ≤ w →
      calendarDelay P w o = some (P - (w - o) % P) ∧
      1 ≤ P - (w - o) % P ∧ P - (w - o) % P ≤ P ∧
      (w + (P - (w - o) % P)) % P = o % P ∧
      ∀ t, w < t → t % P = o % P → w + (P - (w - o) % P) ≤ t) ∧
    (hourlyOffset minute second ≤ w →
      register_hourly_timer env d w now minute second =
        some (register_timer env d now
          (MS_PER_HOUR - (w - hourlyOffset minute second) % MS_PER_HOUR) MS_PER_HOUR)) ∧
    (dailyOffset hour minute second ≤ w →
      register_daily_timer env d w now hour minute second =
        some (register_timer env d now
          (MS_PER_DAY - (w - dailyOffset hour minute second) % MS_PER_DAY) MS_PER_DAY)) ∧
    (weeklyOffset day_of_week hour minute second ≤ w →
      register_weekly_timer env d w now day_of_week hour minute second =
        some (register_timer env d now
          (MS_PER_WEEK - (w - weeklyOffset day_of_week hour minute second) % MS_PER_WEEK)
          MS_PER_WEEK)) ∧
    (weeklyOffset day_of_week hour minute second ≤ w →
      day_of_week ≤ 6 → hour < 24 → minute < 60 → second < 60 →
      weekdayOf (w + (MS_PER_WEEK -
        (w - weeklyOffset day_of_week hour minute second) % MS_PER_WEEK)) = day_of_week ∧
      timeOfDay (w + (MS_PER_WEEK -
        (w - weeklyOffset day_of_week hour minute second) % MS_PER_WEEK)) =
        (hour * 3600 + minute * 60 + second) * 1000) ∧
    (minute < 2 ^ 32 → second < 2 ^ 32 →
      hourlyOffset minute second = (minute * 60 + second) * 1000) ∧
    (hour < 2 ^ 32 → minute < 2 ^ 32 → second < 2 ^ 32 →
      dailyOffset hour minute second = (hour * 3600 + minute * 60 + second) * 1000) ∧
    (day_of_week + 3 < 2 ^ 32 → hour < 2 ^ 32 → minute < 2 ^ 32 → second < 2 ^ 32 →
      weeklyOffset day_of_week hour minute second =
        ((day_of_week + 3) * 86400 + hour * 3600 + minute * 60 + second) * 1000) ∧
    (hourlyOffset minute second ≤ w → minute < 60 → second < 60 →
      (w + (MS_PER_HOUR - (w - hourlyOffset minute second) % MS_PER_HOUR)) % MS_PER_HOUR =
        (minute * 60 + second) * 1000 ∧
      w < w + (MS_PER_HOUR - (w - hourlyOffset minute second) % MS_PER_HOUR) ∧
      ∀ t, w < t → t % MS_PER_HOUR = (minute * 60 + second) * 1000 →
        w + (MS_PER_HOUR - (w - hourlyOffset minute second) % MS_PER_HOUR) ≤ t) ∧
    (dailyOffset hour minute second ≤ w → hour < 24 → minute < 60 → second < 60 →
      timeOfDay (w + (MS_PER_DAY - (w - dailyOffset hour minute second) % MS_PER_DAY)) =
        (hour * 3600 + minute * 60 + second) * 1000 ∧
      w < w + (MS_PER_DAY - (w - dailyOffset hour minute second) % MS_PER_DAY) ∧
      ∀ t, w < t → timeOfDay t = (hour * 3600 + minute * 60 + second) * 1000 →
        w + (MS_PER_DAY - (w - dailyOffset hour minute second) % MS_PER_DAY) ≤ t) ∧
    (weeklyOffset day_of_week hour minute second ≤ w →
      day_of_week ≤ 6 → hour < 24 → minute < 60 → second < 60 →
      w < w + (MS_PER_WEEK -
        (w - weeklyOffset day_of_week hour minute second) % MS_PER_WEEK) ∧
      ∀ t, w < t → weekdayOf t = day_of_week →
        timeOfDay t = (hour * 3600 + minute * 60 + second) * 1000 →
        w + (MS_PER_WEEK -
          (w - weeklyOffset day_of_week hour minute second) % MS_PER_WEEK) ≤ t) := by
  refine ⟨?_, ?_, ?_, ?_, ?_, hourlyOffset_eq minute second, dailyOffset_eq hour minute second,
    weeklyOffset_eq day_of_week hour minute second, ?_, ?_, ?_⟩
  · intro P o hP hw
    have hm : (w - o) % P < P := Nat.mod_lt _ hP
    exact ⟨calendarDelay_some P w o hw, by omega, Nat.sub_le _ _, calendar_congr P w o hP hw,
      fun t ht hmod => calendar_earliest P w o t hP hw ht hmod⟩
  · intro hw
    simp [register_hourly_timer, calendarDelay_some _ _ _ hw]
  · intro hw
    simp [register_daily_timer, calendarDelay_some _ _ _ hw]
  · intro hw
    simp [register_weekly_timer, calendarDelay_some _ _ _ hw]
  · intro hw hd hh hmi hs
    have hc := calendar_congr MS_PER_WEEK w (weeklyOffset day_of_week hour minute second)
      (by decide) hw
    have ho := weeklyOffset_eq day_of_week hour minute second (by omega) (by omega) (by omega)
      (by omega)
    rw [ho] at hc ⊢
    generalize w + (MS_PER_WEEK -
      (w - ((day_of_week + 3) * 86400 + hour * 3600 + minute * 60 + second) * 1000) %
        MS_PER_WEEK) = t at hc
    simp only [weekdayOf, timeOfDay, MS_PER_WEEK, MS_PER_DAY, MS_PER_HOUR] at hc ⊢
    omega
  · intro hw hmi hs
    have ho := hourlyOffset_eq minute second (by omega) (by omega)
    have hc := calendar_congr MS_PER_HOUR w (hourlyOffset minute second) (by decide) hw
    have hsmall : (minute * 60 + second) * 1000 < MS_PER_HOUR := by
      simp only [MS_PER_HOUR]
      omega
    have hm : (w - hourlyOffset minute second) % MS_PER_HOUR < MS_PER_HOUR :=
      Nat.mod_lt _ (by decide)
    refine ⟨?_, by omega, ?_⟩
    · rw [hc, ho, Nat.mod_eq_of_lt hsmall]
    · intro t ht hmod
      exact calendar_earliest MS_PER_HOUR w (hourlyOffset minute second) t (by decide) hw ht
        (by rw [hmod, ho, Nat.mod_eq_of_lt hsmall])
  · intro hw hh hmi hs
    have ho := dailyOffset_eq hour minute second (by omega) (by omega) (by omega)
    have hc := calendar_congr MS_PER_DAY w (dailyOffset hour minute second) (by decide) hw
    have hsmall : (hour * 3600 + minute * 60 + second) * 1000 < MS_PER_DAY := by
      simp only [MS_PER_DAY, MS_PER_HOUR]
      omega
    have hm : (w - dailyOffset hour minute second) % MS_PER_DAY < MS_PER_DAY :=
      Nat.mod_lt _ (by decide)
    refine ⟨?_, by omega, ?_⟩
    · unfold timeOfDay
      rw [hc, ho, Nat.mod_eq_of_lt hsmall]
    · intro t ht hmod
      unfold timeOfDay at hmod
      exact calendar_earliest MS_PER_DAY w (dailyOffset hour minute second) t (by decide) hw ht
        (by rw [hmod, ho, Nat.mod_eq_of_lt hsmall])
  · intro hw hd hh hmi hs
    have ho := weeklyOffset_eq day_of_week hour minute second (by omega) (by omega) (by omega)
      (by omega)
    have hm : (w - weeklyOffset day_of_week hour minute second) % MS_PER_WEEK < MS_PER_WEEK :=
      Nat.mod_lt _ (by decide)
    refine ⟨by omega, ?_⟩
    intro t ht hwd htod
    apply calendar_earliest MS_PER_WEEK w (weeklyOffset day_of_week hour minute second) t
      (by decide) hw ht
    rw [ho]
    simp only [weekdayOf, timeOfDay, MS_PER_WEEK, MS_PER_DAY, MS_PER_HOUR] at hwd htod ⊢
    omega

/-- C15 at Tuesday 2023-11-14 22:13:20 UTC: a weekly timer for Thursday 12:30:00 first
fires 137800 seconds later, on a Thursday at 12:30:00; an hourly timer for minute 30
second 15 first fires at 22:30:15; a daily timer for 06:00:00 first fires at 06:00:00 of
the next day. -/
theorem C15_calendar_witness :
    (weekdayOf (1700000000000 + (MS_PER_WEEK -
        (1700000000000 - weeklyOffset 4 12 30 0) % MS_PER_WEEK)) = 4 ∧
      timeOfDay (1700000000000 + (MS_PER_WEEK -
        (1700000000000 - weeklyOffset 4 12 30 0) % MS_PER_WEEK)) =
        (12 * 3600 + 30 * 60 + 0) * 1000) ∧
    1700000000000 + (MS_PER_WEEK - (1700000000000 - weeklyOffset 4 12 30 0) % MS_PER_WEEK) =
      1700000000000 + 137800000 ∧
    1700000000000 + (MS_PER_HOUR - (1700000000000 - hourlyOffset 30 15) % MS_PER_HOUR) =
      1700000000000 + 1015000 ∧
    timeOfDay (1700000000000 + 1015000) = (22 * 3600 + 30 * 60 + 15) * 1000 ∧
    1700000000000 + (MS_PER_DAY - (1700000000000 - dailyOffset 6 0 0) % MS_PER_DAY) =
      1700000000000 + 28000000 ∧
    timeOfDay (1700000000000 + 28000000) = (6 * 3600 + 0 * 60 + 0) * 1000 ∧
    weekdayOf (1700000000000 + 28000000) = 3 :=
  ⟨(C15_calendar sortedEnv TimerDaemon.empty 1700000000000 0 4 12 30 0).2.2.2.2.1
      (by decide) (by decide) (by decide) (by decide) (by decide),
    by decide, by decide, by decide, by decide, by decide, by decide⟩

/-! ## C12: two successive dispatches of a periodic timer -/

/-- While the item `h` is not rescheduled and not dispatched, it keeps its record and the
elements that carry its stamp keep their `next`. -/
theorem step_tracks (env : TimerEnv) (hlaw : env.Lawful) (d : TimerDaemon) (op : TimerOp)
    (h next : Nat) (it : TimerItem) (hheap : IsHeap d.g_timers) (hh : h < d.items.length)
    (hitem : ∀ it2, lockItem d.items h = some it2 → it2 = it)
    (helem : ∀ x ∈ d.g_timers, x.item = h → x.stamp = it.stamp → x.next = next)
    (hop : op.reschedules h = false)
    (hfire : ∀ f, (d.step env op).2 = some f → f.elem.item ≠ h) :
    (∀ it2, lockItem (d.step env op).1.items h = some it2 → it2 = it) ∧
    (∀ x ∈ (d.step env op).1.g_timers, x.item = h → x.stamp = it.stamp → x.next = next) := by
  cases op with
  | register first period low_level =>
    obtain ⟨_, hp⟩ := registerItem_heap env hlaw d first period low_level hheap
    constructor
    · intro it2 hl
      have hl2 : lockItem (d.items ++ [some
          { period := period, low_level := low_level, stamp := 0 }]) h = some it2 := hl
      rw [lockItem_append_old _ _ _ hh] at hl2
      exact hitem it2 hl2
    · intro x hx hxi hxs
      rcases List.mem_cons.mp (hp.mem_iff.mp hx) with rfl | hx
      · simp only at hxi
        omega
      · exact helem x hx hxi hxs
  | setTime item first period =>
    have hne : item ≠ h := by
      intro e
      simp [TimerOp.reschedules, e] at hop
    show (∀ it2, lockItem (set_absolute_time env d item first period).items h = some it2 →
        it2 = it) ∧
      (∀ x ∈ (set_absolute_time env d item first period).g_timers,
        x.item = h → x.stamp = it.stamp → x.next = next)
    cases hit : lockItem d.items item with
    | none =>
      rw [set_absolute_time_none env d item first period hit]
      exact ⟨hitem, helem⟩
    | some it3 =>
      have hp := set_absolute_time_perm env hlaw d item first period it3 hit hheap
      constructor
      · intro it2 hl
        rw [set_absolute_time_some env d item first period it3 hit,
          lockItem_set_other _ _ _ _ hne] at hl
        exact hitem it2 hl
      · intro x hx hxi hxs
        rcases List.mem_cons.mp (hp.mem_iff.mp hx) with rfl | hx
        · exact absurd hxi hne
        · exact helem x hx hxi hxs
  | pump now =>
    obtain ⟨hitems, disc, _, _, hnone, hsome⟩ := pump_spec env hlaw d now hheap
    show (∀ it2, lockItem (pump_one_element env d now).1.items h = some it2 → it2 = it) ∧
      (∀ x ∈ (pump_one_element env d now).1.g_timers,
        x.item = h → x.stamp = it.stamp → x.next = next)
    rw [hitems]
    refine ⟨hitem, ?_⟩
    intro x hx hxi hxs
    cases hf : (pump_one_element env d now).2 with
    | none =>
      exact helem x ((hnone hf).1.mem_iff.mpr (List.mem_append_right _ hx)) hxi hxs
    | some f =>
      obtain ⟨_, it4, rest, _, _, _, _, _, hp, _, _, hnew⟩ := hsome f hf
      have hfi := hfire f hf
      have hrest : ∀ z ∈ rest, z ∈ d.g_timers := fun z hz =>
        hp.mem_iff.mpr (List.mem_append_right _ (List.mem_cons_of_mem _ hz))
      have hx2 := hnew.mem_iff.mp hx
      split at hx2
      · exact helem x (hrest x hx2) hxi hxs
      · rcases List.mem_cons.mp hx2 with rfl | hx3
        · exact absurd hxi hfi
        · exact helem x (hrest x hx3) hxi hxs
  | release item =>
    exact ⟨fun it2 hl => hitem it2 (lockItem_set_none _ _ _ _ hl), helem⟩

theorem run_tracks (env : TimerEnv) (hlaw : env.Lawful) (h next : Nat) (it : TimerItem)
    (ops : List TimerOp) :
    ∀ d : TimerDaemon, IsHeap d.g_timers → h < d.items.length →
      (∀ it2, lockItem d.items h = some it2 → it2 = it) →
      (∀ x ∈ d.g_timers, x.item = h → x.stamp = it.stamp → x.next = next) →
      (∀ op ∈ ops, op.reschedules h = false) →
      (∀ f ∈ (TimerDaemon.run env d ops).2, f.elem.item ≠ h) →
      IsHeap (TimerDaemon.run env d ops).1.g_timers ∧
      (∀ it2, lockItem (TimerDaemon.run env d ops).1.items h = some it2 → it2 = it) ∧
      (∀ x ∈ (TimerDaemon.run env d ops).1.g_timers,
        x.item = h → x.stamp = it.stamp → x.next = next) := by
  induction ops with
  | nil =>
    intro d hheap _ hitem helem _ _
    exact ⟨hheap, hitem, helem⟩
  | cons op ops ih =>
    intro d hheap hh hitem helem hops hfire
    rw [run_cons] at hfire
    have hstep := step_tracks env hlaw d op h next it hheap hh hitem helem
      (hops op (List.mem_cons_self _ _))
      (fun f hf => hfire f (List.mem_append_left _ (by rw [hf]; simp)))
    exact ih (d.step env op).1 (step_heap env hlaw d op hheap)
      (Nat.lt_of_lt_of_le hh (step_items_length env d op)) hstep.1 hstep.2
      (fun o ho => hops o (List.mem_cons_of_mem _ ho))
      (fun f hf => hfire f (List.mem_append_right _ hf))

/-- C12 (amended). Let a pump at the clock reading `t1` dispatch a periodic item from a
state reached from the empty daemon, the element dispatched having the scheduled time
`n1`; let operations follow that neither reschedule nor dispatch the item, and let a pump
at `t2` then dispatch the item again. Then `n1 <= t1`, the element dispatched the second
time has the scheduled time `n2 = min(n1 + period, 2^64 - 1)` and the same stamp, the period
handed over is the same, and `n2 <= t2`: the second dispatch comes no earlier than one
period after the scheduled time of the first. -/
theorem C12_successive_dispatches (env : TimerEnv) (hlaw : env.Lawful)
    (pre mid : List TimerOp) (d : TimerDaemon) (t1 t2 : Nat) (f1 f2 : Fired)
    (hd : d = (TimerDaemon.run env TimerDaemon.empty pre).1) (hlen : pre.length < 2 ^ 64)
    (hf1 : (pump_one_element env d t1).2 = some f1) (hper : 0 < f1.period)
    (hmid : ∀ op ∈ mid, op.reschedules f1.elem.item = false)
    (hquiet : ∀ f ∈ (TimerDaemon.run env (pump_one_element env d t1).1 mid).2,
      f.elem.item ≠ f1.elem.item)
    (hf2 : (pump_one_element env
      (TimerDaemon.run env (pump_one_element env d t1).1 mid).1 t2).2 = some f2)
    (hsame : f2.elem.item = f1.elem.item) :
    f1.now = t1 ∧ f2.now = t2 ∧ f1.elem.next ≤ t1 ∧
    f2.elem.next = min (f1.elem.next + f1.period) (2 ^ 64 - 1) ∧
    f2.elem.stamp = f1.elem.stamp ∧ f2.period = f1.period ∧ f2.elem.next ≤ t2 ∧
    min (f1.elem.next + f1.period) (2 ^ 64 - 1) ≤ t2 := by
  have hwf : d.WF pre.length := by
    rw [hd]
    exact reachable_WF env hlaw pre hlen
  obtain ⟨hitems, disc, hdisc, hheap1, _, hsome⟩ := pump_spec env hlaw d t1 hwf.1
  obtain ⟨hnow1, it, rest, hl, hs, hp1, _, hdue1, hp, _, _, hnew⟩ := hsome f1 hf1
  have hper2 : it.period ≠ 0 := by omega
  rw [if_neg hper2] at hnew
  have hlive1 : liveFor d.items f1.elem.item f1.elem = true := by
    simp [liveFor, (isLive_iff _ _).mpr ⟨it, hl, hs⟩]
  -- no other element of the item carries its stamp
  have huniq : ∀ x ∈ rest, x.item = f1.elem.item → x.stamp = it.stamp → False := by
    intro x hx hxi hxs
    have hc := hwf.2.2.2.2 f1.elem.item
    rw [hp.countP_eq, List.countP_append, List.countP_cons, if_pos hlive1] at hc
    have hx1 : 1 ≤ rest.countP (liveFor d.items f1.elem.item) :=
      List.one_le_countP_iff.mpr ⟨x, hx, by
        have hlx : isLive d.items x = true :=
          (isLive_iff _ _).mpr ⟨it, by rw [hxi]; exact hl, hxs.symm⟩
        simp [liveFor, hxi, hlx]⟩
    omega
  have htrack := run_tracks env hlaw f1.elem.item (saturated_add f1.elem.next it.period) it mid
    (pump_one_element env d t1).1 hheap1
    (by rw [hitems]; exact lockItem_lt _ _ _ hl)
    (by
      intro it2 hl2
      rw [hitems, hl] at hl2
      cases hl2
      rfl)
    (by
      intro x hx hxi hxs
      rcases List.mem_cons.mp (hnew.mem_iff.mp hx) with rfl | hx2
      · rfl
      · exact (huniq x hx2 hxi hxs).elim)
    hmid hquiet
  obtain ⟨hheap2, hitem2, helem2⟩ := htrack
  obtain ⟨_, disc2, _, _, _, hsome2⟩ := pump_spec env hlaw _ t2 hheap2
  obtain ⟨hnow2, it2, rest2, hl2, hs2, hp2, _, hdue2, hperm2, _, _, _⟩ := hsome2 f2 hf2
  rw [hsame] at hl2
  have heq := hitem2 it2 hl2
  subst heq
  have hmem2 : f2.elem ∈ (TimerDaemon.run env (pump_one_element env d t1).1 mid).1.g_timers :=
    hperm2.mem_iff.mpr (List.mem_append_right _ (List.mem_cons_self _ _))
  have hnext := helem2 f2.elem hmem2 hsame hs2.symm
  rw [saturated_add_eq_min, ← hp1, show U64_MAX = 2 ^ 64 - 1 from rfl] at hnext
  refine ⟨hnow1, hnow2, hdue1, hnext, ?_, ?_, hdue2, ?_⟩
  · rw [← hs2, hs]
  · rw [hp2, hp1]
  · rw [← hnext]
    exact hdue2

/-- C12 (amended) at a timer due at 100 with period 50 that is first pumped at 1000: the
second dispatch, at 1001, is that of the element scheduled for 150. -/
theorem C12_successive_dispatches_witness :
    (pump_one_element sortedEnv
        (TimerDaemon.run sortedEnv TimerDaemon.empty
          [TimerOp.register 100 50 false, TimerOp.register 120 0 true]).1 1000).2 =
      some { elem := { next := 100, item := 0, stamp := 0 }, period := 50, low_level := false,
             now := 1000 } ∧
    (pump_one_element sortedEnv
        (TimerDaemon.run sortedEnv
          (pump_one_element sortedEnv
            (TimerDaemon.run sortedEnv TimerDaemon.empty
              [TimerOp.register 100 50 false, TimerOp.register 120 0 true]).1 1000).1
          [TimerOp.pump 1000]).1 1001).2 =
      some { elem := { next := 150, item := 0, stamp := 0 }, period := 50, low_level := false,
             now := 1001 } ∧
    (150 : Nat) = min (100 + 50) (2 ^ 64 - 1) ∧ min (100 + 50) (2 ^ 64 - 1) ≤ 1001 :=
  have h := C12_successive_dispatches sortedEnv sortedEnv_lawful
    [TimerOp.register 100 50 false, TimerOp.register 120 0 true] [TimerOp.pump 1000]
    (TimerDaemon.run sortedEnv TimerDaemon.empty
      [TimerOp.register 100 50 false, TimerOp.register 120 0 true]).1
    1000 1001
    { elem := { next := 100, item := 0, stamp := 0 }, period := 50, low_level := false,
      now := 1000 }
    { elem := { next := 150, item := 0, stamp := 0 }, period := 50, low_level := false,
      now := 1001 }
    rfl (by decide) (by decide) (by decide) (by decide) (by decide) (by decide) (by decide)
  ⟨by decide, by decide, h.2.2.2.1, h.2.2.2.2.2.2.2⟩

/-- C12 as stated fails: a timer due at 100 with period 50 whose pump runs late is
dispatched at the clock readings 1000 and 1001, which are 1 apart, less than the period. -/
theorem C12_counterexample :
    (TimerDaemon.run sortedEnv TimerDaemon.empty
        [TimerOp.register 100 50 false, TimerOp.pump 1000, TimerOp.pump 1001]).2 =
      [{ elem := { next := 100, item := 0, stamp := 0 }, period := 50, low_level := false,
         now := 1000 },
       { elem := { next := 150, item := 0, stamp := 0 }, period := 50, low_level := false,
         now := 1001 }] ∧
    ¬ (1001 - 1000 ≥ 50) := by
  decide

/-! # The HTTP response: the header map -/

theorem get_append_singleton (m : OptionalMap) (key other value : Bytes) :
    OptionalMap.get (m ++ [(key, value)]) other =
      if m.has other then m.get other else if key = other then value else [] := by
  induction m with
  | nil => simp [OptionalMap.get, OptionalMap.has]
  | cons a m ih =>
    obtain ⟨k, v⟩ := a
    by_cases hk : k = other
    · simp [OptionalMap.get, OptionalMap.has, hk]
    · simp only [List.cons_append, OptionalMap.get, OptionalMap.has, hk, if_false]
      exact ih

theorem has_filter_ne (m : OptionalMap) (key other : Bytes) :
    OptionalMap.has (m.filter (fun p => p.1 ≠ key)) other =
      if other = key then false else m.has other := by
  induction m with
  | nil => simp [OptionalMap.has]
  | cons a m ih =>
    obtain ⟨k, v⟩ := a
    simp only [ne_eq, decide_not] at ih ⊢
    by_cases hk : k = key
    · by_cases ho : other = key
      · simpa [List.filter_cons, hk, ho] using ih
      · have h1 : ¬ k = other := fun e => ho (e.symm.trans hk)
        have h2 : ¬ key = other := fun e => ho e.symm
        simpa [List.filter_cons, hk, ho, OptionalMap.has, h1, h2] using ih
    · by_cases hko : k = other
      · have h1 : ¬ other = key := fun e => hk (hko.trans e)
        subst hko
        simp [List.filter_cons, hk, OptionalMap.has]
      · by_cases ho : other = key
        · simpa [List.filter_cons, hk, OptionalMap.has, hko, ho] using ih
        · simpa [List.filter_cons, hk, OptionalMap.has, hko, ho] using ih

theorem get_filter_ne (m : OptionalMap) (key other : Bytes) (h : other ≠ key) :
    OptionalMap.get (m.filter (fun p => p.1 ≠ key)) other = m.get other := by
  induction m with
  | nil => simp [OptionalMap.get]
  | cons a m ih =>
    obtain ⟨k, v⟩ := a
    simp only [ne_eq, decide_not] at ih ⊢
    have h2 : ¬ key = other := fun e => h e.symm
    by_cases hk : k = key
    · have h1 : ¬ k = other := fun e => h (e.symm.trans hk)
      simpa [List.filter_cons, hk, OptionalMap.get, h1, h2] using ih
    · by_cases hko : k = other
      · subst hko
        simp [List.filter_cons, hk, OptionalMap.get]
      · simpa [List.filter_cons, hk, OptionalMap.get, hko] using ih

theorem get_of_not_has (m : OptionalMap) (key : Bytes) (h : m.has key = false) :
    m.get key = [] := by
  induction m with
  | nil => rfl
  | cons a m ih =>
    obtain ⟨k, v⟩ := a
    by_cases hk : k = key
    · simp [OptionalMap.has, hk] at h
    · simp only [OptionalMap.has, hk, if_false] at h
      simp [OptionalMap.get, hk, ih h]

theorem get_set_same (m : OptionalMap) (key value : Bytes) : (m.set key value).get key = value := by
  unfold OptionalMap.set
  rw [get_append_singleton, has_filter_ne]
  simp

theorem get_set_other (m : OptionalMap) (key other value : Bytes) (h : other ≠ key) :
    (m.set key value).get other = m.get other := by
  unfold OptionalMap.set
  rw [get_append_singleton, has_filter_ne, get_filter_ne m key other h]
  simp only [h, if_false, fun e => h (Eq.symm e)]
  have hk : ¬ key = other := fun e => h e.symm
  by_cases hh : m.has other = true
  · simp [hh]
  · have hf : m.has other = false := by simpa using hh
    simp [hf, get_of_not_has m other hf, hk]

theorem filter_set_same (m : OptionalMap) (key value : Bytes) :
    (m.set key value).filter (fun p => p.1 = key) = [(key, value)] := by
  unfold OptionalMap.set
  rw [List.filter_append, List.filter_filter]
  have : List.filter (fun p : Bytes × Bytes => decide (p.1 = key) && decide (p.1 ≠ key)) m = [] := by
    apply List.filter_eq_nil_iff.mpr
    intro a _
    by_cases h : a.1 = key <;> simp [h]
  rw [this]
  simp

theorem serializeHeaders_append (a b : OptionalMap) :
    serializeHeaders (a ++ b) = serializeHeaders a ++ serializeHeaders b := by
  induction a with
  | nil => rfl
  | cons p a ih =>
    obtain ⟨name, value⟩ := p
    by_cases h : value = []
    · simp [serializeHeaders, h, ih]
    · simp [serializeHeaders, h, ih]

theorem toDigitsCore_ne_nil (fuel n : Nat) (ds : List Char) (h : 0 < fuel ∨ ds ≠ []) :
    Nat.toDigitsCore 10 fuel n ds ≠ [] := by
  induction fuel generalizing n ds with
  | zero =>
    rcases h with h | h
    · omega
    · simpa [Nat.toDigitsCore] using h
  | succ fuel ih =>
    unfold Nat.toDigitsCore
    dsimp only
    split
    · simp
    · exact ih _ _ (Or.inr (by simp))

theorem toDecimal_ne_nil (n : Nat) : toDecimal n ≠ [] :=
  toDigitsCore_ne_nil (n + 1) n [] (Or.inl (Nat.succ_pos n))

theorem get_assignFirst (m : OptionalMap) (key value : Bytes) (h : m.has key = true) :
    (m.assignFirst key value).get key = value := by
  induction m with
  | nil => simp [OptionalMap.has] at h
  | cons a m ih =>
    obtain ⟨k, v⟩ := a
    by_cases hk : k = key
    · simp [OptionalMap.assignFirst, OptionalMap.get, hk]
    · simp only [OptionalMap.has, hk, if_false] at h
      simp [OptionalMap.assignFirst, OptionalMap.get, hk, ih h]

theorem has_create (m : OptionalMap) (key : Bytes) : (m.create key).has key = true := by
  unfold OptionalMap.create
  by_cases h : m.has key = true
  · simp [h]
  · have hf : m.has key = false := by simpa using h
    rw [if_neg h]
    induction m with
    | nil => simp [OptionalMap.has]
    | cons a m ih =>
      obtain ⟨k, v⟩ := a
      by_cases hk : k = key
      · simp [OptionalMap.has, hk]
      · simp only [OptionalMap.has, hk, if_false] at hf
        simp only [List.cons_append, OptionalMap.has, hk, if_false]
        exact ih (by simp [hf]) hf

theorem get_create (m : OptionalMap) (key : Bytes) : (m.create key).get key = m.get key := by
  unfold OptionalMap.create
  by_cases h : m.has key = true
  · simp [h]
  · have hf : m.has key = false := by simpa using h
    rw [if_neg h, get_append_singleton, hf]
    simp [get_of_not_has m key hf]

/-- Lines 46-49: after `create` and the assignment of the default to an empty value, the
value under the key is the one the map held if that was not empty, and the default
otherwise. -/
theorem get_create_assign (m : OptionalMap) (key value : Bytes) :
    (if (m.create key).get key = [] then (m.create key).assignFirst key value
      else m.create key).get key = if m.get key = [] then value else m.get key := by
  rw [get_create]
  by_cases h : m.get key = []
  · rw [if_pos h, if_pos h]
    exact get_assignFirst _ key value (has_create m key)
  · rw [if_neg h, if_neg h]
    exact get_create m key

/-! # The HTTP response: `respond` -/

theorem has_filter_self (m : OptionalMap) (key : Bytes) :
    OptionalMap.has (m.filter (fun p => p.1 ≠ key)) key = false := by
  rw [has_filter_ne]
  simp

theorem serializeHeaders_single (name value : Bytes) (h : value ≠ []) :
    serializeHeaders [(name, value)] = name ++ ": ".toList ++ value ++ "\r\n".toList := by
  simp [serializeHeaders, h]

/-- A key whose value is not empty has its entry in the list, and none before it. -/
theorem split_of_get_ne_nil (m : OptionalMap) (key : Bytes) (h : m.get key ≠ []) :
    ∃ before after : OptionalMap,
      m = before ++ (key, m.get key) :: after ∧ before.has key = false := by
  induction m with
  | nil => exact absurd rfl h
  | cons a m ih =>
    obtain ⟨k, v⟩ := a
    by_cases hk : k = key
    · subst hk
      exact ⟨[], m, by simp [OptionalMap.get], rfl⟩
    · have hg : OptionalMap.get ((k, v) :: m) key = OptionalMap.get m key := by
        simp [OptionalMap.get, hk]
      rw [hg] at h ⊢
      obtain ⟨before, after, h1, h2⟩ := ih h
      refine ⟨(k, v) :: before, after, ?_, ?_⟩
      · rw [List.cons_append, ← h1]
      · simp [OptionalMap.has, hk, h2]

/-- The header line of an entry whose value is not empty is part of the header block. -/
theorem serializeHeaders_split (before after : OptionalMap) (name value : Bytes)
    (h : value ≠ []) :
    serializeHeaders (before ++ (name, value) :: after) =
      serializeHeaders before ++ name ++ ": ".toList ++ value ++ "\r\n".toList ++
        serializeHeaders after := by
  rw [serializeHeaders_append]
  simp [serializeHeaders, h]

/-- Line 51: the header map that is sent ends the way `set` leaves it. -/
theorem respondHeaders_length (table : StatusTable) (status : HttpStatus)
    (headers : OptionalMap) (contents : Bytes) :
    ∃ before : OptionalMap,
      respondHeaders table status headers contents =
        before ++ [("Content-Length".toList,
          toDecimal (respondContents table status contents).length)] ∧
      before.has "Content-Length".toList = false :=
  ⟨_, rfl, has_filter_self _ _⟩

/-- Lines 35-50: the value under `Content-Type` in the header map that is sent. -/
theorem respondHeaders_type (table : StatusTable) (status : HttpStatus)
    (headers : OptionalMap) (contents : Bytes) :
    (respondHeaders table status headers contents).get "Content-Type".toList =
      if needsErrorPage status contents then "text/html; charset=utf-8".toList
      else if headers.get "Content-Type".toList = [] then "text/plain; charset=utf-8".toList
      else headers.get "Content-Type".toList := by
  unfold respondHeaders
  rw [get_set_other _ _ _ _ (by decide)]
  by_cases h : needsErrorPage status contents = true
  · simp only [h, if_true]
    exact get_set_same _ _ _
  · simp only [h, if_false]
    exact get_create_assign _ _ _

theorem respondHeaders_type_ne_nil (table : StatusTable) (status : HttpStatus)
    (headers : OptionalMap) (contents : Bytes) :
    (respondHeaders table status headers contents).get "Content-Type".toList ≠ [] := by
  rw [respondHeaders_type]
  by_cases h : needsErrorPage status contents = true
  · rw [if_pos h]; decide
  · rw [if_neg h]
    by_cases h2 : headers.get "Content-Type".toList = []
    · rw [if_pos h2]; decide
    · rw [if_neg h2]; exact h2

theorem needsErrorPage_iff (status : HttpStatus) (contents : Bytes) :
    needsErrorPage status contents = true ↔ contents = [] ∧ status / 100 ≠ 2 := by
  simp [needsErrorPage]

/-- The page of lines 36-42 for 404, when the short description is `Not Found`. -/
theorem errorPage_404 (table : StatusTable)
    (hdesc : (table HTTP_NOT_FOUND).descShort = "Not Found".toList) :
    errorPage table HTTP_NOT_FOUND =
      "<html><head><title>404 Not Found</title></head><body>".toList ++
        ("<h1>404 Not Found</h1>".toList ++
          ("<hr /><p>".toList ++ (table HTTP_NOT_FOUND).descLong ++
            "</p></body></html>".toList)) := by
  have h1 : toDecimal HTTP_NOT_FOUND = "404".toList := by decide
  unfold errorPage codeStatus
  rw [hdesc, h1]
  simp

/-! # The request job: `HttpRequestJob::perform` -/

theorem perform_none (table : StatusTable) (getServlet : Bytes → Option HttpServlet)
    (job : HttpRequestJob) (h : getServlet job.m_uri = none) :
    HttpRequestJob.perform table getServlet true job =
      { sent := [respond table HTTP_NOT_FOUND none none], thrown := false } := by
  simp [HttpRequestJob.perform, h]

theorem perform_returned (table : StatusTable) (getServlet : Bytes → Option HttpServlet)
    (job : HttpRequestJob) (servlet : HttpServlet) (status : HttpStatus)
    (headers : OptionalMap) (contents : Bytes) (h : getServlet job.m_uri = some servlet)
    (hr : servlet job.m_verb job.m_getParams job.m_incomingHeaders job.m_incomingContents =
      ServletResult.returned status headers contents) :
    HttpRequestJob.perform table getServlet true job =
      { sent := [respond table status (some headers) (some contents)], thrown := false } := by
  simp [HttpRequestJob.perform, h, hr]

theorem perform_protocolException (table : StatusTable)
    (getServlet : Bytes → Option HttpServlet) (job : HttpRequestJob) (servlet : HttpServlet)
    (code : Int) (headers : OptionalMap) (contents : Bytes)
    (h : getServlet job.m_uri = some servlet)
    (hr : servlet job.m_verb job.m_getParams job.m_incomingHeaders job.m_incomingContents =
      ServletResult.protocolException code headers contents) :
    HttpRequestJob.perform table getServlet true job =
      if code > 0 then { sent := [respond table code.toNat none none], thrown := false }
      else { sent := [], thrown := false } := by
  simp [HttpRequestJob.perform, h, hr]

theorem feed_hello (v : HttpVerb) :
    (feed specEnv (HttpSession.init v) ["GET /hello HTTP/1.1\r\n\r\n".toList]).events =
      [Event.pend helloJob] := by
  cases v <;> decide

/-! ## C16: no servlet for the URI -/

/-- C16. When the status table gives 404 the short description `Not Found`: for every job
whose URI has no servlet, `perform` on a live session sends exactly one buffer, the response
`respond(session, HTTP_NOT_FOUND)`, and nothing is thrown; that response is the status line
`HTTP/1.1 404 Not Found`, a header block in which the line
`Content-Type: text/html; charset=utf-8` stands between the lines of the other entries (none
of them under `Content-Type`), the empty line and the error page, which contains
`<h1>404 Not Found</h1>`; and a fresh session fed `GET /hello HTTP/1.1` and an empty line
pends exactly one job, which gets this response when `/hello` has no servlet. -/
theorem C16_not_found (table : StatusTable) (getServlet : Bytes → Option HttpServlet)
    (hdesc : (table HTTP_NOT_FOUND).descShort = "Not Found".toList) :
    (∀ job : HttpRequestJob, getServlet job.m_uri = none →
      HttpRequestJob.perform table getServlet true job =
        { sent := [respond table HTTP_NOT_FOUND none none], thrown := false }) ∧
    (∃ before after : OptionalMap,
      before.has "Content-Type".toList = false ∧ after.has "Content-Type".toList = false ∧
      respond table HTTP_NOT_FOUND none none =
        "HTTP/1.1 404 Not Found\r\n".toList ++ serializeHeaders before ++
          "Content-Type: text/html; charset=utf-8\r\n".toList ++ serializeHeaders after ++
          "\r\n".toList ++ errorPage table HTTP_NOT_FOUND) ∧
    errorPage table HTTP_NOT_FOUND =
      "<html><head><title>404 Not Found</title></head><body>".toList ++
        ("<h1>404 Not Found</h1>".toList ++
          ("<hr /><p>".toList ++ (table HTTP_NOT_FOUND).descLong ++
            "</p></body></html>".toList)) ∧
    List.IsInfix "<h1>404 Not Found</h1>".toList (errorPage table HTTP_NOT_FOUND) ∧
    (∀ v : HttpVerb, getServlet "/hello".toList = none →
      ∃ job : HttpRequestJob,
        (feed specEnv (HttpSession.init v) ["GET /hello HTTP/1.1\r\n\r\n".toList]).events =
          [Event.pend job] ∧
        HttpRequestJob.perform table getServlet true job =
          { sent := [respond table HTTP_NOT_FOUND none none], thrown := false }) := by
  refine ⟨fun job h => perform_none table getServlet job h, ?_, errorPage_404 table hdesc,
    ?_, ?_⟩
  · refine ⟨[], [("Content-Length".toList, toDecimal (errorPage table HTTP_NOT_FOUND).length)],
      rfl, by simp [OptionalMap.has], ?_⟩
    have h1 : toDecimal HTTP_NOT_FOUND = "404".toList := by decide
    have h2 : needsErrorPage HTTP_NOT_FOUND [] = true := by decide
    have h3 : respondHeaders table HTTP_NOT_FOUND [] [] =
        [("Content-Type".toList, "text/html; charset=utf-8".toList),
         ("Content-Length".toList, toDecimal (errorPage table HTTP_NOT_FOUND).length)] := by
      simp [respondHeaders, respondContents, h2, OptionalMap.set]
    have h4 : respondContents table HTTP_NOT_FOUND [] = errorPage table HTTP_NOT_FOUND := by
      simp [respondContents, h2]
    have h5 : codeStatus table HTTP_NOT_FOUND = "404 Not Found".toList := by
      unfold codeStatus
      rw [hdesc, h1]
      rfl
    unfold respond
    simp only [Option.getD_none]
    rw [h3, h4, h5]
    have h6 := toDecimal_ne_nil (errorPage table HTTP_NOT_FOUND).length
    simp [serializeHeaders, h6]
  · rw [errorPage_404 table hdesc]
    exact ⟨"<html><head><title>404 Not Found</title></head><body>".toList,
      "<hr /><p>".toList ++ (table HTTP_NOT_FOUND).descLong ++ "</p></body></html>".toList,
      by simp only [List.append_assoc]⟩
  · intro v h
    exact ⟨helloJob, feed_hello v, perform_none table getServlet helloJob h⟩

set_option maxRecDepth 100000 in
/-- C16 with the sample table and no servlet at all: the job of `GET /hello HTTP/1.1` gets
the 404 response, and nothing else is sent. -/
theorem C16_not_found_witness :
    (sampleTable HTTP_NOT_FOUND).descShort = "Not Found".toList ∧
    HttpRequestJob.perform sampleTable (fun _ => none) true helloJob =
      { sent := [respond sampleTable HTTP_NOT_FOUND none none], thrown := false } ∧
    respond sampleTable HTTP_NOT_FOUND none none =
      ("HTTP/1.1 404 Not Found\r\nContent-Type: text/html; charset=utf-8\r\n" ++
        "Content-Length: 139\r\n\r\n" ++
        "<html><head><title>404 Not Found</title></head><body><h1>404 Not Found</h1>" ++
        "<hr /><p>The requested resource was not found.</p></body></html>").toList :=
  ⟨by decide,
    (C16_not_found sampleTable (fun _ => none) (by decide)).1 helloJob rfl,
    by decide⟩

/-! ## C17: how many responses a job sends -/

/-- C17, amended. On a live session `perform` sends exactly one response, and throws
nothing, when the URI has no servlet, when the servlet returns a status, and when the
servlet throws a `ProtocolException` whose code is positive; when the code of the
`ProtocolException` is zero or negative it sends no response at all. -/
theorem C17_one_response (table : StatusTable) (getServlet : Bytes → Option HttpServlet)
    (job : HttpRequestJob) (servlet : HttpServlet)
    (hlookup : getServlet job.m_uri = none ∨ getServlet job.m_uri = some servlet) :
    (getServlet job.m_uri = none →
      ∃ response, HttpRequestJob.perform table getServlet true job =
        { sent := [response], thrown := false }) ∧
    (∀ status headers contents,
      getServlet job.m_uri = some servlet →
      servlet job.m_verb job.m_getParams job.m_incomingHeaders job.m_incomingContents =
        ServletResult.returned status headers contents →
      ∃ response, HttpRequestJob.perform table getServlet true job =
        { sent := [response], thrown := false }) ∧
    (∀ code headers contents,
      getServlet job.m_uri = some servlet →
      servlet job.m_verb job.m_getParams job.m_incomingHeaders job.m_incomingContents =
        ServletResult.protocolException code headers contents →
      (0 < code → ∃ response, HttpRequestJob.perform table getServlet true job =
        { sent := [response], thrown := false }) ∧
      (code ≤ 0 → HttpRequestJob.perform table getServlet true job =
        { sent := [], thrown := false })) ∧
    ((HttpRequestJob.perform table getServlet true job).sent.length ≤ 1) := by
  refine ⟨fun h => ⟨_, perform_none table getServlet job h⟩,
    fun status headers contents h hr =>
      ⟨_, perform_returned table getServlet job servlet status headers contents h hr⟩,
    fun code headers contents h hr => ?_, ?_⟩
  · have hp := perform_protocolException table getServlet job servlet code headers contents h hr
    constructor
    · intro hc
      rw [if_pos hc] at hp
      exact ⟨_, hp⟩
    · intro hc
      rw [if_neg (by omega)] at hp
      exact hp
  · rcases hlookup with h | h
    · rw [perform_none table getServlet job h]
      exact Nat.le_refl 1
    · cases hr : servlet job.m_verb job.m_getParams job.m_incomingHeaders
          job.m_incomingContents with
      | returned status headers contents =>
        rw [perform_returned table getServlet job servlet status headers contents h hr]
        exact Nat.le_refl 1
      | protocolException code headers contents =>
        rw [perform_protocolException table getServlet job servlet code headers contents h hr]
        split
        · exact Nat.le_refl 1
        · exact Nat.zero_le 1
      | otherException =>
        simp [HttpRequestJob.perform, h, hr]

set_option maxRecDepth 100000 in
/-- C17 at the job of `GET /hello HTTP/1.1` and a servlet that throws the code 503: one
response, the one for 503. -/
theorem C17_one_response_witness :
    (fun _ => some (throwingServlet 503) : Bytes → Option HttpServlet) helloJob.m_uri =
      some (throwingServlet 503) ∧
    HttpRequestJob.perform sampleTable (fun _ => some (throwingServlet 503)) true helloJob =
      { sent := [respond sampleTable 503 none none], thrown := false } ∧
    (HttpRequestJob.perform sampleTable (fun _ => some (throwingServlet 503)) true
      helloJob).sent.length ≤ 1 :=
  ⟨rfl, by decide,
    (C17_one_response sampleTable (fun _ => some (throwingServlet 503)) helloJob
      (throwingServlet 503) (Or.inr rfl)).2.2.2⟩

/-- C17 as worded fails: the request `GET /hello HTTP/1.1` on a fresh session is completed
by the parser, which pends its job; the servlet registered for `/hello` throws a
`ProtocolException` with code 0; the job, run while the session is alive, sends nothing. -/
theorem C17_counterexample :
    (feed specEnv (HttpSession.init HttpVerb.HTTP_GET)
      ["GET /hello HTTP/1.1\r\n\r\n".toList]).events = [Event.pend helloJob] ∧
    HttpRequestJob.perform sampleTable
        (fun uri => if uri = "/hello".toList then some (throwingServlet 0) else none)
        true helloJob =
      { sent := [], thrown := false } ∧
    (HttpRequestJob.perform sampleTable
        (fun uri => if uri = "/hello".toList then some (throwingServlet 0) else none)
        true helloJob).sent.length ≠ 1 := by
  refine ⟨by decide, by decide, by decide⟩

/-! ## C18: the servlet throws a protocol error, or returns -/

/-- C18. When the servlet found for the URI throws a `ProtocolException` with code `c`,
whatever it had put into its output headers and body: if `c > 0`, `perform` sends exactly
one buffer, `respond` of the status `c` with null headers and null contents, which is the
response built from an empty header map and an empty body; if `c ≤ 0` it sends nothing; in
both cases nothing is thrown out of `perform`. When the servlet returns the status `s`
with the headers and body it filled, `perform` sends exactly `respond` of `s`, these
headers and this body. -/
theorem C18_protocol_error (table : StatusTable) (getServlet : Bytes → Option HttpServlet)
    (job : HttpRequestJob) (servlet : HttpServlet)
    (hlookup : getServlet job.m_uri = some servlet) :
    (∀ (c : Int) (headers : OptionalMap) (contents : Bytes),
      servlet job.m_verb job.m_getParams job.m_incomingHeaders job.m_incomingContents =
        ServletResult.protocolException c headers contents →
      (0 < c → HttpRequestJob.perform table getServlet true job =
        { sent := [respond table c.toNat (some []) (some [])], thrown := false }) ∧
      (c ≤ 0 → HttpRequestJob.perform table getServlet true job =
        { sent := [], thrown := false })) ∧
    (∀ s : HttpStatus, respond table s none none = respond table s (some []) (some [])) ∧
    (∀ (s : HttpStatus) (headers : OptionalMap) (contents : Bytes),
      servlet job.m_verb job.m_getParams job.m_incomingHeaders job.m_incomingContents =
        ServletResult.returned s headers contents →
      HttpRequestJob.perform table getServlet true job =
        { sent := [respond table s (some headers) (some contents)], thrown := false }) := by
  refine ⟨fun c headers contents hr => ?_, fun s => rfl, fun s headers contents hr =>
    perform_returned table getServlet job servlet s headers contents hlookup hr⟩
  have hp := perform_protocolException table getServlet job servlet c headers contents
    hlookup hr
  constructor
  · intro hc
    rw [if_pos hc] at hp
    exact hp
  · intro hc
    rw [if_neg (by omega)] at hp
    exact hp

set_option maxRecDepth 100000 in
/-- C18 at a servlet that throws the code 404 after it has put a header and some bytes into
its outputs: the one response sent is the 404 page, with none of the servlet's outputs. -/
theorem C18_protocol_error_witness :
    (fun _ => some (throwingServlet 404) : Bytes → Option HttpServlet) helloJob.m_uri =
      some (throwingServlet 404) ∧
    throwingServlet 404 helloJob.m_verb helloJob.m_getParams helloJob.m_incomingHeaders
        helloJob.m_incomingContents =
      ServletResult.protocolException 404 [("X-Partial".toList, "1".toList)]
        "partial".toList ∧
    HttpRequestJob.perform sampleTable (fun _ => some (throwingServlet 404)) true helloJob =
      { sent := [respond sampleTable 404 (some []) (some [])], thrown := false } ∧
    respond sampleTable 404 (some []) (some []) =
      ("HTTP/1.1 404 Not Found\r\nContent-Type: text/html; charset=utf-8\r\n" ++
        "Content-Length: 139\r\n\r\n" ++
        "<html><head><title>404 Not Found</title></head><body><h1>404 Not Found</h1>" ++
        "<hr /><p>The requested resource was not found.</p></body></html>").toList :=
  ⟨rfl, rfl,
    ((C18_protocol_error sampleTable (fun _ => some (throwingServlet 404)) helloJob
      (throwingServlet 404) rfl).1 404 [("X-Partial".toList, "1".toList)] "partial".toList
      rfl).1 (by decide),
    by decide⟩

/-! ## C19: `Content-Length` -/

/-- C19. For every status, headers and contents given to `respond` (null or not), the
header map that is sent holds exactly one entry under `Content-Length`, whatever the
caller had put there; its value is the decimal length of the body that is sent, the error
page when line 35 makes one, and it is never the empty string, so that the buffer sent is
the status line, the lines of the other headers, the line `Content-Length: <length>`
among them, the empty line, and that body; a body that is sent empty gives the value
`0`. -/
theorem C19_content_length (table : StatusTable) (status : HttpStatus)
    (headers : Option OptionalMap) (contents : Option Bytes) :
    ∃ before after : OptionalMap,
      respondHeaders table status (headers.getD []) (contents.getD []) =
        before ++ ("Content-Length".toList,
          toDecimal (respondContents table status (contents.getD [])).length) :: after ∧
      before.has "Content-Length".toList = false ∧
      after.has "Content-Length".toList = false ∧
      (respondHeaders table status (headers.getD []) (contents.getD [])).filter
          (fun p => p.1 = "Content-Length".toList) =
        [("Content-Length".toList,
          toDecimal (respondContents table status (contents.getD [])).length)] ∧
      toDecimal (respondContents table status (contents.getD [])).length ≠ [] ∧
      respond table status headers contents =
        "HTTP/1.1 ".toList ++ codeStatus table status ++ "\r\n".toList ++
          serializeHeaders before ++ "Content-Length: ".toList ++
          toDecimal (respondContents table status (contents.getD [])).length ++
          "\r\n".toList ++ serializeHeaders after ++ "\r\n".toList ++
          respondContents table status (contents.getD []) ∧
      respondContents table status (contents.getD []) =
        (if needsErrorPage status (contents.getD []) then errorPage table status
          else contents.getD []) ∧
      (respondContents table status (contents.getD []) = [] →
        toDecimal (respondContents table status (contents.getD [])).length = "0".toList) := by
  obtain ⟨before, h1, h2⟩ :=
    respondHeaders_length table status (headers.getD []) (contents.getD [])
  have hne := toDecimal_ne_nil (respondContents table status (contents.getD [])).length
  refine ⟨before, [], h1, h2, rfl, filter_set_same _ _ _, hne, ?_, rfl, ?_⟩
  · unfold respond
    rw [h1, serializeHeaders_split before [] _ _ hne]
    simp [serializeHeaders]
  · intro h
    rw [h]
    rfl

/-- C19 at a 200 response with the body `hi` whose caller had set `Content-Length` to 99,
and at a 200 response with no body. -/
theorem C19_content_length_witness :
    respond sampleTable 200 (some [("Content-Length".toList, "99".toList)])
        (some "hi".toList) =
      ("HTTP/1.1 200 OK\r\nContent-Type: text/plain; charset=utf-8\r\n" ++
        "Content-Length: 2\r\n\r\nhi").toList ∧
    respond sampleTable 200 none none =
      ("HTTP/1.1 200 OK\r\nContent-Type: text/plain; charset=utf-8\r\n" ++
        "Content-Length: 0\r\n\r\n").toList ∧
    (respondHeaders sampleTable 200 [("Content-Length".toList, "99".toList)]
        "hi".toList).filter (fun p => p.1 = "Content-Length".toList) =
      [("Content-Length".toList, "2".toList)] := by
  obtain ⟨_, _, _, _, _, h, _⟩ :=
    C19_content_length sampleTable 200 (some [("Content-Length".toList, "99".toList)])
      (some "hi".toList)
  exact ⟨by decide, by decide, h⟩

/-! ## C20: the error page and `Content-Type` -/

/-- C20. In `respond`, the test of line 35 holds exactly when the body is empty and
`status / 100` is not 2. When it holds, the body sent is
`<html><head><title>C</title></head><body><h1>C</h1><hr /><p>L</p></body></html>` with `C`
the decimal code, a space and the short description, and `L` the long description, and the
value sent under `Content-Type` is `text/html; charset=utf-8`, whatever the caller had
set. When it does not hold, the body is sent unchanged and the value under `Content-Type`
is the caller's when that is not empty, and `text/plain; charset=utf-8` otherwise. In both
cases that value is not empty, and its line is part of the header block that is sent. -/
theorem C20_error_page (table : StatusTable) (status : HttpStatus)
    (headers : Option OptionalMap) (contents : Option Bytes) :
    (needsErrorPage status (contents.getD []) = true ↔
      contents.getD [] = [] ∧ status / 100 ≠ 2) ∧
    respondContents table status (contents.getD []) =
      (if needsErrorPage status (contents.getD []) then
        "<html><head><title>".toList ++ (toDecimal status ++ " ".toList ++
            (table status).descShort) ++
          "</title></head><body><h1>".toList ++ (toDecimal status ++ " ".toList ++
            (table status).descShort) ++
          "</h1><hr /><p>".toList ++ (table status).descLong ++ "</p></body></html>".toList
      else contents.getD []) ∧
    (respondHeaders table status (headers.getD []) (contents.getD [])).get
        "Content-Type".toList =
      (if needsErrorPage status (contents.getD []) then "text/html; charset=utf-8".toList
      else if (headers.getD []).get "Content-Type".toList = [] then
        "text/plain; charset=utf-8".toList
      else (headers.getD []).get "Content-Type".toList) ∧
    (respondHeaders table status (headers.getD []) (contents.getD [])).get
        "Content-Type".toList ≠ [] ∧
    (∃ before after : OptionalMap,
      before.has "Content-Type".toList = false ∧
      respond table status headers contents =
        "HTTP/1.1 ".toList ++ codeStatus table status ++ "\r\n".toList ++
          serializeHeaders before ++ "Content-Type: ".toList ++
          (respondHeaders table status (headers.getD []) (contents.getD [])).get
            "Content-Type".toList ++
          "\r\n".toList ++ serializeHeaders after ++ "\r\n".toList ++
          respondContents table status (contents.getD [])) := by
  have hne := respondHeaders_type_ne_nil table status (headers.getD []) (contents.getD [])
  refine ⟨needsErrorPage_iff _ _, ?_, respondHeaders_type _ _ _ _, hne, ?_⟩
  · unfold respondContents
    by_cases h : needsErrorPage status (contents.getD []) = true
    · rw [if_pos h, if_pos h]
      simp [errorPage, codeStatus]
    · rw [if_neg h, if_neg h]
  · obtain ⟨before, after, h1, h2⟩ := split_of_get_ne_nil _ _ hne
    refine ⟨before, after, h2, ?_⟩
    unfold respond
    conv_lhs => rw [h1]
    rw [serializeHeaders_split before after _ _ hne]
    simp

set_option maxRecDepth 100000 in
/-- C20 at a 500 response whose caller had set `Content-Type` and given no body, and at a
200 response whose caller had set `Content-Type` and given a body. -/
theorem C20_error_page_witness :
    respond sampleTable 500 (some [("Content-Type".toList, "application/json".toList)])
        none =
      ("HTTP/1.1 500 Unknown\r\nContent-Type: text/html; charset=utf-8\r\n" ++
        "Content-Length: 98\r\n\r\n" ++
        "<html><head><title>500 Unknown</title></head><body><h1>500 Unknown</h1>" ++
        "<hr /><p></p></body></html>").toList ∧
    respond sampleTable 200 (some [("Content-Type".toList, "application/json".toList)])
        (some "[]".toList) =
      ("HTTP/1.1 200 OK\r\nContent-Type: application/json\r\n" ++
        "Content-Length: 2\r\n\r\n[]").toList ∧
    (respondHeaders sampleTable 500 [("Content-Type".toList, "application/json".toList)]
        []).get "Content-Type".toList ≠ [] := by
  have h := C20_error_page sampleTable 500
    (some [("Content-Type".toList, "application/json".toList)]) none
  exact ⟨by decide, by decide, h.2.2.2.1⟩

/-! # The timer daemon: what a pump dispatches -/

theorem countP_unique (l : List TimerQueueElement) (p : TimerQueueElement → Bool)
    (h : l.countP p ≤ 1) (x y : TimerQueueElement) (hx : x ∈ l) (hy : y ∈ l)
    (hpx : p x = true) (hpy : p y = true) : x = y := by
  induction l with
  | nil => cases hx
  | cons a l ih =>
    rw [List.countP_cons] at h
    by_cases hpa : p a = true
    · rw [if_pos hpa] at h
      have h0 : l.countP p = 0 := by omega
      have hnone : ∀ z ∈ l, ¬ p z = true := List.countP_eq_zero.mp h0
      rcases List.mem_cons.mp hx with rfl | hx1
      · rcases List.mem_cons.mp hy with rfl | hy1
        · rfl
        · exact absurd hpy (hnone y hy1)
      · exact absurd hpx (hnone x hx1)
    · rw [if_neg hpa] at h
      rcases List.mem_cons.mp hx with rfl | hx1
      · exact absurd hpx hpa
      · rcases List.mem_cons.mp hy with rfl | hy1
        · exact absurd hpy hpa
        · exact ih (by omega) hx1 hy1

/-- In a state that satisfies the invariant, the elements left beside a live element of an
item are not live elements of that item. -/
theorem WF_rest_not_live (d : TimerDaemon) (n : Nat) (hwf : d.WF n)
    (discarded rest : List TimerQueueElement) (e : TimerQueueElement) (it : TimerItem)
    (hperm : d.g_timers.Perm (discarded ++ e :: rest))
    (hl : lockItem d.items e.item = some it) (hs : it.stamp = e.stamp) :
    ∀ x ∈ rest, ¬ (x.item = e.item ∧ x.stamp = e.stamp) := by
  intro x hx hxe
  have hcount := hwf.2.2.2.2 e.item
  rw [hperm.countP_eq, List.countP_append, List.countP_cons] at hcount
  have he : liveFor d.items e.item e = true := by
    simp [liveFor, (isLive_iff d.items e).mpr ⟨it, hl, hs⟩]
  have hxl : liveFor d.items e.item x = true := by
    have : isLive d.items x = true :=
      (isLive_iff d.items x).mpr ⟨it, by rw [hxe.1]; exact hl, by rw [hxe.2]; exact hs⟩
    simp [liveFor, hxe.1, this]
  rw [if_pos he] at hcount
  have h0 : rest.countP (liveFor d.items e.item) = 0 := by omega
  exact List.countP_eq_zero.mp h0 x hx hxl

/-! ## C25: when a pump dispatches -/

/-- C25. On a heap, `pump_one_element` at the clock reading `now` returns `true` exactly
when the vector holds an element with `next <= now` whose item is alive and has the stamp
of the element. The element dispatched is in the vector, is due, its item is alive and has
its stamp, and the period and kind handed over are those of the item. The elements popped
on the way are dead or stale and due, and they are gone from the vector afterwards: the
vector was the discarded elements, the dispatched one and the rest, and it is the rest
afterwards, with the dispatched element one period later when the timer is periodic. When
the function returns `false`, what is left of the vector is not due, and no element of the
vector was both due and live. -/
theorem C25_pump_dispatch (env : TimerEnv) (hlaw : env.Lawful) (d : TimerDaemon) (now : Nat)
    (hheap : IsHeap d.g_timers) :
    ((pump_one_element env d now).2.isSome = true ↔
      ∃ x ∈ d.g_timers, x.next ≤ now ∧ isLive d.items x = true) ∧
    (∀ f, (pump_one_element env d now).2 = some f →
      f.now = now ∧ f.elem ∈ d.g_timers ∧ f.elem.next ≤ now ∧
      ∃ it, lockItem d.items f.elem.item = some it ∧ it.stamp = f.elem.stamp ∧
        f.period = it.period ∧ f.low_level = it.low_level) ∧
    (∃ discarded : List TimerQueueElement,
      (∀ x ∈ discarded, isLive d.items x = false ∧ x.next ≤ now) ∧
      ((pump_one_element env d now).2 = none →
        d.g_timers.Perm (discarded ++ (pump_one_element env d now).1.g_timers)) ∧
      (∀ f, (pump_one_element env d now).2 = some f →
        ∃ rest, d.g_timers.Perm (discarded ++ f.elem :: rest) ∧
          (pump_one_element env d now).1.g_timers.Perm
            (if f.period = 0 then rest
             else { f.elem with next := saturated_add f.elem.next f.period } :: rest))) ∧
    ((pump_one_element env d now).2 = none →
      (∀ x ∈ (pump_one_element env d now).1.g_timers, now < x.next) ∧
      (∀ x ∈ d.g_timers, x.next ≤ now → isLive d.items x = false)) := by
  obtain ⟨_, disc, h1, _, h3, h4⟩ := pump_spec env hlaw d now hheap
  have hnone : (pump_one_element env d now).2 = none →
      ∀ x ∈ d.g_timers, x.next ≤ now → isLive d.items x = false := by
    intro hn x hx hdue
    rcases List.mem_append.mp ((h3 hn).1.mem_iff.mp hx) with hx1 | hx2
    · exact (h1 x hx1).1
    · have := (h3 hn).2 x hx2
      omega
  refine ⟨⟨?_, ?_⟩, ?_, ⟨disc, h1, fun hn => (h3 hn).1, ?_⟩, fun hn => ⟨(h3 hn).2, hnone hn⟩⟩
  · intro hsome
    obtain ⟨f, hf⟩ := Option.isSome_iff_exists.mp hsome
    obtain ⟨_, it, rest, hl, hs, _, _, hdue, hperm, _, _, _⟩ := h4 f hf
    exact ⟨f.elem, hperm.mem_iff.mpr (List.mem_append_right _ (List.mem_cons_self _ _)), hdue,
      (isLive_iff _ _).mpr ⟨it, hl, hs⟩⟩
  · rintro ⟨x, hx, hdue, hlive⟩
    cases hr : (pump_one_element env d now).2 with
    | some f => rfl
    | none =>
      rw [hnone hr x hx hdue] at hlive
      cases hlive
  · intro f hf
    obtain ⟨hnow, it, rest, hl, hs, hp, hk, hdue, hperm, _, _, _⟩ := h4 f hf
    exact ⟨hnow, hperm.mem_iff.mpr (List.mem_append_right _ (List.mem_cons_self _ _)), hdue,
      it, hl, hs, hp, hk⟩
  · intro f hf
    obtain ⟨_, it, rest, _, _, hp, _, _, hperm, _, _, hnew⟩ := h4 f hf
    rw [← hp] at hnew
    exact ⟨rest, hperm, hnew⟩

/-- C25 at the sample run, pumped at 1000: the element due at 90 belongs to a released
item and the element due at 100 is stale; the element due at 120 is dispatched. -/
theorem C25_pump_dispatch_witness :
    (TimerDaemon.run sortedEnv TimerDaemon.empty timerScenario).1.g_timers =
      [{ next := 90, item := 2, stamp := 0 }, { next := 100, item := 0, stamp := 0 },
       { next := 120, item := 1, stamp := 0 }, { next := 300, item := 0, stamp := 1 }] ∧
    pump_one_element sortedEnv (TimerDaemon.run sortedEnv TimerDaemon.empty timerScenario).1
        1000 =
      ({ items := [some { period := 50, low_level := false, stamp := 1 },
                   some { period := 0, low_level := true, stamp := 0 }, none],
         g_timers := [{ next := 300, item := 0, stamp := 1 }] },
       some { elem := { next := 120, item := 1, stamp := 0 }, period := 0, low_level := true,
              now := 1000 }) ∧
    ((pump_one_element sortedEnv
        (TimerDaemon.run sortedEnv TimerDaemon.empty timerScenario).1 1000).2.isSome = true ↔
      ∃ x ∈ (TimerDaemon.run sortedEnv TimerDaemon.empty timerScenario).1.g_timers,
        x.next ≤ 1000 ∧
        isLive (TimerDaemon.run sortedEnv TimerDaemon.empty timerScenario).1.items x = true) :=
  ⟨by decide, by decide,
    (C25_pump_dispatch sortedEnv sortedEnv_lawful
      (TimerDaemon.run sortedEnv TimerDaemon.empty timerScenario).1 1000
      (run_heap sortedEnv sortedEnv_lawful _ _ isHeap_nil)).1⟩

/-! ## C26: what a dispatch does to the vector -/

/-- C26. Let `pump_one_element` dispatch the element `e` of the item `i` in a state reached
from the empty daemon. The items are not touched. The vector was the elements thrown
away, which are dead or stale, `e`, and the rest; the rest holds no element with the item
and stamp of `e`. If the period of `i` is 0, the vector afterwards is the rest: no element
of that scheduling is left. If the period is positive, the vector afterwards is the rest
and `e` with the same item and stamp and `next = min(e.next + period, 2^64 - 1)`, whatever
the clock reading. Every live element of another item is in the vector as often as
before. -/
theorem C26_dispatch_effect (env : TimerEnv) (hlaw : env.Lawful) (ops : List TimerOp)
    (hlen : ops.length < 2 ^ 64) (now : Nat) (f : Fired)
    (hf : (pump_one_element env (TimerDaemon.run env TimerDaemon.empty ops).1 now).2 = some f) :
    (pump_one_element env (TimerDaemon.run env TimerDaemon.empty ops).1 now).1.items =
      (TimerDaemon.run env TimerDaemon.empty ops).1.items ∧
    (∃ discarded rest : List TimerQueueElement,
      (TimerDaemon.run env TimerDaemon.empty ops).1.g_timers.Perm
        (discarded ++ f.elem :: rest) ∧
      (∀ x ∈ discarded,
        isLive (TimerDaemon.run env TimerDaemon.empty ops).1.items x = false) ∧
      (∀ x ∈ rest, ¬ (x.item = f.elem.item ∧ x.stamp = f.elem.stamp)) ∧
      (f.period = 0 →
        (pump_one_element env (TimerDaemon.run env TimerDaemon.empty ops).1 now).1.g_timers.Perm
          rest) ∧
      (0 < f.period →
        (pump_one_element env (TimerDaemon.run env TimerDaemon.empty ops).1 now).1.g_timers.Perm
          ({ next := min (f.elem.next + f.period) (2 ^ 64 - 1), item := f.elem.item,
             stamp := f.elem.stamp } :: rest))) ∧
    (∀ x, isLive (TimerDaemon.run env TimerDaemon.empty ops).1.items x = true →
      x.item ≠ f.elem.item →
      (pump_one_element env (TimerDaemon.run env TimerDaemon.empty ops).1 now).1.g_timers.count x =
        (TimerDaemon.run env TimerDaemon.empty ops).1.g_timers.count x) := by
  have hwf := reachable_WF env hlaw ops hlen
  generalize (TimerDaemon.run env TimerDaemon.empty ops).1 = d at hf hwf ⊢
  obtain ⟨hitems, disc, h1, _, _, h4⟩ := pump_spec env hlaw d now hwf.1
  obtain ⟨_, it, rest, hl, hs, hp, _, _, hperm, _, _, hnew⟩ := h4 f hf
  rw [← hp, saturated_add_eq_min, show U64_MAX = 2 ^ 64 - 1 from rfl] at hnew
  have hzero : f.period = 0 → (pump_one_element env d now).1.g_timers.Perm rest := by
    intro h0
    rw [if_pos h0] at hnew
    exact hnew
  have hpos : 0 < f.period → (pump_one_element env d now).1.g_timers.Perm
      ({ next := min (f.elem.next + f.period) (2 ^ 64 - 1), item := f.elem.item,
         stamp := f.elem.stamp } :: rest) := by
    intro h0
    rw [if_neg (by omega)] at hnew
    exact hnew
  refine ⟨hitems, ⟨disc, rest, hperm, fun x hx => (h1 x hx).1,
    WF_rest_not_live d _ hwf disc rest f.elem it hperm hl hs, hzero, hpos⟩, ?_⟩
  intro x hlive hitem
  have hxe : x ≠ f.elem := fun e => hitem (by rw [e])
  have hd : d.g_timers.count x = rest.count x := by
    rw [hperm.count_eq, List.count_append, List.count_cons_of_ne hxe]
    have : disc.count x = 0 := by
      apply List.count_eq_zero.mpr
      intro hx
      rw [(h1 x hx).1] at hlive
      cases hlive
    omega
  rw [hd]
  by_cases h0 : f.period = 0
  · exact (hzero h0).count_eq x
  · rw [(hpos (by omega)).count_eq x, List.count_cons_of_ne]
    intro e
    exact hitem (by rw [e])

/-- C26 at the sample run: the pump at 1000 dispatches the one-shot element due at 120 and
takes it out; the next pump at 1000 dispatches the periodic element due at 300 and leaves
it due at 350. -/
theorem C26_dispatch_effect_witness :
    (pump_one_element sortedEnv
        (TimerDaemon.run sortedEnv TimerDaemon.empty (timerScenario ++ [TimerOp.pump 1000])).1
        1000).2 =
      some { elem := { next := 300, item := 0, stamp := 1 }, period := 50, low_level := false,
             now := 1000 } ∧
    (pump_one_element sortedEnv
        (TimerDaemon.run sortedEnv TimerDaemon.empty (timerScenario ++ [TimerOp.pump 1000])).1
        1000).1.g_timers = [{ next := 350, item := 0, stamp := 1 }] ∧
    (pump_one_element sortedEnv
        (TimerDaemon.run sortedEnv TimerDaemon.empty (timerScenario ++ [TimerOp.pump 1000])).1
        1000).1.items =
      (TimerDaemon.run sortedEnv TimerDaemon.empty
        (timerScenario ++ [TimerOp.pump 1000])).1.items :=
  ⟨by decide, by decide,
    (C26_dispatch_effect sortedEnv sortedEnv_lawful (timerScenario ++ [TimerOp.pump 1000])
      (by decide) 1000
      { elem := { next := 300, item := 0, stamp := 1 }, period := 50, low_level := false,
        now := 1000 }
      (by decide)).1⟩

/-! ## C29: one live element for each item -/

/-- C29. In every state reached from the empty daemon by registrations,
`set_absolute_time` calls, pumps and releases (fewer than `2 ^ 64` of them, so that no stamp
wraps around), for every item at most one element of the vector refers to it with the
stamp the item has: two elements of the vector that both do are the same element, at the
same place. Hence an element that a pump dispatches was the only live element of its
item. -/
theorem C29_one_live_element (env : TimerEnv) (hlaw : env.Lawful) (ops : List TimerOp)
    (hlen : ops.length < 2 ^ 64) :
    (∀ id it, lockItem (TimerDaemon.run env TimerDaemon.empty ops).1.items id = some it →
      (TimerDaemon.run env TimerDaemon.empty ops).1.g_timers.countP
        (fun x => decide (x.item = id) && decide (x.stamp = it.stamp)) ≤ 1) ∧
    (∀ id it x y, lockItem (TimerDaemon.run env TimerDaemon.empty ops).1.items id = some it →
      x ∈ (TimerDaemon.run env TimerDaemon.empty ops).1.g_timers →
      y ∈ (TimerDaemon.run env TimerDaemon.empty ops).1.g_timers →
      x.item = id → x.stamp = it.stamp → y.item = id → y.stamp = it.stamp → x = y) ∧
    (∀ now f,
      (pump_one_element env (TimerDaemon.run env TimerDaemon.empty ops).1 now).2 = some f →
      ∀ x ∈ (TimerDaemon.run env TimerDaemon.empty ops).1.g_timers,
        x.item = f.elem.item →
        isLive (TimerDaemon.run env TimerDaemon.empty ops).1.items x = true → x = f.elem) := by
  have hwf := reachable_WF env hlaw ops hlen
  generalize (TimerDaemon.run env TimerDaemon.empty ops).1 = d at hwf ⊢
  have hcount : ∀ id it, lockItem d.items id = some it →
      d.g_timers.countP (fun x => decide (x.item = id) && decide (x.stamp = it.stamp)) ≤ 1 := by
    intro id it hl
    refine Nat.le_trans (countP_le_of_imp _ _ (liveFor d.items id) ?_) (hwf.2.2.2.2 id)
    intro x _ hx
    simp only [Bool.and_eq_true, decide_eq_true_eq] at hx
    have : isLive d.items x = true :=
      (isLive_iff d.items x).mpr ⟨it, by rw [hx.1]; exact hl, hx.2.symm⟩
    simp [liveFor, hx.1, this]
  refine ⟨hcount, ?_, ?_⟩
  · intro id it x y hl hx hy hxi hxs hyi hys
    exact countP_unique _ _ (hcount id it hl) x y hx hy (by simp [hxi, hxs]) (by simp [hyi, hys])
  · intro now f hf x hx hxi hlive
    obtain ⟨_, disc, _, _, _, h4⟩ := pump_spec env hlaw d now hwf.1
    obtain ⟨_, it, rest, hl, hs, _, _, _, hperm, _, _, _⟩ := h4 f hf
    have hfe : f.elem ∈ d.g_timers :=
      hperm.mem_iff.mpr (List.mem_append_right _ (List.mem_cons_self _ _))
    exact countP_unique _ _ (hwf.2.2.2.2 f.elem.item) x f.elem hx hfe
      (by simp [liveFor, hxi, hlive])
      (by simp [liveFor, (isLive_iff d.items f.elem).mpr ⟨it, hl, hs⟩])

/-- C29 at the sample run: the item 0, rescheduled once, has two elements in the vector,
one of them with its stamp. -/
theorem C29_one_live_element_witness :
    (TimerDaemon.run sortedEnv TimerDaemon.empty timerScenario).1.g_timers.filter
        (fun x => decide (x.item = 0)) =
      [{ next := 100, item := 0, stamp := 0 }, { next := 300, item := 0, stamp := 1 }] ∧
    (TimerDaemon.run sortedEnv TimerDaemon.empty timerScenario).1.g_timers.countP
        (fun x => decide (x.item = 0) &&
          decide (x.stamp = ({ period := 50, low_level := false, stamp := 1 } : TimerItem).stamp)) ≤
      1 :=
  ⟨by decide,
    (C29_one_live_element sortedEnv sortedEnv_lawful timerScenario (by decide)).1 0
      { period := 50, low_level := false, stamp := 1 } (by decide)⟩

/-! # The HTTP client jobs -/

/-! ## C22: `ClientJobBase::perform` -/

/-- C22. `ClientJobBase::perform`: when the client has been destroyed, no hook is called,
`forceShutdown` is not called and nothing is thrown. When the client is alive, exactly one
hook is called, the one of the job (`onResponseHeaders`, `onEntity`, `onChunkedTrailer`,
`onContentEof`) with the captured arguments; `forceShutdown` is called (once) exactly when
the hook throws something other than `TryAgainLater`; and what the hook throws,
`TryAgainLater` included, is what leaves `perform`. -/
theorem C22_client_job (client : Client) (job : ClientJob) :
    ClientJobBase.perform none job = { calls := [], forceShutdown := 0, thrown := none } ∧
    (ClientJobBase.perform (some client) job).calls = [job.hookCall] ∧
    (∀ h n, (ClientJob.ResponseHeaderJob h n).hookCall = ClientHookCall.onResponseHeaders h n) ∧
    (∀ o e, (ClientJob.EntityJob o e).hookCall = ClientHookCall.onEntity o e) ∧
    (∀ n hs, (ClientJob.ChunkedTrailerJob n hs).hookCall = ClientHookCall.onChunkedTrailer n hs) ∧
    (∀ n, (ClientJob.ContentEofJob n).hookCall = ClientHookCall.onContentEof n) ∧
    (0 < (ClientJobBase.perform (some client) job).forceShutdown ↔
      ∃ e, client job.hookCall = some e ∧ e ≠ ClientException.TryAgainLater) ∧
    (ClientJobBase.perform (some client) job).forceShutdown ≤ 1 ∧
    (ClientJobBase.perform (some client) job).thrown = client job.hookCall := by
  refine ⟨rfl, ?_, fun _ _ => rfl, fun _ _ => rfl, fun _ _ => rfl, fun _ => rfl, ?_, ?_, ?_⟩
  · cases h : client job.hookCall with
    | none => simp [ClientJobBase.perform, h]
    | some e => cases e <;> simp [ClientJobBase.perform, h]
  · cases h : client job.hookCall with
    | none => simp [ClientJobBase.perform, h]
    | some e => cases e <;> simp [ClientJobBase.perform, h]
  · cases h : client job.hookCall with
    | none => simp [ClientJobBase.perform, h]
    | some e => cases e <;> simp [ClientJobBase.perform, h]
  · cases h : client job.hookCall with
    | none => simp [ClientJobBase.perform, h]
    | some e => cases e <;> simp [ClientJobBase.perform, h]

/-- C22 at the sample client: the job of `onContentEof`, whose hook throws a
`std::exception`, shuts the client down and rethrows; the job of `onEntity`, whose hook
throws `TryAgainLater`, only rethrows. -/
theorem C22_client_job_witness :
    ClientJobBase.perform (some sampleClient) (ClientJob.ContentEofJob 7) =
      { calls := [ClientHookCall.onContentEof 7], forceShutdown := 1,
        thrown := some ClientException.stdException } ∧
    ClientJobBase.perform (some sampleClient) (ClientJob.EntityJob 0 "abc".toList) =
      { calls := [ClientHookCall.onEntity 0 "abc".toList], forceShutdown := 0,
        thrown := some ClientException.TryAgainLater } ∧
    (ClientJobBase.perform (some sampleClient) (ClientJob.EntityJob 0 "abc".toList)).thrown =
      sampleClient (ClientJob.EntityJob 0 "abc".toList).hookCall :=
  ⟨by decide, by decide,
    (C22_client_job sampleClient (ClientJob.EntityJob 0 "abc".toList)).2.2.2.2.2.2.2.2⟩

/-! # The request parser: the length limit -/

theorem onReadAvail_too_large (env : Env) (s : HttpSession) (data : Bytes)
    (hsz : s.m_totalLength + data.length < SIZE_MOD)
    (h : MAX_REQUEST_LENGTH ≤ s.m_totalLength + data.length) :
    onReadAvail env s data =
      { s with events := s.events ++ [Event.respond HTTP_REQUEST_TOO_LARGE, Event.shutdownRead] } := by
  simp only [onReadAvail, sizeAdd_small _ _ hsz, ge_iff_le, h, if_true, HttpSession.fail]

/-- A session that has rejected a chunk rejects every chunk that is too large for its
unchanged `m_totalLength`, and changes nothing but the log. -/
theorem feed_too_large (env : Env) (chunks : List Bytes) :
    ∀ s : HttpSession, allTooLarge s.m_totalLength chunks = true →
      feed env s chunks =
        { s with events := s.events ++
            (chunks.map fun _ =>
              [Event.respond HTTP_REQUEST_TOO_LARGE, Event.shutdownRead]).flatten } := by
  induction chunks with
  | nil =>
    intro s _
    simp [feed]
  | cons c cs ih =>
    intro s h
    simp only [allTooLarge, List.all_cons, Bool.and_eq_true, decide_eq_true_eq] at h
    have h1 := onReadAvail_too_large env s c h.1.2 h.1.1
    show feed env (onReadAvail env s c) cs = _
    rw [h1, ih _ (by simpa [allTooLarge] using h.2)]
    simp

/-- The request `GET /xs HTTP/1.1` with no header, given to a fresh session in one chunk
below the limit, is posted. -/
theorem onReadAvail_get (verb0 : HttpVerb) (xs : Bytes) (hx : ∀ c ∈ xs, c = 'a')
    (h : xs.length + 18 < MAX_REQUEST_LENGTH) :
    onReadAvail specEnv (HttpSession.init verb0)
        ("GET /".toList ++ xs ++ " HTTP/1.1\r\n\r\n".toList) =
      { HttpSession.init HttpVerb.HTTP_GET with
        events := [Event.pend
          { m_verb := HttpVerb.HTTP_GET, m_uri := '/' :: xs, m_getParams := [],
            m_incomingHeaders := [], m_incomingContents := [] }] } := by
  have hxn : ∀ c : Char, c ≠ 'a' → c ∉ xs := fun c hc hm => hc (hx c hm)
  have hc : "GET /".toList ++ xs ++ " HTTP/1.1\r\n\r\n".toList =
      ("GET /".toList ++ xs ++ " HTTP/1.1".toList) ++ ('\r' :: '\n' :: '\r' :: '\n' :: []) := by
    simp
  have hline : "GET /".toList ++ xs ++ " HTTP/1.1".toList =
      "GET".toList ++ ' ' :: (('/' :: xs) ++ ' ' :: "HTTP/1.1".toList) := by
    simp
  have hmem : ∀ c : Char, c ≠ 'a' → c ≠ '/' → c ∉ '/' :: xs := by
    intro c hca hcs h
    rcases List.mem_cons.mp h with h | h
    · exact hcs h
    · exact hxn c hca h
  have step := onReadAvail_finish_request specEnv (HttpSession.init verb0)
    ("GET /".toList ++ xs ++ " HTTP/1.1".toList) [] ('/' :: xs) rfl rfl
    (by
      simp only [HttpSession.init, List.length_append, List.length_cons, List.length_nil]
      simp only [MAX_REQUEST_LENGTH] at h ⊢
      have : "GET /".toList.length = 5 := by decide
      have : " HTTP/1.1".toList.length = 9 := by decide
      omega)
    (by
      intro h
      rcases List.mem_append.mp h with h | h
      · rcases List.mem_append.mp h with h | h
        · revert h
          decide
        · exact hxn _ (by decide) h
      · revert h
        decide)
    (by simp [HttpSession.init])
    (by
      show explode ' ' ([] ++ ("GET /".toList ++ xs ++ " HTTP/1.1".toList)) 3 = _
      rw [List.nil_append, hline]
      exact explode_three _ _ _ (by decide) (hmem ' ' (by decide) (by decide)) (by decide))
    rfl (hmem '?' (by decide) (by decide)) (by simp)
  rw [hc, step]
  rfl

/-! ## C24: the largest request that is not rejected -/

/-- C24, amended. A fresh session does not respond 413 to a chunk of at most 16383 bytes:
the loop runs on it with `m_totalLength` set to its size, and no 413 is in the log
afterwards. It responds 413, shuts the read side and does nothing else for every chunk of
16384 bytes or more. -/
theorem C24_length_limit (env : Env) (verb0 : HttpVerb) (data : Bytes) :
    (data.length ≤ 16383 →
      onReadAvail env (HttpSession.init verb0) data =
        readLoop env { HttpSession.init verb0 with m_totalLength := data.length } data ∧
      Event.respond HTTP_REQUEST_TOO_LARGE ∉ (onReadAvail env (HttpSession.init verb0) data).events) ∧
    (16384 ≤ data.length → data.length < SIZE_MOD →
      onReadAvail env (HttpSession.init verb0) data =
        { HttpSession.init verb0 with
          events := [Event.respond HTTP_REQUEST_TOO_LARGE, Event.shutdownRead] }) := by
  have h0 : (HttpSession.init verb0).m_totalLength = 0 := rfl
  constructor
  · intro h
    have hp := onReadAvail_pass env (HttpSession.init verb0) data
      (by rw [h0]; simp only [MAX_REQUEST_LENGTH]; omega)
    have hp2 : onReadAvail env (HttpSession.init verb0) data =
        readLoop env { HttpSession.init verb0 with m_totalLength := data.length } data := by
      rw [hp, h0, Nat.zero_add]
    refine ⟨hp2, ?_⟩
    rw [hp2]
    obtain ⟨new, he, hnew⟩ := readLoop_events
      (fun e => e ≠ Event.respond HTTP_REQUEST_TOO_LARGE)
      (by decide) (by decide) (by decide) (by simp) (by simp)
      env { HttpSession.init verb0 with m_totalLength := data.length } data
    rw [he]
    intro hm
    rcases List.mem_append.mp hm with hm | hm
    · simp [HttpSession.init] at hm
    · exact hnew _ hm rfl
  · intro h hsz
    rw [onReadAvail_too_large env (HttpSession.init verb0) data
      (by rw [h0]; omega) (by rw [h0]; simp only [MAX_REQUEST_LENGTH]; omega)]
    rfl

/-- C24 (amended) at the request `GET /aa...a HTTP/1.1` of 16383 bytes, which is posted,
and at the same request one byte longer, which is rejected. -/
theorem C24_length_limit_witness :
    ("GET /".toList ++ List.replicate 16365 'a' ++ " HTTP/1.1\r\n\r\n".toList).length = 16383 ∧
    Event.respond HTTP_REQUEST_TOO_LARGE ∉
      (onReadAvail specEnv (HttpSession.init HttpVerb.HTTP_INVALID_VERB)
        ("GET /".toList ++ List.replicate 16365 'a' ++ " HTTP/1.1\r\n\r\n".toList)).events ∧
    onReadAvail specEnv (HttpSession.init HttpVerb.HTTP_INVALID_VERB)
        ("GET /".toList ++ List.replicate 16365 'a' ++ " HTTP/1.1\r\n\r\n".toList) =
      { HttpSession.init HttpVerb.HTTP_GET with
        events := [Event.pend
          { m_verb := HttpVerb.HTTP_GET, m_uri := '/' :: List.replicate 16365 'a',
            m_getParams := [], m_incomingHeaders := [], m_incomingContents := [] }] } ∧
    onReadAvail specEnv (HttpSession.init HttpVerb.HTTP_INVALID_VERB)
        ("GET /".toList ++ List.replicate 16366 'a' ++ " HTTP/1.1\r\n\r\n".toList) =
      { HttpSession.init HttpVerb.HTTP_INVALID_VERB with
        events := [Event.respond HTTP_REQUEST_TOO_LARGE, Event.shutdownRead] } := by
  have hlen : ∀ n, ("GET /".toList ++ List.replicate n 'a' ++
      " HTTP/1.1\r\n\r\n".toList).length = n + 18 := by
    intro n
    rw [List.length_append, List.length_append, List.length_replicate]
    have h1 : "GET /".toList.length = 5 := rfl
    have h2 : " HTTP/1.1\r\n\r\n".toList.length = 13 := rfl
    omega
  exact ⟨hlen 16365,
    ((C24_length_limit specEnv HttpVerb.HTTP_INVALID_VERB
      ("GET /".toList ++ List.replicate 16365 'a' ++ " HTTP/1.1\r\n\r\n".toList)).1
      (by rw [hlen])).2,
    onReadAvail_get _ _ (fun c h => List.eq_of_mem_replicate h)
      (by rw [List.length_replicate]; decide),
    (C24_length_limit specEnv HttpVerb.HTTP_INVALID_VERB
      ("GET /".toList ++ List.replicate 16366 'a' ++ " HTTP/1.1\r\n\r\n".toList)).2
      (by rw [hlen]) (by rw [hlen]; decide)⟩

/-- A fresh session rejects every chunk of 16384 bytes. -/
theorem onReadAvail_max_length (env : Env) (verb0 : HttpVerb) (data : Bytes)
    (hd : data.length = 16384) :
    onReadAvail env (HttpSession.init verb0) data =
      { HttpSession.init verb0 with
        events := [Event.respond HTTP_REQUEST_TOO_LARGE, Event.shutdownRead] } := by
  have h0 : (HttpSession.init verb0).m_totalLength = 0 := rfl
  rw [onReadAvail_too_large env (HttpSession.init verb0) data
    (by rw [h0, hd]; decide) (by rw [h0, hd]; decide)]
  rfl

/-- C24 as worded fails: the request `GET /aa...a HTTP/1.1` with no header, exactly 16384
bytes long with its line ends, is given to a fresh session in one chunk; the test
`m_totalLength + size >= MAX_REQUEST_LENGTH` of line 195 holds (`0 + 16384 >= 16384`), the
session responds 413, shuts the read side and posts nothing. -/
theorem C24_counterexample :
    MAX_REQUEST_LENGTH = 16384 ∧
    ("GET /".toList ++ List.replicate 16366 'a' ++ " HTTP/1.1\r\n\r\n".toList).length = 16384 ∧
    onReadAvail specEnv (HttpSession.init HttpVerb.HTTP_INVALID_VERB)
        ("GET /".toList ++ List.replicate 16366 'a' ++ " HTTP/1.1\r\n\r\n".toList) =
      { HttpSession.init HttpVerb.HTTP_INVALID_VERB with
        events := [Event.respond HTTP_REQUEST_TOO_LARGE, Event.shutdownRead] } := by
  have hlen : ("GET /".toList ++ List.replicate 16366 'a' ++
      " HTTP/1.1\r\n\r\n".toList).length = 16384 := by
    rw [List.length_append, List.length_append, List.length_replicate]
    rfl
  exact ⟨rfl, hlen, onReadAvail_max_length _ _ _ hlen⟩

/-! ## C23: after a 413 -/

/-- C23, amended. The call that responds 413 shuts the read side, posts nothing and
changes no field of the parser. From then on every chunk of `n` bytes with
`total_len + n >= 16384`, `total_len` being what it was before the rejected call, is
rejected in the same way: whatever the number of such calls, the posted jobs are those
posted before, and state, `total_len`, line, uri, parameters and headers are unchanged. -/
theorem C23_after_rejection (env : Env) (s : HttpSession) (data : Bytes) (chunks : List Bytes)
    (hsz : s.m_totalLength + data.length < SIZE_MOD)
    (hbig : MAX_REQUEST_LENGTH ≤ s.m_totalLength + data.length)
    (hchunks : allTooLarge s.m_totalLength chunks = true) :
    onReadAvail env s data =
      { s with events := s.events ++ [Event.respond HTTP_REQUEST_TOO_LARGE, Event.shutdownRead] } ∧
    postedJobs (onReadAvail env s data) = postedJobs s ∧
    postedJobs (feed env (onReadAvail env s data) chunks) = postedJobs s ∧
    feed env (onReadAvail env s data) chunks =
      { s with events := s.events ++
          ((data :: chunks).map fun _ =>
            [Event.respond HTTP_REQUEST_TOO_LARGE, Event.shutdownRead]).flatten } := by
  have h1 := onReadAvail_too_large env s data hsz hbig
  have h2 : feed env (onReadAvail env s data) chunks =
      { s with events := s.events ++
          ((data :: chunks).map fun _ =>
            [Event.respond HTTP_REQUEST_TOO_LARGE, Event.shutdownRead]).flatten } := by
    rw [h1, feed_too_large env chunks
      { s with events := s.events ++ [Event.respond HTTP_REQUEST_TOO_LARGE, Event.shutdownRead] }
      hchunks]
    simp
  have h3 : ∀ l : List Bytes, List.filterMap Event.pended
      (l.map fun _ => [Event.respond HTTP_REQUEST_TOO_LARGE, Event.shutdownRead]).flatten = [] := by
    intro l
    induction l with
    | nil => rfl
    | cons c cs ih =>
      simp only [List.map_cons, List.flatten_cons, List.filterMap_append, ih]
      rfl
  refine ⟨h1, ?_, ?_, h2⟩
  · rw [h1]
    simp [postedJobs, Event.pended]
  · rw [h2]
    simp only [postedJobs, List.filterMap_append, h3, List.append_nil]

/-- C23 (amended) at a session that has buffered `GET /` and is given a chunk that brings
the total to the limit, and then two more chunks as long. -/
theorem C23_after_rejection_witness :
    postedJobs
        (feed specEnv
          (onReadAvail specEnv
            { HttpSession.init HttpVerb.HTTP_GET with
              m_totalLength := 16380, m_line := "GET /".toList }
            "abcd".toList)
          ["efgh".toList, "ijklmnop".toList]) =
      postedJobs
        { HttpSession.init HttpVerb.HTTP_GET with
          m_totalLength := 16380, m_line := "GET /".toList } ∧
    (onReadAvail specEnv
        { HttpSession.init HttpVerb.HTTP_GET with
          m_totalLength := 16380, m_line := "GET /".toList }
        "abcd".toList).events =
      [Event.respond HTTP_REQUEST_TOO_LARGE, Event.shutdownRead] :=
  ⟨(C23_after_rejection specEnv
      { HttpSession.init HttpVerb.HTTP_GET with
        m_totalLength := 16380, m_line := "GET /".toList }
      "abcd".toList ["efgh".toList, "ijklmnop".toList] (by decide) (by decide) (by decide)).2.2.1,
    by decide⟩

/-- A fresh session that has rejected a chunk of 16384 bytes parses a request that
`onReadAvail` is given afterwards. -/
theorem feed_after_too_large (big : Bytes) (hlen : big.length = 16384) :
    (feed specEnv (HttpSession.init HttpVerb.HTTP_INVALID_VERB) [big]).events =
      [Event.respond HTTP_REQUEST_TOO_LARGE, Event.shutdownRead] ∧
    postedJobs (feed specEnv (HttpSession.init HttpVerb.HTTP_INVALID_VERB) [big]) = [] ∧
    postedJobs (feed specEnv (HttpSession.init HttpVerb.HTTP_INVALID_VERB)
        [big, "GET / HTTP/1.1\r\n\r\n".toList]) =
      [{ m_verb := HttpVerb.HTTP_GET, m_uri := "/".toList, m_getParams := [],
         m_incomingHeaders := [], m_incomingContents := [] }] := by
  have h0 : (HttpSession.init HttpVerb.HTTP_INVALID_VERB).m_totalLength = 0 := rfl
  have h1 : onReadAvail specEnv (HttpSession.init HttpVerb.HTTP_INVALID_VERB) big =
      { HttpSession.init HttpVerb.HTTP_INVALID_VERB with
        events := [Event.respond HTTP_REQUEST_TOO_LARGE, Event.shutdownRead] } := by
    rw [onReadAvail_too_large specEnv _ _ (by rw [h0, hlen]; decide) (by rw [h0, hlen]; decide)]
    rfl
  refine ⟨?_, ?_, ?_⟩
  · show (onReadAvail specEnv _ big).events = _
    rw [h1]
  · show postedJobs (onReadAvail specEnv _ big) = _
    rw [h1]
    rfl
  · show postedJobs (onReadAvail specEnv (onReadAvail specEnv _ big) _) = _
    rw [h1]
    decide

/-- C23 as worded fails: a fresh session is given a chunk of 16384 bytes, responds 413 and
shuts the read side; `onReadAvail` is then called with the 18 bytes of `GET / HTTP/1.1` and
an empty line, which pass the test of line 195 (`0 + 18 < 16384`), are parsed, and post a
request. -/
theorem C23_counterexample :
    (feed specEnv (HttpSession.init HttpVerb.HTTP_INVALID_VERB)
        [List.replicate 16384 'a']).events =
      [Event.respond HTTP_REQUEST_TOO_LARGE, Event.shutdownRead] ∧
    postedJobs (feed specEnv (HttpSession.init HttpVerb.HTTP_INVALID_VERB)
        [List.replicate 16384 'a']) = [] ∧
    postedJobs (feed specEnv (HttpSession.init HttpVerb.HTTP_INVALID_VERB)
        [List.replicate 16384 'a', "GET / HTTP/1.1\r\n\r\n".toList]) =
      [{ m_verb := HttpVerb.HTTP_GET, m_uri := "/".toList, m_getParams := [],
         m_incomingHeaders := [], m_incomingContents := [] }] :=
  feed_after_too_large (List.replicate 16384 'a') (List.length_replicate _ _)

/-! # The request parser: a session whose `m_contentLength` is 0 -/

/-- With `m_contentLength = 0` and an empty line buffer, the body block posts the request
at once, with an empty body, and reads nothing. -/
theorem contentsAndClear_zero (s : HttpSession) (data : Bytes)
    (hst : s.m_state = State.ST_CONTENTS) (hc : s.m_contentLength = 0) (hl : s.m_line = []) :
    contentsAndClear s data = Flow.next (s.posted []) data := by
  have h0 : sizeSub s.m_contentLength s.m_line.length = 0 := by
    rw [hc, hl]
    rfl
  rw [contentsAndClear_full s data hst (by rw [h0]; omega), h0, hl]
  simp

theorem firstHeaderLine_withRest (env : Env) (s : HttpSession) (rest : Bytes) :
    firstHeaderLine env s rest = (firstHeaderLine env s []).withRest rest := by
  unfold firstHeaderLine
  by_cases hl : s.m_line = []
  · simp [hl, Flow.withRest]
  · simp only [hl, if_false]
    split
    · split
      · rfl
      · split
        · rfl
        · split
          · rfl
          · rw [contentsAndClear_other _ rest (by simp), contentsAndClear_other _ [] (by simp)]
            rfl
    · rfl

theorem headerLine_withRest (s : HttpSession) (rest : Bytes) (hc : s.m_contentLength = 0)
    (hst : s.m_state ≠ State.ST_CONTENTS) :
    headerLine s rest = (headerLine s []).withRest rest := by
  by_cases hl : s.m_line = []
  · rw [headerLine_blank s rest hl, headerLine_blank s [] hl,
      contentsAndClear_zero { s with m_state := State.ST_CONTENTS } rest rfl hc hl,
      contentsAndClear_zero { s with m_state := State.ST_CONTENTS } [] rfl hc hl]
    rfl
  · unfold headerLine
    simp only [ne_eq, hl, not_false_eq_true, if_true]
    split
    · rfl
    · rw [contentsAndClear_other _ rest (by simpa using hst),
        contentsAndClear_other _ [] (by simpa using hst)]
      rfl

/-- In a session with `m_contentLength = 0` whose state is not `ST_CONTENTS`, a pass of the
loop reads exactly one byte, and what it does to the session does not depend on the bytes
that follow. -/
theorem iteration_withRest (env : Env) (s : HttpSession) (ch : Char) (rest : Bytes)
    (h : s.NoBody) : iteration env s ch rest = (iteration env s ch []).withRest rest := by
  by_cases hch : ch = '\n'
  · subst hch
    cases hs : s.m_state with
    | ST_FIRST_HEADER =>
      rw [iteration_newline_first env s rest hs, iteration_newline_first env s [] hs]
      exact firstHeaderLine_withRest env _ rest
    | ST_HEADERS =>
      rw [iteration_newline_headers env s rest hs, iteration_newline_headers env s [] hs]
      exact headerLine_withRest _ rest h.1 (by simp [hs])
    | ST_CONTENTS => exact absurd hs h.2
  · rw [iteration_plain env s ch rest h.2 hch, iteration_plain env s ch [] h.2 hch]
    rfl

theorem setUri_contentLength (env : Env) (s : HttpSession) (p1 : Bytes) :
    (s.setUri env p1).m_contentLength = s.m_contentLength := by
  unfold HttpSession.setUri
  split <;> rfl

theorem setUri_state (env : Env) (s : HttpSession) (p1 : Bytes) :
    (s.setUri env p1).m_state = s.m_state := by
  unfold HttpSession.setUri
  split <;> rfl

theorem firstHeaderLine_stepOf (env : Env) (s : HttpSession) (rest : Bytes)
    (hst : s.m_state = State.ST_FIRST_HEADER) (hc : s.m_contentLength = 0) (ev : List Event)
    (hev : s.events = ev) (t : HttpSession) (ht : t.events = ev) :
    (firstHeaderLine env s rest).StepOf t := by
  unfold firstHeaderLine
  by_cases hl : s.m_line = []
  · simp [hl, Flow.StepOf, HttpSession.NoBody, hc, hst, hev, ht]
  · simp only [hl, if_false]
    split
    · split
      · simp [Flow.StepOf, HttpSession.NoBody, HttpSession.fail, hc, hst, hev, ht]
      · split
        · simp [Flow.StepOf, HttpSession.NoBody, HttpSession.fail, hc, hst, hev, ht]
        · split
          · simp only [Flow.StepOf, HttpSession.NoBody, HttpSession.fail]
            refine ⟨⟨?_, ?_⟩, HTTP_VERSION_NOT_SUP, ?_⟩
            · rw [setUri_contentLength]
              exact hc
            · rw [setUri_state]
              simp [hst]
            · rw [setUri_events, ht]
              exact congrArg (· ++ _) hev
          · rw [contentsAndClear_other _ rest (by simp)]
            simp only [Flow.StepOf, HttpSession.NoBody]
            refine ⟨⟨?_, by simp⟩, Or.inl ?_⟩
            · show (HttpSession.setUri env _ _).m_contentLength = 0
              rw [setUri_contentLength]
              exact hc
            · show (HttpSession.setUri env _ _).events = _
              rw [setUri_events, ht]
              exact hev
    · simp [Flow.StepOf, HttpSession.NoBody, HttpSession.fail, hc, hst, hev, ht]

theorem headerLine_stepOf (s : HttpSession) (rest : Bytes)
    (hst : s.m_state = State.ST_HEADERS) (hc : s.m_contentLength = 0) (ev : List Event)
    (hev : s.events = ev) (t : HttpSession) (ht : t.events = ev) :
    (headerLine s rest).StepOf t := by
  by_cases hl : s.m_line = []
  · rw [headerLine_blank s rest hl,
      contentsAndClear_zero { s with m_state := State.ST_CONTENTS } rest rfl hc hl]
    simp only [Flow.StepOf, HttpSession.NoBody, HttpSession.posted]
    exact ⟨⟨trivial, by simp⟩, Or.inr ⟨_, by rw [ht, ← hev], rfl⟩⟩
  · unfold headerLine
    simp only [ne_eq, hl, not_false_eq_true, if_true]
    split
    · simp [Flow.StepOf, HttpSession.NoBody, HttpSession.fail, hc, hst, hev, ht]
    · rw [contentsAndClear_other _ rest (by simp [hst])]
      simp [Flow.StepOf, HttpSession.NoBody, hc, hst, hev, ht]

/-- A pass of the loop from a session with `m_contentLength = 0` that is not in state
`ST_CONTENTS` leaves such a session; it posts at most one request, with an empty body, or
returns after an error response. -/
theorem iteration_stepOf (env : Env) (s : HttpSession) (ch : Char) (rest : Bytes)
    (h : s.NoBody) : (iteration env s ch rest).StepOf s := by
  by_cases hch : ch = '\n'
  · subst hch
    cases hs : s.m_state with
    | ST_FIRST_HEADER =>
      rw [iteration_newline_first env s rest hs]
      exact firstHeaderLine_stepOf env { s with m_line := trimCR s.m_line } rest hs h.1
        s.events rfl s rfl
    | ST_HEADERS =>
      rw [iteration_newline_headers env s rest hs]
      exact headerLine_stepOf { s with m_line := trimCR s.m_line } rest hs h.1
        s.events rfl s rfl
    | ST_CONTENTS => exact absurd hs h.2
  · rw [iteration_plain env s ch rest h.2 hch]
    exact ⟨⟨h.1, h.2⟩, Or.inl rfl⟩

/-- The cases of a pass, in the form the proofs about the loop use. -/
theorem iteration_cases (env : Env) (s : HttpSession) (ch : Char) (rest : Bytes)
    (h : s.NoBody) :
    (∃ s1, iteration env s ch rest = Flow.next s1 rest ∧
      (∀ rest2, iteration env s ch rest2 = Flow.next s1 rest2) ∧ s1.NoBody ∧
      errorCount s1 = errorCount s ∧
      (s1.events = s.events ∨
        ∃ job, s1.events = s.events ++ [Event.pend job] ∧ job.m_incomingContents = [])) ∨
    (∃ s1, iteration env s ch rest = Flow.stop s1 ∧
      (∀ rest2, iteration env s ch rest2 = Flow.stop s1) ∧ s1.NoBody ∧
      errorCount s1 = errorCount s + 1) := by
  have hw : ∀ r, iteration env s ch r = (iteration env s ch []).withRest r :=
    fun r => iteration_withRest env s ch r h
  have hs := iteration_stepOf env s ch [] h
  cases hi : iteration env s ch [] with
  | next s1 r1 =>
    rw [hi] at hs
    left
    refine ⟨s1, by rw [hw rest, hi]; rfl, fun r => by rw [hw r, hi]; rfl, hs.1, ?_, hs.2⟩
    rcases hs.2 with he | ⟨job, he, _⟩
    · simp [errorCount, he]
    · simp [errorCount, he, List.countP_append, Event.isRespond]
  | stop s1 =>
    rw [hi] at hs
    right
    refine ⟨s1, by rw [hw rest, hi]; rfl, fun r => by rw [hw r, hi]; rfl, hs.1, ?_⟩
    obtain ⟨status, he⟩ := hs.2
    simp [errorCount, he, List.countP_append, Event.isRespond]


/-- The loop keeps `m_contentLength = 0` and a state other than `ST_CONTENTS`, never takes
an error response back, and posts requests with empty bodies only. -/
theorem readLoop_noBody (env : Env) (data : Bytes) :
    ∀ s : HttpSession, s.NoBody →
      (readLoop env s data).NoBody ∧ errorCount s ≤ errorCount (readLoop env s data) ∧
      ∀ job, Event.pend job ∈ (readLoop env s data).events →
        Event.pend job ∈ s.events ∨ job.m_incomingContents = [] := by
  induction data with
  | nil =>
    intro s h
    rw [readLoop_nil]
    exact ⟨h, Nat.le_refl _, fun job hj => Or.inl hj⟩
  | cons ch rest ih =>
    intro s h
    rcases iteration_cases env s ch rest h with ⟨s1, hi, _, hn, he, hev⟩ | ⟨s1, hi, _, hn, he⟩
    · rw [readLoop_next env s s1 ch rest rest hi]
      obtain ⟨h1, h2, h3⟩ := ih s1 hn
      refine ⟨h1, by omega, ?_⟩
      intro job hj
      rcases h3 job hj with hj1 | hj1
      · rcases hev with hev | ⟨job2, hev, hb⟩
        · rw [hev] at hj1
          exact Or.inl hj1
        · rw [hev] at hj1
          rcases List.mem_append.mp hj1 with hj2 | hj2
          · exact Or.inl hj2
          · simp only [List.mem_singleton, Event.pend.injEq] at hj2
            rw [hj2]
            exact Or.inr hb
      · exact Or.inr hj1
    · rw [readLoop_stop env s s1 ch rest hi]
      have hs := iteration_stepOf env s ch rest h
      rw [hi] at hs
      obtain ⟨status, hev⟩ := hs.2
      refine ⟨hn, by omega, ?_⟩
      intro job hj
      rw [hev] at hj
      rcases List.mem_append.mp hj with hj2 | hj2
      · exact Or.inl hj2
      · simp at hj2

/-- Reading `a ++ b` is reading `a` and then `b`, unless the loop returns while it reads
`a`. -/
theorem readLoop_append (env : Env) (a b : Bytes) :
    ∀ s : HttpSession, s.NoBody →
      readLoop env s (a ++ b) =
        if errorCount (readLoop env s a) = errorCount s then
          readLoop env (readLoop env s a) b
        else readLoop env s a := by
  induction a with
  | nil =>
    intro s _
    simp [readLoop_nil]
  | cons ch rest ih =>
    intro s h
    rcases iteration_cases env s ch rest h with ⟨s1, hi, hall, hn, he, _⟩ | ⟨s1, hi, hall, hn, he⟩
    · rw [List.cons_append, readLoop_next env s s1 ch (rest ++ b) (rest ++ b) (hall _),
        readLoop_next env s s1 ch rest rest hi, ih s1 hn, he]
    · rw [List.cons_append, readLoop_stop env s s1 ch (rest ++ b) (hall _),
        readLoop_stop env s s1 ch rest hi, if_neg (by omega)]

theorem onReadAvail_cases (env : Env) (s : HttpSession) (data : Bytes) :
    onReadAvail env s data = s.fail HTTP_REQUEST_TOO_LARGE ∨
    ∃ total, onReadAvail env s data = readLoop env { s with m_totalLength := total } data := by
  unfold onReadAvail
  split
  · exact Or.inl rfl
  · exact Or.inr ⟨_, rfl⟩

theorem errorCount_fail (s : HttpSession) (status : HttpStatus) :
    errorCount (s.fail status) = errorCount s + 1 := by
  simp [errorCount, HttpSession.fail, List.countP_append, Event.isRespond]

theorem onReadAvail_noBody (env : Env) (s : HttpSession) (data : Bytes) (h : s.NoBody) :
    (onReadAvail env s data).NoBody ∧ errorCount s ≤ errorCount (onReadAvail env s data) ∧
    ∀ job, Event.pend job ∈ (onReadAvail env s data).events →
      Event.pend job ∈ s.events ∨ job.m_incomingContents = [] := by
  rcases onReadAvail_cases env s data with h1 | ⟨total, h1⟩
  · rw [h1]
    refine ⟨h, by rw [errorCount_fail]; omega, ?_⟩
    intro job hj
    simp only [HttpSession.fail, List.mem_append] at hj
    rcases hj with hj | hj
    · exact Or.inl hj
    · simp at hj
  · rw [h1]
    exact readLoop_noBody env data { s with m_totalLength := total } h

theorem feed_noBody (env : Env) (chunks : List Bytes) :
    ∀ s : HttpSession, s.NoBody →
      (feed env s chunks).NoBody ∧ errorCount s ≤ errorCount (feed env s chunks) ∧
      ∀ job, Event.pend job ∈ (feed env s chunks).events →
        Event.pend job ∈ s.events ∨ job.m_incomingContents = [] := by
  induction chunks with
  | nil =>
    intro s h
    exact ⟨h, Nat.le_refl _, fun job hj => Or.inl hj⟩
  | cons c cs ih =>
    intro s h
    obtain ⟨h1, h2, h3⟩ := onReadAvail_noBody env s c h
    obtain ⟨h4, h5, h6⟩ := ih (onReadAvail env s c) h1
    refine ⟨h4, Nat.le_trans h2 h5, ?_⟩
    intro job hj
    rcases h6 job hj with hj1 | hj1
    · exact h3 job hj1
    · exact Or.inr hj1


theorem mem_postedJobs (s : HttpSession) (job : HttpRequestJob) :
    job ∈ postedJobs s ↔ Event.pend job ∈ s.events := by
  unfold postedJobs
  rw [List.mem_filterMap]
  constructor
  · rintro ⟨e, he, hj⟩
    cases e with
    | pend j =>
      simp only [Event.pended, Option.some.injEq] at hj
      rw [← hj]
      exact he
    | respond st => simp [Event.pended] at hj
    | shutdownRead => simp [Event.pended] at hj
  · intro h
    exact ⟨_, h, rfl⟩

theorem init_noBody (verb0 : HttpVerb) : (HttpSession.init verb0).NoBody :=
  ⟨rfl, by simp [HttpSession.init]⟩

/-- The blank line that ends the headers, in a session with `m_contentLength = 0`: the
request is posted in the same pass, with an empty body. -/
theorem iteration_blank_zero (env : Env) (s : HttpSession) (rest : Bytes)
    (hc : s.m_contentLength = 0) (hst : s.m_state = State.ST_HEADERS)
    (hblank : trimCR s.m_line = []) :
    iteration env s '\n' rest = Flow.next (s.posted []) rest := by
  rw [iteration_newline_headers env s rest hst,
    headerLine_blank { s with m_line := trimCR s.m_line } rest hblank,
    contentsAndClear_zero
      { s with m_line := trimCR s.m_line, m_state := State.ST_CONTENTS } rest rfl hc hblank]
  rfl

/-! ## C27: `m_contentLength` is never set -/

/-- C27. Whatever chunks a fresh session is given, `m_contentLength` is 0 and the state is
not `ST_CONTENTS` when `onReadAvail` returns, and every request posted has an empty body.
Every pass of the loop keeps this: from a session with `m_contentLength = 0` that is not in
state `ST_CONTENTS` it leaves such a session and reads exactly one byte. In such a session
in state `ST_HEADERS`, the line feed of a blank line posts the request in the same pass,
with an empty body, leaves the state `ST_FIRST_HEADER`, and the loop goes on with the bytes
that follow. -/
theorem C27_content_length_zero (env : Env) (verb0 : HttpVerb) (chunks : List Bytes) :
    (feed env (HttpSession.init verb0) chunks).m_contentLength = 0 ∧
    (feed env (HttpSession.init verb0) chunks).m_state ≠ State.ST_CONTENTS ∧
    (∀ job ∈ postedJobs (feed env (HttpSession.init verb0) chunks),
      job.m_incomingContents = []) ∧
    (∀ (s : HttpSession) (ch : Char) (rest : Bytes),
      s.m_contentLength = 0 → s.m_state ≠ State.ST_CONTENTS →
      (iteration env s ch rest).session.m_contentLength = 0 ∧
      (iteration env s ch rest).session.m_state ≠ State.ST_CONTENTS ∧
      (iteration env s ch rest = Flow.next (iteration env s ch rest).session rest ∨
        iteration env s ch rest = Flow.stop (iteration env s ch rest).session)) ∧
    (∀ (s : HttpSession) (rest : Bytes),
      s.m_contentLength = 0 → s.m_state = State.ST_HEADERS → trimCR s.m_line = [] →
      iteration env s '\n' rest = Flow.next (s.posted []) rest ∧
      (s.posted []).m_state = State.ST_FIRST_HEADER ∧ (s.posted []).m_line = [] ∧
      readLoop env s ('\n' :: rest) = readLoop env (s.posted []) rest) := by
  obtain ⟨h1, _, h3⟩ := feed_noBody env chunks (HttpSession.init verb0) (init_noBody verb0)
  refine ⟨h1.1, h1.2, ?_, ?_, ?_⟩
  · intro job hj
    rcases h3 job ((mem_postedJobs _ job).mp hj) with h | h
    · simp [HttpSession.init] at h
    · exact h
  · intro s ch rest hc hst
    rcases iteration_cases env s ch rest ⟨hc, hst⟩ with ⟨s1, hi, _, hn, _, _⟩ | ⟨s1, hi, _, hn, _⟩
    · rw [hi]
      exact ⟨hn.1, hn.2, Or.inl rfl⟩
    · rw [hi]
      exact ⟨hn.1, hn.2, Or.inr rfl⟩
  · intro s rest hc hst hblank
    have hi := iteration_blank_zero env s rest hc hst hblank
    exact ⟨hi, rfl, rfl, readLoop_next env s _ '\n' rest rest hi⟩

/-- C27 at a request that carries `Content-Length: 5` and five more bytes: the request is
posted with an empty body at the blank line and the five bytes are buffered as the start of
the next request line. -/
theorem C27_content_length_zero_witness :
    feed specEnv (HttpSession.init HttpVerb.HTTP_INVALID_VERB)
        ["POST /x HTTP/1.1\r\nContent-Length: 5\r\n\r\nhello".toList] =
      { HttpSession.init HttpVerb.HTTP_POST with
        m_line := "hello".toList,
        events := [Event.pend
          { m_verb := HttpVerb.HTTP_POST, m_uri := "/x".toList, m_getParams := [],
            m_incomingHeaders := [("Content-Length".toList, "5".toList)],
            m_incomingContents := [] }] } ∧
    (feed specEnv (HttpSession.init HttpVerb.HTTP_INVALID_VERB)
        ["POST /x HTTP/1.1\r\nContent-Length: 5\r\n\r\nhello".toList]).m_contentLength = 0 :=
  ⟨by decide,
    (C27_content_length_zero specEnv HttpVerb.HTTP_INVALID_VERB
      ["POST /x HTTP/1.1\r\nContent-Length: 5\r\n\r\nhello".toList]).1⟩


/-! # The request parser: the loop does not read `m_totalLength` -/

theorem firstHeaderLine_zeroTotal (env : Env) (s : HttpSession) (rest : Bytes) :
    (firstHeaderLine env s rest).zeroTotal = (firstHeaderLine env s.zeroTotal rest).zeroTotal := by
  unfold firstHeaderLine
  by_cases hl : s.m_line = []
  · have hl2 : s.zeroTotal.m_line = [] := hl
    simp only [hl, hl2, if_true]
    rfl
  · have hl2 : ¬ s.zeroTotal.m_line = [] := hl
    have hline : s.zeroTotal.m_line = s.m_line := rfl
    simp only [hl, hl2, if_false, hline]
    split
    · split
      · rfl
      · split
        · rfl
        · split
          · simp only [Flow.zeroTotal, HttpSession.zeroTotal, HttpSession.fail,
              HttpSession.setUri]
            split <;> rfl
          · rw [contentsAndClear_other _ rest (by simp), contentsAndClear_other _ rest (by simp)]
            simp only [Flow.zeroTotal, HttpSession.zeroTotal, HttpSession.setUri]
            split <;> rfl
    · rfl

theorem headerLine_zeroTotal (s : HttpSession) (rest : Bytes)
    (hc : s.m_contentLength = 0) (hst : s.m_state ≠ State.ST_CONTENTS) :
    (headerLine s rest).zeroTotal = (headerLine s.zeroTotal rest).zeroTotal := by
  by_cases hl : s.m_line = []
  · rw [headerLine_blank s rest hl, headerLine_blank s.zeroTotal rest hl,
      contentsAndClear_zero { s with m_state := State.ST_CONTENTS } rest rfl hc hl,
      contentsAndClear_zero { s.zeroTotal with m_state := State.ST_CONTENTS } rest rfl hc hl]
    rfl
  · unfold headerLine
    have hl2 : ¬ s.zeroTotal.m_line = [] := hl
    have hline : s.zeroTotal.m_line = s.m_line := rfl
    simp only [ne_eq, hl, hl2, not_false_eq_true, if_true, hline]
    split
    · rfl
    · rw [contentsAndClear_other _ rest (by simpa using hst),
        contentsAndClear_other _ rest (by simpa [HttpSession.zeroTotal] using hst)]
      rfl

/-- A pass of the loop does the same to two sessions that differ in `m_totalLength`
only. -/
theorem iteration_zeroTotal (env : Env) (s : HttpSession) (ch : Char) (rest : Bytes)
    (h : s.NoBody) :
    (iteration env s ch rest).zeroTotal = (iteration env s.zeroTotal ch rest).zeroTotal := by
  have hz : s.zeroTotal.m_state = s.m_state := rfl
  by_cases hch : ch = '\n'
  · subst hch
    cases hs : s.m_state with
    | ST_FIRST_HEADER =>
      rw [iteration_newline_first env s rest hs,
        iteration_newline_first env s.zeroTotal rest (by rw [hz, hs])]
      exact firstHeaderLine_zeroTotal env { s with m_line := trimCR s.m_line } rest
    | ST_HEADERS =>
      rw [iteration_newline_headers env s rest hs,
        iteration_newline_headers env s.zeroTotal rest (by rw [hz, hs])]
      exact headerLine_zeroTotal { s with m_line := trimCR s.m_line } rest h.1 (by simp [hs])
    | ST_CONTENTS => exact absurd hs h.2
  · rw [iteration_plain env s ch rest h.2 hch,
      iteration_plain env s.zeroTotal ch rest (by rw [hz]; exact h.2) hch]
    rfl

/-- The loop does the same to two sessions that differ in `m_totalLength` only. -/
theorem readLoop_zeroTotal (env : Env) (data : Bytes) :
    ∀ s t : HttpSession, s.NoBody → s.zeroTotal = t.zeroTotal →
      (readLoop env s data).zeroTotal = (readLoop env t data).zeroTotal := by
  induction data with
  | nil =>
    intro s t _ hst
    rw [readLoop_nil, readLoop_nil]
    exact hst
  | cons ch rest ih =>
    intro s t h hst
    have ht : t.NoBody := by
      have h1 : t.zeroTotal.m_contentLength = s.zeroTotal.m_contentLength := by rw [hst]
      have h2 : t.zeroTotal.m_state = s.zeroTotal.m_state := by rw [hst]
      exact ⟨h1.trans h.1, fun e => h.2 (h2.symm.trans e)⟩
    have hflow : (iteration env s ch rest).zeroTotal = (iteration env t ch rest).zeroTotal := by
      rw [iteration_zeroTotal env s ch rest h, iteration_zeroTotal env t ch rest ht, hst]
    rcases iteration_cases env s ch rest h with ⟨s1, hi, _, hn, _, _⟩ | ⟨s1, hi, _, hn, _⟩
    · rcases iteration_cases env t ch rest ht with ⟨t1, hj, _, _, _, _⟩ | ⟨t1, hj, _, _, _⟩
      · rw [hi, hj] at hflow
        rw [readLoop_next env s s1 ch rest rest hi, readLoop_next env t t1 ch rest rest hj]
        exact ih s1 t1 hn (by simpa [Flow.zeroTotal] using hflow)
      · rw [hi, hj] at hflow
        simp [Flow.zeroTotal] at hflow
    · rcases iteration_cases env t ch rest ht with ⟨t1, hj, _, _, _, _⟩ | ⟨t1, hj, _, _, _⟩
      · rw [hi, hj] at hflow
        simp [Flow.zeroTotal] at hflow
      · rw [hi, hj] at hflow
        rw [readLoop_stop env s s1 ch rest hi, readLoop_stop env t t1 ch rest hj]
        simpa [Flow.zeroTotal] using hflow


theorem noErrorResponse_iff (s : HttpSession) : noErrorResponse s = true ↔ errorCount s = 0 := by
  unfold noErrorResponse errorCount
  rw [List.countP_eq_zero, List.all_eq_true]
  constructor
  · intro h e he hr
    have := h e he
    rw [hr] at this
    cases this
  · intro h e he
    cases hr : e.isRespond with
    | true => exact absurd hr (h e he)
    | false => rfl

/-- Two chunks `a` and `b` against the one chunk `a ++ b`, given to a session with
`m_contentLength = 0` that is not in state `ST_CONTENTS` and has sent no error response:
when neither run sends one, the two runs end with sessions that differ in `m_totalLength`
only. -/
theorem feed_chunking (env : Env) (s : HttpSession) (a b : Bytes) (hn : s.NoBody)
    (h0 : errorCount s = 0)
    (h1 : errorCount (feed env s [a ++ b]) = 0) (h2 : errorCount (feed env s [a, b]) = 0) :
    (feed env s [a ++ b]).zeroTotal = (feed env s [a, b]).zeroTotal := by
  have hf1 : feed env s [a ++ b] = onReadAvail env s (a ++ b) := rfl
  have hf2 : feed env s [a, b] = onReadAvail env (onReadAvail env s a) b := rfl
  rw [hf1] at h1 ⊢
  rw [hf2] at h2 ⊢
  have hmono := (onReadAvail_noBody env (onReadAvail env s a) b
    (onReadAvail_noBody env s a hn).1).2.1
  rcases onReadAvail_cases env s (a ++ b) with e1 | ⟨t1, e1⟩
  · rw [e1, errorCount_fail] at h1
    omega
  rcases onReadAvail_cases env s a with e2 | ⟨t2, e2⟩
  · rw [e2] at h2 hmono
    rw [errorCount_fail] at hmono
    omega
  rcases onReadAvail_cases env (onReadAvail env s a) b with e3 | ⟨t3, e3⟩
  · rw [e3, errorCount_fail] at h2
    omega
  rw [e1] at h1 ⊢
  rw [e3]
  rw [e2] at hmono ⊢
  have hn1 : HttpSession.NoBody { s with m_totalLength := t1 } := hn
  have hn2 : HttpSession.NoBody { s with m_totalLength := t2 } := hn
  have happ := readLoop_append env a b { s with m_totalLength := t1 } hn1
  have he1 : errorCount ({ s with m_totalLength := t1 } : HttpSession) = 0 := h0
  have hge := (readLoop_noBody env a { s with m_totalLength := t1 } hn1).2.1
  by_cases hc : errorCount (readLoop env { s with m_totalLength := t1 } a) =
      errorCount ({ s with m_totalLength := t1 } : HttpSession)
  · rw [if_pos hc] at happ
    rw [happ]
    have hA := readLoop_zeroTotal env a { s with m_totalLength := t1 }
      { s with m_totalLength := t2 } hn1 rfl
    exact readLoop_zeroTotal env b _ _
      (readLoop_noBody env a { s with m_totalLength := t1 } hn1).1 hA
  · rw [if_neg hc] at happ
    rw [happ] at h1
    omega

/-! ## C28: the cut of the byte stream into chunks -/

/-- C28. For all byte strings `a` and `b` and every fresh session: if the run that is given
`a ++ b` as one chunk and the run that is given `a` and then `b` both send no error
response, they post the same requests in the same order and end with the same state, line
buffer, uri, parameters and headers, and indeed with sessions that are equal once
`m_totalLength` is set aside. -/
theorem C28_chunking (env : Env) (verb0 : HttpVerb) (a b : Bytes)
    (h1 : noErrorResponse (feed env (HttpSession.init verb0) [a ++ b]) = true)
    (h2 : noErrorResponse (feed env (HttpSession.init verb0) [a, b]) = true) :
    postedJobs (feed env (HttpSession.init verb0) [a ++ b]) =
      postedJobs (feed env (HttpSession.init verb0) [a, b]) ∧
    (feed env (HttpSession.init verb0) [a ++ b]).m_state =
      (feed env (HttpSession.init verb0) [a, b]).m_state ∧
    (feed env (HttpSession.init verb0) [a ++ b]).m_line =
      (feed env (HttpSession.init verb0) [a, b]).m_line ∧
    (feed env (HttpSession.init verb0) [a ++ b]).m_uri =
      (feed env (HttpSession.init verb0) [a, b]).m_uri ∧
    (feed env (HttpSession.init verb0) [a ++ b]).m_getParams =
      (feed env (HttpSession.init verb0) [a, b]).m_getParams ∧
    (feed env (HttpSession.init verb0) [a ++ b]).m_headers =
      (feed env (HttpSession.init verb0) [a, b]).m_headers ∧
    (feed env (HttpSession.init verb0) [a ++ b]).zeroTotal =
      (feed env (HttpSession.init verb0) [a, b]).zeroTotal := by
  have hz := feed_chunking env (HttpSession.init verb0) a b (init_noBody verb0) rfl
    ((noErrorResponse_iff _).mp h1) ((noErrorResponse_iff _).mp h2)
  have hev : (feed env (HttpSession.init verb0) [a ++ b]).events =
      (feed env (HttpSession.init verb0) [a, b]).events := by
    have := congrArg HttpSession.events hz
    exact this
  have hstate := congrArg HttpSession.m_state hz
  have hline := congrArg HttpSession.m_line hz
  have huri := congrArg HttpSession.m_uri hz
  have hparams := congrArg HttpSession.m_getParams hz
  have hheaders := congrArg HttpSession.m_headers hz
  refine ⟨?_, hstate, hline, huri, hparams, hheaders, hz⟩
  unfold postedJobs
  rw [hev]

/-- C28 at a request with a header followed by the start of a second request, cut after
the blank line: the same request is posted and the same bytes are buffered; the byte counts
differ, 0 after the one chunk and 9 after the two. -/
theorem C28_chunking_witness :
    postedJobs (feed specEnv (HttpSession.init HttpVerb.HTTP_INVALID_VERB)
        ["GET /a?b=c HTTP/1.1\r\nHost: x\r\n\r\n".toList ++ "GET /next".toList]) =
      postedJobs (feed specEnv (HttpSession.init HttpVerb.HTTP_INVALID_VERB)
        ["GET /a?b=c HTTP/1.1\r\nHost: x\r\n\r\n".toList, "GET /next".toList]) ∧
    postedJobs (feed specEnv (HttpSession.init HttpVerb.HTTP_INVALID_VERB)
        ["GET /a?b=c HTTP/1.1\r\nHost: x\r\n\r\n".toList, "GET /next".toList]) =
      [{ m_verb := HttpVerb.HTTP_GET, m_uri := "/a".toList,
         m_getParams := [("b".toList, "c".toList)],
         m_incomingHeaders := [("Host".toList, "x".toList)], m_incomingContents := [] }] ∧
    (feed specEnv (HttpSession.init HttpVerb.HTTP_INVALID_VERB)
        ["GET /a?b=c HTTP/1.1\r\nHost: x\r\n\r\n".toList, "GET /next".toList]).m_line =
      "GET /next".toList ∧
    (feed specEnv (HttpSession.init HttpVerb.HTTP_INVALID_VERB)
        ["GET /a?b=c HTTP/1.1\r\nHost: x\r\n\r\n".toList ++
          "GET /next".toList]).m_totalLength = 0 ∧
    (feed specEnv (HttpSession.init HttpVerb.HTTP_INVALID_VERB)
        ["GET /a?b=c HTTP/1.1\r\nHost: x\r\n\r\n".toList, "GET /next".toList]).m_totalLength =
      9 :=
  ⟨(C28_chunking specEnv HttpVerb.HTTP_INVALID_VERB
      "GET /a?b=c HTTP/1.1\r\nHost: x\r\n\r\n".toList "GET /next".toList
      (by decide) (by decide)).1,
    by decide, by decide, by decide, by decide⟩


/-! # Reading a response back -/

theorem hasPair_cons_cons (x y a b : Char) (rest : Bytes) :
    hasPair x y (a :: b :: rest) =
      ((decide (a = x) && decide (b = y)) || hasPair x y (b :: rest)) := by
  rw [hasPair]

theorem splitAtPair_cons_cons (x y a b : Char) (rest : Bytes) :
    splitAtPair x y (a :: b :: rest) =
      if a = x ∧ b = y then some ([], rest)
      else (splitAtPair x y (b :: rest)).map fun p => (a :: p.1, p.2) := by
  rw [splitAtPair]

/-- The first place where `x` is followed by `y`, after a text that has none. -/
theorem splitAtPair_append (x y : Char) (hxy : x ≠ y) (pre post : Bytes)
    (h : hasPair x y pre = false) :
    splitAtPair x y (pre ++ x :: y :: post) = some (pre, post) := by
  induction pre with
  | nil =>
    rw [List.nil_append, splitAtPair_cons_cons]
    simp
  | cons a pre ih =>
    cases pre with
    | nil =>
      have hne : ¬ (a = x ∧ x = y) := fun e => hxy e.2
      rw [List.cons_append, List.nil_append, splitAtPair_cons_cons, if_neg hne,
        splitAtPair_cons_cons]
      simp
    | cons b pre =>
      rw [hasPair_cons_cons] at h
      simp only [Bool.or_eq_false_iff, Bool.and_eq_false_imp, decide_eq_true_eq,
        decide_eq_false_iff_not] at h
      have hne : ¬ (a = x ∧ b = y) := fun e => h.1 e.1 e.2
      rw [List.cons_append, List.cons_append, splitAtPair_cons_cons, if_neg hne]
      have := ih h.2
      rw [List.cons_append] at this
      rw [this]
      rfl

theorem hasPair_cons_ne (x y a : Char) (l : Bytes) (h : a ≠ x) :
    hasPair x y (a :: l) = hasPair x y l := by
  cases l with
  | nil => rfl
  | cons b rest =>
    rw [hasPair_cons_cons]
    simp [h]

theorem hasPair_append_of_not_mem (x y : Char) (pre l : Bytes) (h : ∀ c ∈ pre, c ≠ x) :
    hasPair x y (pre ++ l) = hasPair x y l := by
  induction pre with
  | nil => rfl
  | cons a pre ih =>
    rw [List.cons_append, hasPair_cons_ne x y a _ (h a (List.mem_cons_self _ _))]
    exact ih fun c hc => h c (List.mem_cons_of_mem _ hc)

theorem parseDecimalFrom_append (xs ys : Bytes) :
    ∀ acc, parseDecimalFrom acc (xs ++ ys) =
      (parseDecimalFrom acc xs).bind fun a => parseDecimalFrom a ys := by
  induction xs with
  | nil =>
    intro acc
    rfl
  | cons c cs ih =>
    intro acc
    simp only [List.cons_append, parseDecimalFrom]
    cases digitValue c with
    | none => rfl
    | some d => exact ih _

theorem digitValue_digitChar (d : Nat) (h : d < 10) : digitValue (Nat.digitChar d) = some d := by
  interval_cases d <;> rfl

/-- The digits that `toDigitsCore` puts before `ds` are decimal digits, at least one, and
they write the number. -/
theorem toDigitsCore_spec :
    ∀ (fuel n : Nat) (ds : List Char), n < fuel →
      ∃ pre : List Char, Nat.toDigitsCore 10 fuel n ds = pre ++ ds ∧ pre ≠ [] ∧
        (∀ c ∈ pre, (digitValue c).isSome = true) ∧
        ∀ acc, parseDecimalFrom acc pre = some (acc * 10 ^ pre.length + n) := by
  intro fuel
  induction fuel with
  | zero =>
    intro n ds h
    omega
  | succ fuel ih =>
    intro n ds h
    unfold Nat.toDigitsCore
    dsimp only
    have hd := digitValue_digitChar (n % 10) (Nat.mod_lt _ (by decide))
    by_cases h0 : n / 10 = 0
    · rw [if_pos h0]
      refine ⟨[Nat.digitChar (n % 10)], rfl, by simp, ?_, ?_⟩
      · intro c hc
        rw [List.mem_singleton.mp hc, hd]
        rfl
      · intro acc
        simp only [parseDecimalFrom, hd, List.length_singleton, pow_one]
        congr 1
        omega
    · rw [if_neg h0]
      obtain ⟨pre, h1, _, h3, h4⟩ := ih (n / 10) (Nat.digitChar (n % 10) :: ds) (by omega)
      refine ⟨pre ++ [Nat.digitChar (n % 10)], by rw [h1]; simp, by simp, ?_, ?_⟩
      · intro c hc
        rcases List.mem_append.mp hc with hc | hc
        · exact h3 c hc
        · rw [List.mem_singleton.mp hc, hd]
          rfl
      · intro acc
        rw [parseDecimalFrom_append, h4]
        simp only [Option.some_bind, parseDecimalFrom, hd, List.length_append,
          List.length_singleton]
        congr 1
        rw [pow_succ]
        have := Nat.div_add_mod n 10
        nlinarith [this]

theorem toDecimal_spec (n : Nat) :
    parseDecimal (toDecimal n) = some n ∧ ∀ c ∈ toDecimal n, (digitValue c).isSome = true := by
  obtain ⟨pre, h1, h2, h3, h4⟩ := toDigitsCore_spec (n + 1) n [] (Nat.lt_succ_self n)
  have hd : toDecimal n = pre := by
    unfold toDecimal Nat.toDigits
    rw [h1, List.append_nil]
  rw [hd]
  refine ⟨?_, h3⟩
  unfold parseDecimal
  rw [if_neg h2, h4]
  simp


theorem serializeHeaders_cons_empty (name : Bytes) (rest : OptionalMap) :
    serializeHeaders ((name, []) :: rest) = serializeHeaders rest := by
  simp [serializeHeaders]

theorem serializeHeaders_cons_value (name value : Bytes) (rest : OptionalMap)
    (h : value ≠ []) :
    serializeHeaders ((name, value) :: rest) =
      name ++ ": ".toList ++ value ++ "\r\n".toList ++ serializeHeaders rest := by
  simp [serializeHeaders, h]

/-- Lines 57-64 write one line for every entry whose value is not empty. -/
theorem serializeHeaders_eq_headerLinesOf (hs : OptionalMap) :
    serializeHeaders hs = headerLinesOf hs := by
  induction hs with
  | nil => rfl
  | cons p hs ih =>
    obtain ⟨name, value⟩ := p
    by_cases h : value = []
    · subst h
      rw [serializeHeaders_cons_empty, ih]
      simp [headerLinesOf]
    · rw [serializeHeaders_cons_value name value hs h, ih]
      simp [headerLinesOf, h]

theorem filter_length_le_serialize (hs : OptionalMap) :
    (hs.filter fun p => p.2 ≠ []).length ≤ (serializeHeaders hs).length := by
  induction hs with
  | nil => simp [serializeHeaders]
  | cons p hs ih =>
    obtain ⟨name, value⟩ := p
    by_cases h : value = []
    · subst h
      rw [serializeHeaders_cons_empty]
      simpa using ih
    · rw [serializeHeaders_cons_value name value hs h]
      simp only [ne_eq] at ih
      simp only [ne_eq, h, not_false_eq_true, decide_True, List.filter_cons_of_pos,
        List.length_cons, List.length_append]
      have : "\r\n".toList.length = 2 := rfl
      omega

/-- Reading the header lines that lines 57-65 write gives back the entries whose value is
not empty, and the body. -/
theorem parseHeaderLines_serialize (body : Bytes) :
    ∀ (hs : OptionalMap) (fuel : Nat), hs.all headerLineOk = true →
      (hs.filter fun p => p.2 ≠ []).length < fuel →
      parseHeaderLines fuel (serializeHeaders hs ++ "\r\n".toList ++ body) =
        some (hs.filter (fun p => p.2 ≠ []), body) := by
  intro hs
  induction hs with
  | nil =>
    intro fuel _ hf
    obtain ⟨f, rfl⟩ : ∃ f, fuel = f + 1 := ⟨fuel - 1, by simp at hf; omega⟩
    have h := splitAtPair_append '\r' '\n' (by decide) [] body rfl
    have ht : serializeHeaders [] ++ "\r\n".toList ++ body = [] ++ '\r' :: '\n' :: body := rfl
    rw [ht, parseHeaderLines, h]
    rfl
  | cons p hs ih =>
    intro fuel hok hf
    obtain ⟨name, value⟩ := p
    rw [List.all_cons, Bool.and_eq_true] at hok
    by_cases h : value = []
    · subst h
      rw [serializeHeaders_cons_empty]
      have := ih fuel hok.2 (by simpa using hf)
      rw [this]
      simp
    · have hf2 : (hs.filter fun p => p.2 ≠ []).length + 1 < fuel := by
        simpa [h] using hf
      obtain ⟨f, rfl⟩ : ∃ f, fuel = f + 1 := ⟨fuel - 1, by omega⟩
      have hline := hok.1
      simp only [headerLineOk, h, decide_False, Bool.false_or, Bool.and_eq_true,
        Bool.not_eq_true'] at hline
      have ht : serializeHeaders ((name, value) :: hs) ++ "\r\n".toList ++ body =
          (name ++ ": ".toList ++ value) ++
            '\r' :: '\n' :: (serializeHeaders hs ++ "\r\n".toList ++ body) := by
        rw [serializeHeaders_cons_value name value hs h]
        simp
      have hsplit := splitAtPair_append '\r' '\n' (by decide) (name ++ ": ".toList ++ value)
        (serializeHeaders hs ++ "\r\n".toList ++ body) hline.2
      have hname : name ++ ": ".toList ++ value = name ++ ':' :: ' ' :: value := by simp
      have hsplit2 := splitAtPair_append ':' ' ' (by decide) name value hline.1
      have hne : ¬ name ++ ':' :: ' ' :: value = [] := by simp
      rw [ht, parseHeaderLines, hsplit]
      simp only [hname, hne, if_false, hsplit2]
      rw [ih f hok.2 (by omega)]
      simp [h]


theorem digit_ne (c x : Char) (h : (digitValue c).isSome = true) (hx : digitValue x = none) :
    c ≠ x := by
  intro e
  rw [e, hx] at h
  cases h

/-- Reading the status line that lines 53-55 write gives back the code and the short
description. -/
theorem statusLine_read (table : StatusTable) (status : HttpStatus)
    (hdesc : hasPair '\r' '\n' (table status).descShort = false) :
    hasPair '\r' '\n' ("HTTP/1.1 ".toList ++ codeStatus table status) = false ∧
    ("HTTP/1.1 ".toList ++ codeStatus table status).take 9 = "HTTP/1.1 ".toList ∧
    ("HTTP/1.1 ".toList ++ codeStatus table status).drop 9 = codeStatus table status ∧
    find ' ' (codeStatus table status) = some (toDecimal status).length ∧
    (codeStatus table status).take (toDecimal status).length = toDecimal status ∧
    (codeStatus table status).drop ((toDecimal status).length + 1) =
      (table status).descShort := by
  obtain ⟨_, hdig⟩ := toDecimal_spec status
  have hcs : codeStatus table status = toDecimal status ++ ' ' :: (table status).descShort := rfl
  refine ⟨?_, rfl, rfl, ?_, ?_, ?_⟩
  · have hpre : "HTTP/1.1 ".toList ++ codeStatus table status =
        ("HTTP/1.1 ".toList ++ toDecimal status ++ [' ']) ++ (table status).descShort := by
      rw [hcs]
      simp
    rw [hpre, hasPair_append_of_not_mem _ _ _ _ ?_]
    · exact hdesc
    · intro c hc
      rcases List.mem_append.mp hc with hc | hc
      · rcases List.mem_append.mp hc with hc | hc
        · exact (by decide : ∀ c ∈ "HTTP/1.1 ".toList, c ≠ '\r') c hc
        · exact digit_ne c '\r' (hdig c hc) (by decide)
      · rw [List.mem_singleton.mp hc]
        decide
  · rw [hcs]
    exact find_first ' ' _ _ fun hm => digit_ne ' ' ' ' (hdig ' ' hm) (by decide) rfl
  · rw [hcs]
    exact List.take_left _ _
  · rw [hcs]
    have : toDecimal status ++ ' ' :: (table status).descShort =
        (toDecimal status ++ [' ']) ++ (table status).descShort := by simp
    rw [this]
    have hl : (toDecimal status ++ [' ']).length = (toDecimal status).length + 1 := by simp
    rw [← hl]
    exact List.drop_left _ _

/-- Reading back what `respond` sends. -/
theorem parseResponse_respond (table : StatusTable) (status : HttpStatus)
    (headers : Option OptionalMap) (contents : Option Bytes)
    (hdesc : hasPair '\r' '\n' (table status).descShort = false)
    (hok : (respondHeaders table status (headers.getD []) (contents.getD [])).all
      headerLineOk = true) :
    parseResponse (respond table status headers contents) =
      some { status := status, descShort := (table status).descShort,
             headers := (respondHeaders table status (headers.getD []) (contents.getD [])).filter
               (fun p => p.2 ≠ []),
             body := respondContents table status (contents.getD []) } := by
  obtain ⟨h1, h2, h3, h4, h5, h6⟩ := statusLine_read table status hdesc
  have ht : respond table status headers contents =
      ("HTTP/1.1 ".toList ++ codeStatus table status) ++ '\r' :: '\n' ::
        (serializeHeaders (respondHeaders table status (headers.getD []) (contents.getD [])) ++
          "\r\n".toList ++ respondContents table status (contents.getD [])) := by
    unfold respond
    simp
  have hsplit := splitAtPair_append '\r' '\n' (by decide)
    ("HTTP/1.1 ".toList ++ codeStatus table status)
    (serializeHeaders (respondHeaders table status (headers.getD []) (contents.getD [])) ++
      "\r\n".toList ++ respondContents table status (contents.getD [])) h1
  have hlines := parseHeaderLines_serialize (respondContents table status (contents.getD []))
    (respondHeaders table status (headers.getD []) (contents.getD []))
    ((serializeHeaders (respondHeaders table status (headers.getD []) (contents.getD [])) ++
      "\r\n".toList ++ respondContents table status (contents.getD [])).length + 1) hok
    (by
      have := filter_length_le_serialize
        (respondHeaders table status (headers.getD []) (contents.getD []))
      simp only [List.length_append]
      omega)
  rw [ht, parseResponse, hsplit]
  simp only [h2, if_true, h3, h4, h5, h6, (toDecimal_spec status).1, hlines]


/-! ## C21: what is sent, and reading it back -/

/-- C21, amended. For every status, headers and contents given to `respond`, with `hs` the
header map and `body` the body that are sent: the buffer sent is the status line
`HTTP/1.1`, the decimal code, the short description and CRLF; then one line `Name: value`
and CRLF for every entry of `hs` whose value is not empty, and no line for an entry whose
value is empty; then one CRLF; then `body`. When the short description holds no CRLF, and
for every entry of `hs` with a value the name holds no colon followed by a space and the
line holds no CRLF, reading the buffer back gives the code, the short description, the
entries of `hs` whose value is not empty, in their order, and `body`. -/
theorem C21_serialization (table : StatusTable) (status : HttpStatus)
    (headers : Option OptionalMap) (contents : Option Bytes)
    (hdesc : hasPair '\r' '\n' (table status).descShort = false)
    (hok : (respondHeaders table status (headers.getD []) (contents.getD [])).all
      headerLineOk = true) :
    respond table status headers contents =
      "HTTP/1.1 ".toList ++ toDecimal status ++ " ".toList ++ (table status).descShort ++
        "\r\n".toList ++
        headerLinesOf (respondHeaders table status (headers.getD []) (contents.getD [])) ++
        "\r\n".toList ++ respondContents table status (contents.getD []) ∧
    parseResponse (respond table status headers contents) =
      some { status := status, descShort := (table status).descShort,
             headers := (respondHeaders table status (headers.getD []) (contents.getD [])).filter
               (fun p => p.2 ≠ []),
             body := respondContents table status (contents.getD []) } := by
  refine ⟨?_, parseResponse_respond table status headers contents hdesc hok⟩
  unfold respond codeStatus
  rw [serializeHeaders_eq_headerLinesOf]
  simp

set_option maxRecDepth 100000 in
/-- C21 (amended) at the 404 response of the sample table. -/
theorem C21_serialization_witness :
    hasPair '\r' '\n' (sampleTable 404).descShort = false ∧
    (respondHeaders sampleTable 404 [] []).all headerLineOk = true ∧
    parseResponse (respond sampleTable 404 none none) =
      some { status := 404, descShort := "Not Found".toList,
             headers := [("Content-Type".toList, "text/html; charset=utf-8".toList),
                         ("Content-Length".toList, "139".toList)],
             body :=
               ("<html><head><title>404 Not Found</title></head><body><h1>404 Not Found</h1>" ++
                "<hr /><p>The requested resource was not found.</p></body></html>").toList } ∧
    parseResponse (respond sampleTable 404 none none) =
      some { status := 404, descShort := (sampleTable 404).descShort,
             headers := (respondHeaders sampleTable 404 [] []).filter (fun p => p.2 ≠ []),
             body := respondContents sampleTable 404 [] } :=
  ⟨by decide, by decide, by decide,
    (C21_serialization sampleTable 404 none none (by decide) (by decide)).2⟩

set_option maxRecDepth 100000 in
/-- C21 as worded fails. A header with an empty value is in the header map that `respond`
serializes, has no line in what is sent, and is not among the headers read back. A header
value that holds CRLF CRLF is sent as it is: the headers read back end before it, and the
body read back is the rest of the value followed by the other header lines and the
body. A header name that holds a colon and a space is read back cut at that place. -/
theorem C21_counterexample :
    respondHeaders sampleTable 200 [("X-Empty".toList, [])] "hi".toList =
      [("X-Empty".toList, []),
       ("Content-Type".toList, "text/plain; charset=utf-8".toList),
       ("Content-Length".toList, "2".toList)] ∧
    respond sampleTable 200 (some [("X-Empty".toList, [])]) (some "hi".toList) =
      ("HTTP/1.1 200 OK\r\nContent-Type: text/plain; charset=utf-8\r\n" ++
        "Content-Length: 2\r\n\r\nhi").toList ∧
    parseResponse (respond sampleTable 200 (some [("X-Empty".toList, [])])
        (some "hi".toList)) =
      some { status := 200, descShort := "OK".toList,
             headers := [("Content-Type".toList, "text/plain; charset=utf-8".toList),
                         ("Content-Length".toList, "2".toList)],
             body := "hi".toList } ∧
    respondHeaders sampleTable 200 [("X-A".toList, "1\r\n\r\nevil".toList)] "hi".toList =
      [("X-A".toList, "1\r\n\r\nevil".toList),
       ("Content-Type".toList, "text/plain; charset=utf-8".toList),
       ("Content-Length".toList, "2".toList)] ∧
    parseResponse (respond sampleTable 200 (some [("X-A".toList, "1\r\n\r\nevil".toList)])
        (some "hi".toList)) =
      some { status := 200, descShort := "OK".toList,
             headers := [("X-A".toList, "1".toList)],
             body := ("evil\r\nContent-Type: text/plain; charset=utf-8\r\n" ++
               "Content-Length: 2\r\n\r\nhi").toList } ∧
    parseResponse (respond sampleTable 200 (some [("X: Y".toList, "1".toList)])
        (some "hi".toList)) =
      some { status := 200, descShort := "OK".toList,
             headers := [("X".toList, "Y: 1".toList),
                         ("Content-Type".toList, "text/plain; charset=utf-8".toList),
                         ("Content-Length".toList, "2".toList)],
             body := "hi".toList } := by
  refine ⟨by decide, by decide, by decide, by decide, by decide, by decide⟩


/-! ## C10: the session after a pass that posts a request -/

/-- When the pass that reads the last byte `ch` of `pre ++ [ch]` posts a request, the loop
ends in the reset session. -/
theorem readLoop_last_pass_posts (env : Env) (s : HttpSession) (pre : Bytes) (ch : Char)
    (j : HttpRequestJob) (hn : s.NoBody)
    (herr : errorCount (readLoop env s pre) = errorCount s)
    (hev : (readLoop env s (pre ++ [ch])).events = (readLoop env s pre).events ++ [Event.pend j]) :
    (readLoop env s (pre ++ [ch])).m_state = State.ST_FIRST_HEADER ∧
    (readLoop env s (pre ++ [ch])).m_totalLength = 0 ∧
    (readLoop env s (pre ++ [ch])).m_line = [] := by
  have happ := readLoop_append env pre [ch] s hn
  rw [if_pos herr] at happ
  rw [happ] at hev ⊢
  have hn1 := (readLoop_noBody env pre s hn).1
  rcases iteration_cases env (readLoop env s pre) ch [] hn1 with
    ⟨s1, hi, _, _, _, _⟩ | ⟨s1, hi, _, _, _⟩
  · rw [readLoop_next env _ s1 ch [] [] hi, readLoop_nil] at hev ⊢
    rcases iteration_next_cases env _ s1 ch [] [] hi with h | h
    · rw [h] at hev
      have := congrArg List.length hev
      simp at this
    · exact h
  · rw [readLoop_stop env _ s1 ch [] hi] at hev
    have hs := iteration_stepOf env (readLoop env s pre) ch [] hn1
    rw [hi] at hs
    obtain ⟨status, he⟩ := hs.2
    rw [he] at hev
    have := congrArg List.length hev
    simp at this

/-- C10 (amended). In a freshly constructed session the three conditions
`state == ST_FIRST_HEADER`, `total_len == 0` and `line is empty` all hold, and they all
hold in the session that a pass of the loop leaves when it posts a request. In a session
with `m_contentLength = 0` that is not in state `ST_CONTENTS`, as every session reached from
a fresh one is, they hold when the loop ends with a pass that posts a request, that is,
when the last byte of the chunk completes a request. -/
theorem C10_reset_points (env : Env) :
    (∀ verb0, (HttpSession.init verb0).m_state = State.ST_FIRST_HEADER ∧
      (HttpSession.init verb0).m_totalLength = 0 ∧ (HttpSession.init verb0).m_line = []) ∧
    (∀ (s s1 : HttpSession) (ch : Char) (rest rest1 : Bytes) (j : HttpRequestJob),
      iteration env s ch rest = Flow.next s1 rest1 →
      s1.events = s.events ++ [Event.pend j] →
      s1.m_state = State.ST_FIRST_HEADER ∧ s1.m_totalLength = 0 ∧ s1.m_line = []) ∧
    (∀ (verb0 : HttpVerb) (chunks : List Bytes),
      (feed env (HttpSession.init verb0) chunks).m_contentLength = 0 ∧
      (feed env (HttpSession.init verb0) chunks).m_state ≠ State.ST_CONTENTS) ∧
    (∀ (s : HttpSession) (pre : Bytes) (ch : Char) (j : HttpRequestJob),
      s.m_contentLength = 0 → s.m_state ≠ State.ST_CONTENTS →
      errorCount (readLoop env s pre) = errorCount s →
      (readLoop env s (pre ++ [ch])).events =
        (readLoop env s pre).events ++ [Event.pend j] →
      (readLoop env s (pre ++ [ch])).m_state = State.ST_FIRST_HEADER ∧
      (readLoop env s (pre ++ [ch])).m_totalLength = 0 ∧
      (readLoop env s (pre ++ [ch])).m_line = []) := by
  refine ⟨fun _ => ⟨rfl, rfl, rfl⟩, ?_, ?_, ?_⟩
  · intro s s1 ch rest rest1 j hit hev
    rcases iteration_next_cases env s s1 ch rest rest1 hit with h | h
    · rw [h] at hev
      have := congrArg List.length hev
      simp at this
    · exact h
  · intro verb0 chunks
    exact (feed_noBody env chunks (HttpSession.init verb0) (init_noBody verb0)).1
  · intro s pre ch j hc hst herr hev
    exact readLoop_last_pass_posts env s pre ch j ⟨hc, hst⟩ herr hev

/-- C10 (amended) at the blank line that ends the headers of `GET / HTTP/1.1`, and at the
chunk `GET / HTTP/1.1` with its blank line given to a fresh session. -/
theorem C10_reset_points_witness :
    ((HttpSession.posted
        { HttpSession.init HttpVerb.HTTP_GET with
          m_state := State.ST_HEADERS, m_totalLength := 18, m_uri := "/".toList } []).m_state =
        State.ST_FIRST_HEADER ∧
    (HttpSession.posted
        { HttpSession.init HttpVerb.HTTP_GET with
          m_state := State.ST_HEADERS, m_totalLength := 18, m_uri := "/".toList } []).m_totalLength
        = 0 ∧
    (HttpSession.posted
        { HttpSession.init HttpVerb.HTTP_GET with
          m_state := State.ST_HEADERS, m_totalLength := 18, m_uri := "/".toList } []).m_line = []) ∧
    ((readLoop specEnv
        { HttpSession.init HttpVerb.HTTP_INVALID_VERB with m_totalLength := 18 }
        ("GET / HTTP/1.1\r\n\r".toList ++ ['\n'])).m_state = State.ST_FIRST_HEADER ∧
    (readLoop specEnv
        { HttpSession.init HttpVerb.HTTP_INVALID_VERB with m_totalLength := 18 }
        ("GET / HTTP/1.1\r\n\r".toList ++ ['\n'])).m_totalLength = 0 ∧
    (readLoop specEnv
        { HttpSession.init HttpVerb.HTTP_INVALID_VERB with m_totalLength := 18 }
        ("GET / HTTP/1.1\r\n\r".toList ++ ['\n'])).m_line = []) :=
  ⟨(C10_reset_points specEnv).2.1
    { HttpSession.init HttpVerb.HTTP_GET with
      m_state := State.ST_HEADERS, m_totalLength := 18, m_uri := "/".toList, m_line := "\r".toList }
    (HttpSession.posted
      { HttpSession.init HttpVerb.HTTP_GET with
        m_state := State.ST_HEADERS, m_totalLength := 18, m_uri := "/".toList } [])
    '\n' [] []
    { m_verb := HttpVerb.HTTP_GET, m_uri := "/".toList, m_getParams := [],
      m_incomingHeaders := [], m_incomingContents := [] }
    (by decide) (by decide),
   (C10_reset_points specEnv).2.2.2
    { HttpSession.init HttpVerb.HTTP_INVALID_VERB with m_totalLength := 18 }
    "GET / HTTP/1.1\r\n\r".toList '\n'
    { m_verb := HttpVerb.HTTP_GET, m_uri := "/".toList, m_getParams := [],
      m_incomingHeaders := [], m_incomingContents := [] }
    (by decide) (by decide) (by decide) (by decide)⟩


/-! # A request as it is received -/

theorem setUri_eq (env : Env) (s : HttpSession) (p1 : Bytes) :
    s.setUri env p1 = { s with m_uri := uriOf p1, m_getParams := paramsOf env p1 } := by
  unfold HttpSession.setUri uriOf paramsOf
  split <;> rfl

/-- The request line of an accepted request: the verb, the uri and the parameters are set
and the state is `ST_HEADERS`. -/
theorem readLoop_request_line (env : Env) (s : HttpSession) (line p0 p1 p2 rest : Bytes)
    (hst : s.m_state = State.ST_FIRST_HEADER) (hl : s.m_line = [])
    (hgood : goodRequestLine env line p0 p1 p2 = true) :
    readLoop env s (line ++ '\r' :: '\n' :: rest) =
      readLoop env
        { s with m_state := State.ST_HEADERS, m_line := [], m_verb := verbFromString p0,
                 m_uri := uriOf p1, m_getParams := paramsOf env p1 } rest := by
  simp only [goodRequestLine, decide_eq_true_eq] at hgood
  obtain ⟨hne, hnl, hex, hv, hp1, hp2⟩ := hgood
  have hcr : '\n' ∉ line ++ ['\r'] := by
    intro h
    rcases List.mem_append.mp h with h | h
    · exact hnl h
    · simp at h
  have hsplit : line ++ '\r' :: '\n' :: rest = (line ++ ['\r']) ++ ('\n' :: rest) := by simp
  rw [hsplit, readLoop_plain env _ _ hcr s (by simp [hst])]
  have htrim : trimCR (s.m_line ++ (line ++ ['\r'])) = line := by
    rw [hl, List.nil_append, trimCR_append_cr]
  have hp : ¬ (p1 = [] ∨ p1.head? ≠ some '/') := by
    intro h
    rcases h with h | h
    · subst h
      simp at hp1
    · exact h hp1
  have hver : ¬ (p2 ≠ "HTTP/1.0".toList ∧ p2 ≠ "HTTP/1.1".toList) := by
    intro h
    rcases hp2 with e | e
    · exact h.1 e
    · exact h.2 e
  apply readLoop_next
  rw [iteration_newline_first env { s with m_line := s.m_line ++ (line ++ ['\r']) } rest hst,
    firstHeaderLine_parts env _ rest p0 p1 p2
      (by simp only [htrim]; exact hne) (by simp only [htrim]; exact hex),
    if_neg hv, if_neg hp, if_neg hver, setUri_eq]

/-- A header line: one pair is appended to the headers. -/
theorem readLoop_header_line (env : Env) (s : HttpSession) (p : Bytes × Bytes) (rest : Bytes)
    (hst : s.m_state = State.ST_HEADERS) (hl : s.m_line = [])
    (hname : ':' ∉ p.1) (hn1 : '\n' ∉ p.1) (hn2 : '\n' ∉ p.2) :
    readLoop env s (headerText p ++ rest) =
      readLoop env { s with m_headers := s.m_headers ++ [storedHeader p] } rest := by
  have hcr : '\n' ∉ p.1 ++ ':' :: p.2 ++ ['\r'] := by
    intro h
    rcases List.mem_append.mp h with h | h
    · rcases List.mem_append.mp h with h | h
      · exact hn1 h
      · rcases List.mem_cons.mp h with h | h
        · exact absurd h (by decide)
        · exact hn2 h
    · simp at h
  have hsplit : headerText p ++ rest = (p.1 ++ ':' :: p.2 ++ ['\r']) ++ ('\n' :: rest) := by
    simp [headerText]
  rw [hsplit, readLoop_plain env _ _ hcr s (by simp [hst])]
  have htrim : trimCR (s.m_line ++ (p.1 ++ ':' :: p.2 ++ ['\r'])) = p.1 ++ ':' :: p.2 := by
    rw [hl, List.nil_append, trimCR_append_cr]
  apply readLoop_next
  rw [iteration_newline_headers env { s with m_line := s.m_line ++ (p.1 ++ ':' :: p.2 ++ ['\r']) }
      rest hst,
    headerLine_colon _ rest p.1 p.2 (by simp [hst]) htrim hname, ← skipSpaces_dropWhile, hl]
  rfl

/-- The header lines of a request: the pairs are appended in the order of the lines. -/
theorem readLoop_headers (env : Env) (hs : List (Bytes × Bytes)) (rest : Bytes) :
    ∀ s : HttpSession, s.m_state = State.ST_HEADERS → s.m_line = [] → goodHeaders hs = true →
      readLoop env s (headersText hs ++ rest) =
        readLoop env { s with m_headers := s.m_headers ++ hs.map storedHeader } rest := by
  induction hs with
  | nil =>
    intro s _ _ _
    simp [headersText]
  | cons p hs ih =>
    intro s hst hl hgood
    simp only [goodHeaders, List.all_cons, Bool.and_eq_true, decide_eq_true_eq] at hgood
    have htext : headersText (p :: hs) ++ rest = headerText p ++ (headersText hs ++ rest) := by
      simp [headersText]
    rw [htext, readLoop_header_line env s p _ hst hl hgood.1.1 hgood.1.2.1 hgood.1.2.2,
      ih { s with m_headers := s.m_headers ++ [storedHeader p] } hst hl
        (by simpa [goodHeaders] using hgood.2)]
    simp

/-- The blank line and the body: the request is posted with the bytes that complete the
body, and the loop goes on after them. -/
theorem readLoop_blank_body (env : Env) (s : HttpSession) (body rest : Bytes)
    (hst : s.m_state = State.ST_HEADERS) (hl : s.m_line = [])
    (hc : s.m_contentLength = body.length) (hsz : s.m_contentLength < SIZE_MOD) :
    readLoop env s ('\r' :: '\n' :: (body ++ rest)) = readLoop env (s.posted body) rest := by
  have h1 : iteration env s '\r' ('\n' :: (body ++ rest)) =
      Flow.next { s with m_line := s.m_line ++ ['\r'] } ('\n' :: (body ++ rest)) :=
    iteration_plain env s '\r' _ (by simp [hst]) (by decide)
  rw [readLoop_next env s _ '\r' _ _ h1]
  apply readLoop_next
  rw [iteration_newline_headers env { s with m_line := s.m_line ++ ['\r'] } _ hst,
    headerLine_blank _ _ (by simp [hl, trimCR])]
  have h0 : sizeSub s.m_contentLength 0 = body.length := by
    rw [sizeSub_small _ _ hsz (Nat.zero_le _), hc]
    rfl
  have htrim : trimCR (s.m_line ++ ['\r']) = [] := by simp [hl, trimCR]
  rw [contentsAndClear_full _ _ rfl (by
    simp only [htrim, List.length_nil, h0, List.length_append]
    omega)]
  simp only [htrim, List.length_nil, h0, List.nil_append, List.take_left, List.drop_left]
  rfl


/-- A whole request, read from a session in state `ST_FIRST_HEADER` with an empty line
buffer whose `m_contentLength` is the length of the body: one job is posted, with the
headers the session held followed by those of the header lines, in their order, and the
session is reset. -/
theorem readLoop_request (env : Env) (s : HttpSession) (line p0 p1 p2 : Bytes)
    (hs : List (Bytes × Bytes)) (body rest : Bytes)
    (hst : s.m_state = State.ST_FIRST_HEADER) (hl : s.m_line = [])
    (hc : s.m_contentLength = body.length) (hsz : s.m_contentLength < SIZE_MOD)
    (hline : goodRequestLine env line p0 p1 p2 = true) (hhs : goodHeaders hs = true) :
    readLoop env s (requestText line hs body ++ rest) =
      readLoop env
        { m_state := State.ST_FIRST_HEADER, m_totalLength := 0, m_contentLength := 0,
          m_line := [], m_verb := verbFromString p0, m_uri := [], m_getParams := [],
          m_headers := [],
          events := s.events ++ [Event.pend
            { m_verb := verbFromString p0, m_uri := uriOf p1, m_getParams := paramsOf env p1,
              m_incomingHeaders := s.m_headers ++ hs.map storedHeader,
              m_incomingContents := body }] }
        rest := by
  have htext : requestText line hs body ++ rest =
      line ++ '\r' :: '\n' :: (headersText hs ++ ('\r' :: '\n' :: (body ++ rest))) := by
    simp [requestText]
  have h1 := readLoop_request_line env s line p0 p1 p2
    (headersText hs ++ ('\r' :: '\n' :: (body ++ rest))) hst hl hline
  have h2 := readLoop_headers env hs ('\r' :: '\n' :: (body ++ rest))
    { s with m_state := State.ST_HEADERS, m_line := [], m_verb := verbFromString p0,
             m_uri := uriOf p1, m_getParams := paramsOf env p1 } rfl rfl hhs
  have h3 := readLoop_blank_body env
    { s with m_state := State.ST_HEADERS, m_line := [], m_verb := verbFromString p0,
             m_uri := uriOf p1, m_getParams := paramsOf env p1,
             m_headers := s.m_headers ++ hs.map storedHeader } body rest rfl rfl hc hsz
  rw [htext, h1, h2]
  exact h3


/-- Two requests one after the other on a session whose header map is empty: two jobs are
posted, each with the headers of its own header lines and the parameters of its own
request line. -/
theorem readLoop_two_requests (env : Env) (s : HttpSession) (line1 p0 p1 p2 : Bytes)
    (hs1 : List (Bytes × Bytes)) (body : Bytes) (line2 q0 q1 q2 : Bytes)
    (hs2 : List (Bytes × Bytes)) (rest : Bytes)
    (hst : s.m_state = State.ST_FIRST_HEADER) (hl : s.m_line = []) (hh : s.m_headers = [])
    (hc : s.m_contentLength = body.length) (hsz : s.m_contentLength < SIZE_MOD)
    (hline1 : goodRequestLine env line1 p0 p1 p2 = true) (hhs1 : goodHeaders hs1 = true)
    (hline2 : goodRequestLine env line2 q0 q1 q2 = true) (hhs2 : goodHeaders hs2 = true) :
    readLoop env s (requestText line1 hs1 body ++ (requestText line2 hs2 [] ++ rest)) =
      readLoop env
        { m_state := State.ST_FIRST_HEADER, m_totalLength := 0, m_contentLength := 0,
          m_line := [], m_verb := verbFromString q0, m_uri := [], m_getParams := [],
          m_headers := [],
          events := s.events ++
            [Event.pend (jobOf env p0 p1 hs1 body), Event.pend (jobOf env q0 q1 hs2 [])] }
        rest := by
  have h1 := readLoop_request env s line1 p0 p1 p2 hs1 body (requestText line2 hs2 [] ++ rest)
    hst hl hc hsz hline1 hhs1
  have h2 := readLoop_request env
    { m_state := State.ST_FIRST_HEADER, m_totalLength := 0, m_contentLength := 0,
      m_line := [], m_verb := verbFromString p0, m_uri := [], m_getParams := [],
      m_headers := [],
      events := s.events ++ [Event.pend
        { m_verb := verbFromString p0, m_uri := uriOf p1, m_getParams := paramsOf env p1,
          m_incomingHeaders := s.m_headers ++ hs1.map storedHeader,
          m_incomingContents := body }] }
    line2 q0 q1 q2 hs2 [] rest rfl rfl rfl (by show (0 : Nat) < SIZE_MOD; decide) hline2 hhs2
  rw [h1, h2, hh]
  simp [jobOf]

/-! ## C9: the job of a request, and the reset -/

/-- C9. When the body block finds the body complete (state `ST_CONTENTS` and at least
`content_len - buffered` bytes available), exactly one job is pended; it carries the verb,
the uri, the parameters, the headers as stored and the body, that is the buffered bytes
followed by the missing bytes of the input; the session is left in state
`ST_FIRST_HEADER` with `total_len = 0`, `content_len = 0` and empty line, uri, parameters
and headers, and reading goes on right after the body. For a request received as a request
line that is accepted, header lines and a body of `content_len` bytes, by a session in
state `ST_FIRST_HEADER` with an empty line buffer: the one job posted carries the verb of
the first token, the uri and the parameters of the second, the stored headers followed by
one pair for every header line, in the order of the lines, and the body. For two requests
one after the other: the job of the second carries the headers of its own lines and the
parameters of its own request line only; so it is for the two requests given in one chunk
to a fresh session. -/
theorem C9_request_posted (env : Env) :
    (∀ (s : HttpSession) (data : Bytes), s.m_state = State.ST_CONTENTS →
      ¬ data.length < sizeSub s.m_contentLength s.m_line.length →
      contentsAndClear s data =
        Flow.next
          { m_state := State.ST_FIRST_HEADER, m_totalLength := 0, m_contentLength := 0,
            m_line := [], m_verb := s.m_verb, m_uri := [], m_getParams := [], m_headers := [],
            events := s.events ++ [Event.pend
              { m_verb := s.m_verb, m_uri := s.m_uri, m_getParams := s.m_getParams,
                m_incomingHeaders := s.m_headers,
                m_incomingContents :=
                  s.m_line ++ data.take (sizeSub s.m_contentLength s.m_line.length) }] }
          (data.drop (sizeSub s.m_contentLength s.m_line.length))) ∧
    (∀ (s : HttpSession) (line p0 p1 p2 : Bytes) (hs : List (Bytes × Bytes))
      (body rest : Bytes),
      s.m_state = State.ST_FIRST_HEADER → s.m_line = [] →
      s.m_contentLength = body.length → s.m_contentLength < SIZE_MOD →
      goodRequestLine env line p0 p1 p2 = true → goodHeaders hs = true →
      readLoop env s (requestText line hs body ++ rest) =
        readLoop env
          { m_state := State.ST_FIRST_HEADER, m_totalLength := 0, m_contentLength := 0,
            m_line := [], m_verb := verbFromString p0, m_uri := [], m_getParams := [],
            m_headers := [],
            events := s.events ++ [Event.pend
              { m_verb := verbFromString p0, m_uri := uriOf p1,
                m_getParams := paramsOf env p1,
                m_incomingHeaders := s.m_headers ++ hs.map storedHeader,
                m_incomingContents := body }] }
          rest) ∧
    (∀ (s : HttpSession) (line1 p0 p1 p2 : Bytes) (hs1 : List (Bytes × Bytes)) (body : Bytes)
      (line2 q0 q1 q2 : Bytes) (hs2 : List (Bytes × Bytes)) (rest : Bytes),
      s.m_state = State.ST_FIRST_HEADER → s.m_line = [] → s.m_headers = [] →
      s.m_contentLength = body.length → s.m_contentLength < SIZE_MOD →
      goodRequestLine env line1 p0 p1 p2 = true → goodHeaders hs1 = true →
      goodRequestLine env line2 q0 q1 q2 = true → goodHeaders hs2 = true →
      readLoop env s (requestText line1 hs1 body ++ (requestText line2 hs2 [] ++ rest)) =
        readLoop env
          { m_state := State.ST_FIRST_HEADER, m_totalLength := 0, m_contentLength := 0,
            m_line := [], m_verb := verbFromString q0, m_uri := [], m_getParams := [],
            m_headers := [],
            events := s.events ++
              [Event.pend
                { m_verb := verbFromString p0, m_uri := uriOf p1,
                  m_getParams := paramsOf env p1,
                  m_incomingHeaders := hs1.map storedHeader, m_incomingContents := body },
               Event.pend
                { m_verb := verbFromString q0, m_uri := uriOf q1,
                  m_getParams := paramsOf env q1,
                  m_incomingHeaders := hs2.map storedHeader, m_incomingContents := [] }] }
          rest) ∧
    (∀ (verb0 : HttpVerb) (line1 p0 p1 p2 : Bytes) (hs1 : List (Bytes × Bytes))
      (line2 q0 q1 q2 : Bytes) (hs2 : List (Bytes × Bytes)),
      goodRequestLine env line1 p0 p1 p2 = true → goodHeaders hs1 = true →
      goodRequestLine env line2 q0 q1 q2 = true → goodHeaders hs2 = true →
      (requestText line1 hs1 [] ++ requestText line2 hs2 []).length < MAX_REQUEST_LENGTH →
      feed env (HttpSession.init verb0) [requestText line1 hs1 [] ++ requestText line2 hs2 []] =
        { m_state := State.ST_FIRST_HEADER, m_totalLength := 0, m_contentLength := 0,
          m_line := [], m_verb := verbFromString q0, m_uri := [], m_getParams := [],
          m_headers := [],
          events :=
            [Event.pend
              { m_verb := verbFromString p0, m_uri := uriOf p1,
                m_getParams := paramsOf env p1,
                m_incomingHeaders := hs1.map storedHeader, m_incomingContents := [] },
             Event.pend
              { m_verb := verbFromString q0, m_uri := uriOf q1,
                m_getParams := paramsOf env q1,
                m_incomingHeaders := hs2.map storedHeader, m_incomingContents := [] }] }) := by
  refine ⟨fun s data hst hfull => contentsAndClear_full s data hst hfull, ?_, ?_, ?_⟩
  · intro s line p0 p1 p2 hs body rest hst hl hc hsz hline hhs
    exact readLoop_request env s line p0 p1 p2 hs body rest hst hl hc hsz hline hhs
  · intro s line1 p0 p1 p2 hs1 body line2 q0 q1 q2 hs2 rest hst hl hh hc hsz h1 h2 h3 h4
    exact readLoop_two_requests env s line1 p0 p1 p2 hs1 body line2 q0 q1 q2 hs2 rest
      hst hl hh hc hsz h1 h2 h3 h4
  · intro verb0 line1 p0 p1 p2 hs1 line2 q0 q1 q2 hs2 h1 h2 h3 h4 hlen
    show onReadAvail env (HttpSession.init verb0) _ = _
    rw [onReadAvail_pass env (HttpSession.init verb0) _
      (by simpa [HttpSession.init] using hlen)]
    have h := readLoop_two_requests env
      { HttpSession.init verb0 with
        m_totalLength := (HttpSession.init verb0).m_totalLength +
          (requestText line1 hs1 [] ++ requestText line2 hs2 []).length }
      line1 p0 p1 p2 hs1 [] line2 q0 q1 q2 hs2 [] rfl rfl rfl rfl
      (by show (0 : Nat) < SIZE_MOD; decide) h1 h2 h3 h4
    rw [List.append_nil, readLoop_nil] at h
    rw [h]
    rfl


set_option maxRecDepth 100000 in
/-- C9 at a fresh session that receives two requests in one chunk, the first with the
header lines `Host`, `B`, `A` in that order and a query string, the second with the one
header line `C`: the first job carries the three headers in the order received, the second
job carries `C` alone and no parameter. -/
theorem C9_request_posted_witness :
    goodRequestLine specEnv "POST /a?x=1 HTTP/1.1".toList "POST".toList "/a?x=1".toList
        "HTTP/1.1".toList = true ∧
    goodHeaders [("Host".toList, " h".toList), ("B".toList, " 2".toList),
        ("A".toList, " 1".toList)] = true ∧
    goodRequestLine specEnv "GET /b HTTP/1.0".toList "GET".toList "/b".toList
        "HTTP/1.0".toList = true ∧
    goodHeaders [("C".toList, " 3".toList)] = true ∧
    requestText "POST /a?x=1 HTTP/1.1".toList
        [("Host".toList, " h".toList), ("B".toList, " 2".toList), ("A".toList, " 1".toList)] []
      ++ requestText "GET /b HTTP/1.0".toList [("C".toList, " 3".toList)] [] =
      "POST /a?x=1 HTTP/1.1\r\nHost: h\r\nB: 2\r\nA: 1\r\n\r\nGET /b HTTP/1.0\r\nC: 3\r\n\r\n".toList ∧
    feed specEnv (HttpSession.init HttpVerb.HTTP_HEAD)
        [requestText "POST /a?x=1 HTTP/1.1".toList
            [("Host".toList, " h".toList), ("B".toList, " 2".toList),
              ("A".toList, " 1".toList)] []
          ++ requestText "GET /b HTTP/1.0".toList [("C".toList, " 3".toList)] []] =
      { HttpSession.init HttpVerb.HTTP_GET with
        events :=
          [Event.pend
            { m_verb := HttpVerb.HTTP_POST, m_uri := "/a".toList,
              m_getParams := [("x".toList, "1".toList)],
              m_incomingHeaders := [("Host".toList, "h".toList), ("B".toList, "2".toList),
                ("A".toList, "1".toList)],
              m_incomingContents := [] },
           Event.pend
            { m_verb := HttpVerb.HTTP_GET, m_uri := "/b".toList, m_getParams := [],
              m_incomingHeaders := [("C".toList, "3".toList)],
              m_incomingContents := [] }] } :=
  ⟨by decide, by decide, by decide, by decide, by decide,
    (C9_request_posted specEnv).2.2.2 HttpVerb.HTTP_HEAD
      "POST /a?x=1 HTTP/1.1".toList "POST".toList "/a?x=1".toList "HTTP/1.1".toList
      [("Host".toList, " h".toList), ("B".toList, " 2".toList), ("A".toList, " 1".toList)]
      "GET /b HTTP/1.0".toList "GET".toList "/b".toList "HTTP/1.0".toList
      [("C".toList, " 3".toList)]
      (by decide) (by decide) (by decide) (by decide) (by decide)⟩

end Poseidon
